import Mathlib

/-!
# Search orchestration core of CaDiCaL (`internal.cpp`, `var.cpp`)

A shallow embedding of `Internal::enlarge`, `Internal::init`,
`Internal::init_limits`, the CDCL dispatch loop, the preprocessing and
local-search drivers, `Internal::solve`, `Internal::traverse_clauses` and
`Internal::check_var_stats`, followed by the properties established about
them.  The MiniSat binding of IPASIR (`ipasirminisatglue.cc`) is embedded in
the namespace `MiniSat`.

Conventions of the embedding.

* Member functions of `Internal` that are defined in other translation units
  (`propagate`, `analyze`, `backtrack`, `report`, ...) are fields of `Env`:
  arbitrary functions on the whole solver state, as a C++ member function may
  write any member.  Theorems that need more than that say so in a hypothesis.
* Every call of such a function is recorded, with the value it returned, in a
  call log kept next to the state (`Run.trace`); the functions of `Env` cannot
  reach the log.  The functions of this file, `init` and `enlarge` apart, also
  record their entry and their return.
* `assert`, `LOG`, `PHASE`, `START`, `STOP` do not change the state and are
  left out (release build); where an assertion matters it is a predicate.
* `int`, `int64_t` are `Int`, `size_t` is `Nat`.  Arithmetic is exact except
  where the source converts to a narrower type or guards against overflow
  (`preprocess_round`, `local_search_round`).  The cast `(size_t) new_max_var`
  is `Int.toNat`: it is applied to values above `max_var`, which is never
  negative.
* `while` loops whose termination depends on `Env` take a fuel argument and
  return `none` when it runs out.
-/

namespace CaDiCaL

/-! ## Data model -/

/-- Classes declared in headers that are not part of the embedded sources,
together with the value their default constructor produces (what
`enlarge_only` pushes). -/
structure Absent where
  Watches : Type
  Var : Type
  Link : Type
  Flags : Type
  Reluctant : Type
  Rest : Type
  watches0 : Watches
  var0 : Var
  link0 : Link
  flags0 : Flags

/-- A clause as far as `traverse_clauses` and `dump` look at it. -/
structure Clause where
  garbage : Bool
  redundant : Bool
  lits : List Int
  deriving DecidableEq

/-- The members of `lim` used in `internal.cpp`. -/
structure Limit where
  initialized : Bool
  conflicts : Int
  decisions : Int
  preprocessing : Int
  localsearch : Int
  compact : Int
  elim : Int
  flush : Int
  probe : Int
  reduce : Int
  rephase : Int
  report : Int
  restart : Int
  stabilize : Int
  subsume : Int
  rephased0 : Int
  rephased1 : Int
  elimbound : Int
  deriving DecidableEq

/-- The members of `inc` used in `internal.cpp`. -/
structure Inc where
  flush : Int
  stabilize : Int
  conflicts : Int
  decisions : Int
  preprocessing : Int
  localsearch : Int
  deriving DecidableEq

/-- The members `last.reduce.conflicts`, `last.elim.marked` and
`last.ternary.marked`. -/
structure Last where
  reduce_conflicts : Int
  elim_marked : Int
  ternary_marked : Int
  deriving DecidableEq

/-- The members of `stats` used in `internal.cpp` and `var.cpp`. -/
structure Stats where
  conflicts : Int
  decisions : Int
  vars : Int
  unused : Int
  inactive : Int
  active : Int
  preprocessings : Int
  current_irredundant : Int
  now_fixed : Int
  now_eliminated : Int
  now_substituted : Int
  now_pure : Int
  deriving DecidableEq

/-- The members of `opts` used in `internal.cpp`.  Options that are only
tested are `Bool`, options that enter arithmetic are `Int`. -/
structure Options where
  reduceint : Int
  flushint : Int
  subsumeint : Int
  elimint : Int
  elimboundmin : Int
  probeint : Int
  compactint : Int
  rephaseint : Int
  restartint : Int
  stabilizeint : Int
  stabilize : Bool
  stabilizeonly : Bool
  reluctant : Int
  reluctantmax : Int
  restoreall : Int
  simplify : Bool
  probe : Bool
  elim : Bool
  walk : Bool
  walkmineff : Int
  phase : Bool
  deriving DecidableEq

/-- The five phase tables `phases.saved/target/best/prev/min`. -/
structure Phases where
  saved : List Int
  target : List Int
  best : List Int
  prev : List Int
  min : List Int
  deriving DecidableEq

/-- The members of `Internal` read or written in `internal.cpp`.  `vals` is
the physical buffer of `2*vsize` cells (`none` is the null pointer); the
literal `lit` lives at offset `lit + vsize`, see `Internal.val`. -/
structure Internal (T : Absent) where
  unsat : Bool
  iterating : Bool
  localsearching : Bool
  preprocessing : Bool
  force_saved_phase : Bool
  termination_forced : Bool
  stable : Bool
  reported : Bool
  vsize : Nat
  max_var : Int
  level : Int
  vals : Option (List Int)
  wtab : List T.Watches
  vtab : List T.Var
  links : List T.Link
  btab : List Int
  stab : List Int
  ptab : List Int
  ftab : List T.Flags
  frozentab : List Int
  phases : Phases
  marks : List Int
  conflict : Option Clause
  propagated : Nat
  trail : List Int
  clause : List Int
  clauses : List Clause
  assumptions : List Int
  lim : Limit
  inc : Inc
  last : Last
  stats : Stats
  opts : Options
  reluctant : T.Reluctant
  rest : T.Rest

/-- Functions of this file whose entry and return are recorded. -/
inductive Fn where
  | preprocess
  | preprocess_round
  | local_search
  | local_search_round
  | try_to_satisfy_formula_by_saved_phases
  | produce_failed_assumptions
  | cdcl_loop_with_inprocessing
  | init_limits
  | solve
  deriving DecidableEq

/-- One entry of the call log: a call of a function defined outside this
file, with its arguments and the value it returned, or the entry / return of
a function of this file. -/
inductive Call where
  | backtrack
  | init_queue (old_max_var new_max_var : Int)
  | init_scores (old_max_var new_max_var : Int)
  | propagate (ok : Bool)
  | analyze
  | iterate
  | satisfied (res : Bool)
  | terminating (res : Bool)
  | restarting (res : Bool)
  | restart
  | rephasing (res : Bool)
  | rephase
  | reducing (res : Bool)
  | reduce
  | probing (res : Bool)
  | probe (arg : Option Bool)
  | subsuming (res : Bool)
  | subsume
  | eliminating (res : Bool)
  | elim (arg : Option Bool)
  | compacting (res : Bool)
  | compact
  | decide (res : Int)
  | learn_empty_clause
  | init_averages
  | swap_averages
  | reluctant_enable (period limit : Int)
  | reluctant_disable
  | restore_clauses
  | lucky_phases (res : Int)
  | walk_round (limit : Int) (ext : Bool) (res : Int)
  | report (c : Char)
  | enter (f : Fn)
  | leave (f : Fn) (res : Int)
  deriving DecidableEq

/-- The functions called from `internal.cpp` that are defined elsewhere.
`probe` and `elim` take `none` for a call without argument.  `scale` stands
for the amount that `scale (x)` adds to an integer limit (its floating-point
arithmetic is not modelled); `tainted_empty` reads
`external->tainted.empty ()`; `active` is `active ()`.  `reluctant_enable`
and `reluctant_disable` are the methods of the member object `reluctant`. -/
structure Env (T : Absent) where
  backtrack : Internal T → Internal T
  init_queue : Int → Int → Internal T → Internal T
  init_scores : Int → Int → Internal T → Internal T
  propagate : Internal T → Bool × Internal T
  analyze : Internal T → Internal T
  iterate : Internal T → Internal T
  satisfied : Internal T → Bool × Internal T
  terminating : Internal T → Bool × Internal T
  restarting : Internal T → Bool × Internal T
  restart : Internal T → Internal T
  rephasing : Internal T → Bool × Internal T
  rephase : Internal T → Internal T
  reducing : Internal T → Bool × Internal T
  reduce : Internal T → Internal T
  probing : Internal T → Bool × Internal T
  probe : Option Bool → Internal T → Internal T
  subsuming : Internal T → Bool × Internal T
  subsume : Internal T → Internal T
  eliminating : Internal T → Bool × Internal T
  elim : Option Bool → Internal T → Internal T
  compacting : Internal T → Bool × Internal T
  compact : Internal T → Internal T
  decide : Internal T → Int × Internal T
  learn_empty_clause : Internal T → Internal T
  init_averages : Internal T → Internal T
  swap_averages : Internal T → Internal T
  reluctant_enable : Int → Int → T.Reluctant → T.Reluctant
  reluctant_disable : T.Reluctant → T.Reluctant
  restore_clauses : Internal T → Internal T
  lucky_phases : Internal T → Int × Internal T
  walk_round : Int → Bool → Internal T → Int × Internal T
  report : Char → Internal T → Internal T
  scale : Internal T → Int → Int
  tainted_empty : Internal T → Bool
  active : Internal T → Int

/-- Solver state together with the log of calls made so far. -/
structure Run (T : Absent) where
  st : Internal T
  trace : List Call

variable {T : Absent}

/-- Call of a `void` function of `Env`. -/
def Run.call (r : Run T) (f : Internal T → Internal T) (ev : Call) : Run T :=
  { st := f r.st, trace := r.trace ++ [ev] }

/-- Call of a function of `Env` that returns a value. -/
def Run.ask {β : Type} (r : Run T) (f : Internal T → β × Internal T)
    (ev : β → Call) : β × Run T :=
  ((f r.st).1, { st := (f r.st).2, trace := r.trace ++ [ev (f r.st).1] })

/-- Record an entry or return of a function of this file. -/
def Run.log (r : Run T) (ev : Call) : Run T :=
  { r with trace := r.trace ++ [ev] }

/-- Apply a state update written in this file. -/
def Run.upd (r : Run T) (f : Internal T → Internal T) : Run T :=
  { r with st := f r.st }

/-! ## Construction and growth of the variable space -/

/-- The constructor `Internal::Internal ()`.  The members with a constructor
of their own (`lim`, `inc`, `last`, `stats`, `opts`, `reluctant`, the rest)
are arguments; vectors start empty. -/
def Internal.new (lim : Limit) (inc : Inc) (last : Last) (stats : Stats)
    (opts : Options) (reluctant : T.Reluctant) (rest : T.Rest) : Internal T :=
  { unsat := false, iterating := false, localsearching := false,
    preprocessing := false, force_saved_phase := false,
    termination_forced := false, stable := false, reported := false,
    vsize := 0, max_var := 0, level := 0, vals := none,
    wtab := [], vtab := [], links := [], btab := [], stab := [], ptab := [],
    ftab := [], frozentab := [],
    phases := { saved := [], target := [], best := [], prev := [], min := [] },
    marks := [], conflict := none, propagated := 0, trail := [], clause := [],
    clauses := [], assumptions := [],
    lim := lim, inc := inc, last := last, stats := stats, opts := opts,
    reluctant := reluctant, rest := rest }

/-- The cell `vals[lit]`: offset `lit + vsize` of the physical buffer.  A
read through the null pointer or outside the buffer gives 0. -/
def Internal.val (s : Internal T) (lit : Int) : Int :=
  match s.vals with
  | none => 0
  | some buf => if 0 ≤ lit + s.vsize then buf.getD (lit + s.vsize).toNat 0 else 0

/-- The function `enlarge_vals`: a zeroed buffer of `2*new_vsize` cells,
shifted by `new_vsize`, into which the cells `-max_var .. max_var` of the old
buffer are copied when there is an old buffer.  `vsize` is not yet updated. -/
def enlarge_vals (new_vsize : Nat) (s : Internal T) : Internal T :=
  { s with vals := some ((List.range (2 * new_vsize)).map fun (i : Nat) =>
      if s.vals.isSome ∧ -s.max_var ≤ (i : Int) - new_vsize
          ∧ (i : Int) - new_vsize ≤ s.max_var
      then s.val ((i : Int) - new_vsize) else 0) }

/-- The template `enlarge_init`: push `i` until the vector has `N` entries. -/
def enlarge_init {α : Type} (v : List α) (N : Nat) (i : α) : List α :=
  v ++ List.replicate (N - v.length) i

/-- The template `enlarge_only`: push default-constructed entries. -/
def enlarge_only {α : Type} (v : List α) (N : Nat) (dflt : α) : List α :=
  enlarge_init v N dflt

/-- The template `enlarge_zero`. -/
def enlarge_zero (v : List Int) (N : Nat) : List Int :=
  enlarge_init v N 0

/-- The loop `while (new_vsize <= (size_t) new_max_var) new_vsize *= 2`. -/
def double_vsize : Nat → Nat → Nat → Nat
  | 0, new_vsize, _ => new_vsize
  | fuel + 1, new_vsize, n =>
    if new_vsize ≤ n then double_vsize fuel (new_vsize * 2) n else new_vsize

/-- The capacity computed at the start of `enlarge`.  The loop runs at most
`new_max_var + 1` times because its start value is positive. -/
def new_vsize (vsize : Nat) (new_max_var : Int) : Nat :=
  double_vsize (new_max_var.toNat + 1)
    (if vsize ≠ 0 then 2 * vsize else 1 + new_max_var.toNat) new_max_var.toNat

/-- The function `Internal::enlarge`. -/
def enlarge (new_max_var : Int) (s : Internal T) : Internal T :=
  let N := new_vsize s.vsize new_max_var
  let s := { s with wtab := enlarge_only s.wtab (2 * N) T.watches0 }
  let s := { s with vtab := enlarge_only s.vtab N T.var0 }
  let s := { s with links := enlarge_only s.links N T.link0 }
  let s := { s with btab := enlarge_zero s.btab N }
  let s := { s with stab := enlarge_zero s.stab N }
  let s := { s with ptab := enlarge_init s.ptab (2 * N) (-1) }
  let s := { s with ftab := enlarge_only s.ftab N T.flags0 }
  let s := enlarge_vals N s
  let s := { s with frozentab := enlarge_zero s.frozentab N }
  let val : Int := if s.opts.phase then 1 else -1
  let s := { s with phases := { s.phases with saved := enlarge_init s.phases.saved N val } }
  let s := { s with phases := { s.phases with target := enlarge_zero s.phases.target N } }
  let s := { s with phases := { s.phases with best := enlarge_zero s.phases.best N } }
  let s := { s with phases := { s.phases with prev := enlarge_zero s.phases.prev N } }
  let s := { s with phases := { s.phases with min := enlarge_zero s.phases.min N } }
  let s := { s with marks := enlarge_zero s.marks N }
  { s with vsize := N }

/-- The function `Internal::init`.  The assertions on the new region are
compiled out. -/
def init (E : Env T) (new_max_var : Int) (r : Run T) : Run T :=
  if new_max_var ≤ r.st.max_var then r
  else
    let r := if r.st.level ≠ 0 then r.call E.backtrack Call.backtrack else r
    let r := if r.st.vsize ≤ new_max_var.toNat then r.upd (enlarge new_max_var) else r
    let old_max_var := r.st.max_var
    let r := r.upd fun s => { s with max_var := new_max_var }
    let r := r.call (E.init_queue old_max_var new_max_var)
      (Call.init_queue old_max_var new_max_var)
    let r := r.call (E.init_scores old_max_var new_max_var)
      (Call.init_scores old_max_var new_max_var)
    let initialized := new_max_var - old_max_var
    r.upd fun s => { s with stats := { s.stats with
      vars := s.stats.vars + initialized,
      unused := s.stats.unused + initialized,
      inactive := s.stats.inactive + initialized } }

/-! ## Limits -/

/-- First part of `Internal::init_limits` (up to `lim.report = 0`): the limits
of the inprocessing passes, set on a first call and kept on an incremental
one, and the limits that are reset on every call. -/
def init_limits_passes (E : Env T) (incremental : Bool) (r : Run T) : Run T :=
  let r := if incremental then r else r.upd fun s =>
    { s with last := { s.last with reduce_conflicts := -1 },
             lim := { s.lim with reduce := s.stats.conflicts + s.opts.reduceint } }
  let r := if incremental then r else r.upd fun s =>
    { s with lim := { s.lim with flush := s.opts.flushint },
             inc := { s.inc with flush := s.opts.flushint } }
  let r := if incremental then r else r.upd fun s =>
    { s with lim := { s.lim with
        subsume := s.stats.conflicts + E.scale s s.opts.subsumeint } }
  let r := if incremental then r else r.upd fun s =>
    { s with last := { s.last with elim_marked := -1 },
             lim := { s.lim with elim := s.stats.conflicts + E.scale s s.opts.elimint } }
  let r := r.upd fun s => { s with lim := { s.lim with elimbound := s.opts.elimboundmin } }
  let r := if incremental then r else r.upd fun s =>
    { s with lim := { s.lim with probe := s.stats.conflicts + s.opts.probeint } }
  let r := if !incremental then r.upd fun s =>
    { s with last := { s.last with ternary_marked := -1 },
             lim := { s.lim with compact := s.stats.conflicts + s.opts.compactint } }
    else r
  let r := r.upd fun s => { s with lim := { s.lim with
    rephase := s.stats.conflicts + s.opts.rephaseint, rephased0 := 0, rephased1 := 0 } }
  let r := r.upd fun s => { s with lim := { s.lim with
    restart := s.stats.conflicts + s.opts.restartint } }
  r.upd fun s => { s with reported := false, lim := { s.lim with report := 0 } }

/-- Second part of `Internal::init_limits`: the choice between stable and
non-stable mode (`assert (stable)` is `init_limits_assertion`). -/
def init_limits_mode (E : Env T) (incremental : Bool) (r : Run T) : Run T :=
  if !incremental then
    let r := r.upd fun s => { s with stable := s.opts.stabilize && s.opts.stabilizeonly }
    r.call E.init_averages Call.init_averages
  else if r.st.opts.stabilize && r.st.opts.stabilizeonly then r
  else if r.st.stable then
    let r := r.upd fun s => { s with stable := false }
    r.call E.swap_averages Call.swap_averages
  else r

/-- Third part of `Internal::init_limits`: from `inc.stabilize` to
`lim.initialized = true`. -/
def init_limits_budgets (E : Env T) (r : Run T) : Run T :=
  let r := r.upd fun s => { s with inc := { s.inc with stabilize := s.opts.stabilizeint } }
  let r := r.upd fun s => { s with lim := { s.lim with
    stabilize := s.stats.conflicts + s.inc.stabilize } }
  let r :=
    if r.st.opts.stabilize && decide (r.st.opts.reluctant ≠ 0) then
      (r.upd fun s => { s with reluctant :=
          (E.reluctant_enable s.opts.reluctant s.opts.reluctantmax s.reluctant) }).log
        (Call.reluctant_enable r.st.opts.reluctant r.st.opts.reluctantmax)
    else
      (r.upd fun s => { s with reluctant := (E.reluctant_disable s.reluctant) }).log
        Call.reluctant_disable
  let r := r.upd fun s => { s with lim := { s.lim with
    conflicts := if s.inc.conflicts < 0 then -1 else s.stats.conflicts + s.inc.conflicts } }
  let r := r.upd fun s => { s with lim := { s.lim with
    decisions := if s.inc.decisions < 0 then -1 else s.stats.decisions + s.inc.decisions } }
  let r := r.upd fun s => { s with lim := { s.lim with
    preprocessing := if s.inc.preprocessing ≤ 0 then 0 else s.inc.preprocessing } }
  let r := r.upd fun s => { s with lim := { s.lim with
    localsearch := if s.inc.localsearch ≤ 0 then 0 else s.inc.localsearch } }
  r.upd fun s => { s with lim := { s.lim with initialized := true } }

/-- The function `Internal::init_limits`, its body in three consecutive parts;
`incremental` is read once, on entry. -/
def init_limits (E : Env T) (r : Run T) : Run T :=
  let r := r.log (Call.enter Fn.init_limits)
  let incremental := r.st.lim.initialized
  let r := init_limits_passes E incremental r
  let r := init_limits_mode E incremental r
  let r := init_limits_budgets E r
  r.log (Call.leave Fn.init_limits 0)

/-- The condition of `assert (stable)` in `init_limits`, where it is reached
(incremental call with stable-only configured); `true` elsewhere. -/
def init_limits_assertion (s : Internal T) : Bool :=
  if s.lim.initialized && (s.opts.stabilize && s.opts.stabilizeonly) then s.stable else true

/-! ## Preprocessing -/

/-- Conversion of a 64-bit value to `int`. -/
def to_int32 (x : Int) : Int := (x + 2 ^ 31) % 2 ^ 32 - 2 ^ 31

/-- Signed 64-bit wrap-around of a product. -/
def wrap64 (x : Int) : Int := (x + 2 ^ 63) % 2 ^ 64 - 2 ^ 63

/-- The constant `LONG_MAX` of an LP64 platform. -/
def LONG_MAX : Int := 2 ^ 63 - 1

/-- The function `Internal::preprocess_round`.  `before.clauses` and
`after.clauses` are only logged; `old_elimbound` is declared `int`. -/
def preprocess_round (E : Env T) (_round : Int) (r : Run T) : Bool × Run T :=
  let r := r.log (Call.enter Fn.preprocess_round)
  if r.st.unsat then (false, r.log (Call.leave Fn.preprocess_round 0))
  else if r.st.max_var = 0 then (false, r.log (Call.leave Fn.preprocess_round 0))
  else
    let before_vars := E.active r.st
    let r := r.upd fun s => { s with stats := { s.stats with
      preprocessings := s.stats.preprocessings + 1 } }
    let r := r.upd fun s => { s with preprocessing := true }
    let old_elimbound := to_int32 r.st.lim.elimbound
    let r := if r.st.opts.probe then r.call (E.probe (some false)) (Call.probe (some false))
      else r
    let r := if r.st.opts.elim then r.call (E.elim (some false)) (Call.elim (some false))
      else r
    let after_vars := E.active r.st
    let r := r.upd fun s => { s with preprocessing := false }
    let r := r.call (E.report 'P') (Call.report 'P')
    if r.st.unsat then (false, r.log (Call.leave Fn.preprocess_round 0))
    else if after_vars < before_vars then (true, r.log (Call.leave Fn.preprocess_round 1))
    else if old_elimbound < r.st.lim.elimbound then
      (true, r.log (Call.leave Fn.preprocess_round 1))
    else (false, r.log (Call.leave Fn.preprocess_round 0))

/-- The loop of `Internal::preprocess`, entered with counter `i`.  The first
component tells whether the loop was left before the fuel ran out. -/
def preprocess_rounds (E : Env T) : Nat → Int → Run T → Bool × Run T
  | 0, _, r => (false, r)
  | fuel + 1, i, r =>
    if i < r.st.lim.preprocessing then
      if !(preprocess_round E i r).1 then (true, (preprocess_round E i r).2)
      else preprocess_rounds E fuel (i + 1) (preprocess_round E i r).2
    else (true, r)

/-- The function `Internal::preprocess`. -/
def preprocess (E : Env T) (fuel : Nat) (r : Run T) : Option Int × Run T :=
  let r := r.log (Call.enter Fn.preprocess)
  let p := if r.st.opts.simplify then preprocess_rounds E fuel 0 r else (true, r)
  if !p.1 then (none, p.2)
  else
    let res : Int := if p.2.st.unsat then 20 else 0
    (some res, p.2.log (Call.leave Fn.preprocess res))

/-! ## Saved phases and failed assumptions -/

/-- The loop of `try_to_satisfy_formula_by_saved_phases`. -/
def saved_phases_loop (E : Env T) : Nat → Run T → Option Int × Run T
  | 0, r => (none, r)
  | fuel + 1, r =>
    let a := r.ask E.satisfied Call.satisfied
    if a.1 then (some 10, a.2)
    else
      let d := a.2.ask E.decide Call.decide
      if d.1 ≠ 0 then (some 20, d.2)
      else
        let p := d.2.ask E.propagate Call.propagate
        if !p.1 then
          let r := p.2.call E.backtrack Call.backtrack
          (some 0, r.upd fun s => { s with conflict := none })
        else saved_phases_loop E fuel p.2

/-- The function `Internal::try_to_satisfy_formula_by_saved_phases`. -/
def try_to_satisfy_formula_by_saved_phases (E : Env T) (fuel : Nat) (r : Run T) :
    Option Int × Run T :=
  let r := r.log (Call.enter Fn.try_to_satisfy_formula_by_saved_phases)
  let r := r.upd fun s => { s with force_saved_phase := true }
  let p := saved_phases_loop E fuel r
  match p.1 with
  | none => (none, p.2)
  | some res =>
    let r := p.2.upd fun s => { s with force_saved_phase := false }
    (some res, r.log (Call.leave Fn.try_to_satisfy_formula_by_saved_phases res))

/-- The inner loop `while (!unsat && !propagate ()) analyze ();`. -/
def propagate_analyze (E : Env T) : Nat → Run T → Bool × Run T
  | 0, r => (false, r)
  | fuel + 1, r =>
    if r.st.unsat then (true, r)
    else
      let p := r.ask E.propagate Call.propagate
      if p.1 then (true, p.2)
      else propagate_analyze E fuel (p.2.call E.analyze Call.analyze)

/-- The outer loop of `produce_failed_assumptions`; `fuel0` is the fuel of
each inner loop. -/
def failed_assumptions_loop (E : Env T) (fuel0 : Nat) : Nat → Run T → Bool × Run T
  | 0, r => (false, r)
  | fuel + 1, r =>
    if r.st.unsat then (true, r)
    else
      let d := r.ask E.decide Call.decide
      if d.1 ≠ 0 then (true, d.2)
      else
        let q := propagate_analyze E fuel0 d.2
        if !q.1 then (false, q.2) else failed_assumptions_loop E fuel0 fuel q.2

/-- The function `Internal::produce_failed_assumptions`; the first component
tells whether it returned. -/
def produce_failed_assumptions (E : Env T) (fuel : Nat) (r : Run T) : Bool × Run T :=
  let r := r.log (Call.enter Fn.produce_failed_assumptions)
  let p := failed_assumptions_loop E fuel fuel r
  if !p.1 then (false, p.2)
  else (true, p.2.log (Call.leave Fn.produce_failed_assumptions 0))

/-! ## Local search -/

/-- The function `Internal::local_search_round`. -/
def local_search_round (E : Env T) (round : Int) (r : Run T) : Int × Run T :=
  let r := r.log (Call.enter Fn.local_search_round)
  if r.st.unsat then (0, r.log (Call.leave Fn.local_search_round 0))
  else if r.st.max_var = 0 then (0, r.log (Call.leave Fn.local_search_round 0))
  else
    let r := r.upd fun s => { s with localsearching := true }
    let limit : Int := r.st.opts.walkmineff
    let limit := wrap64 (limit * round)
    let limit := if Int.tdiv LONG_MAX round > limit then wrap64 (limit * round) else LONG_MAX
    let w := r.ask (E.walk_round limit true) (Call.walk_round limit true)
    let r := w.2.upd fun s => { s with localsearching := false }
    let r := r.call (E.report 'L') (Call.report 'L')
    (w.1, r.log (Call.leave Fn.local_search_round w.1))

/-- The loop `for (int i = 1; !res && i <= lim.localsearch; i++)`. -/
def local_search_rounds (E : Env T) : Nat → Int → Int → Run T → Option Int × Run T
  | 0, _, _, r => (none, r)
  | fuel + 1, i, res, r =>
    if res = 0 ∧ i ≤ r.st.lim.localsearch then
      local_search_rounds E fuel (i + 1) (local_search_round E i r).1
        (local_search_round E i r).2
    else (some res, r)

/-- The function `Internal::local_search`. -/
def local_search (E : Env T) (fuel : Nat) (r : Run T) : Option Int × Run T :=
  let r := r.log (Call.enter Fn.local_search)
  if r.st.unsat then (some 0, r.log (Call.leave Fn.local_search 0))
  else if r.st.max_var = 0 then (some 0, r.log (Call.leave Fn.local_search 0))
  else if !r.st.opts.walk then (some 0, r.log (Call.leave Fn.local_search 0))
  else
    let p := local_search_rounds E fuel 1 0 r
    match p.1 with
    | none => (none, p.2)
    | some res =>
      if res = 10 then
        let q := try_to_satisfy_formula_by_saved_phases E fuel p.2
        match q.1 with
        | none => (none, q.2)
        | some res => (some res, q.2.log (Call.leave Fn.local_search res))
      else if res = 20 then
        let q := produce_failed_assumptions E fuel p.2
        if !q.1 then (none, q.2)
        else (some res, q.2.log (Call.leave Fn.local_search res))
      else (some res, p.2.log (Call.leave Fn.local_search res))

/-! ## The CDCL loop -/

/-- What one pass through the body of the `while` loop leaves behind: the
value of `res` and whether the loop was left by `break`. -/
structure Step where
  res : Int
  brk : Bool
  deriving DecidableEq

/-- The body of the loop of `cdcl_loop_with_inprocessing`. -/
def cdcl_step (E : Env T) (r : Run T) : Step × Run T :=
  if r.st.unsat then (⟨20, false⟩, r)
  else
    let p := r.ask E.propagate Call.propagate
    if !p.1 then (⟨0, false⟩, p.2.call E.analyze Call.analyze)
    else if p.2.st.iterating then (⟨0, false⟩, p.2.call E.iterate Call.iterate)
    else
      let a := p.2.ask E.satisfied Call.satisfied
      if a.1 then (⟨10, false⟩, a.2)
      else
        let t := a.2.ask E.terminating Call.terminating
        if t.1 then (⟨0, true⟩, t.2)
        else
          let q := t.2.ask E.restarting Call.restarting
          if q.1 then (⟨0, false⟩, q.2.call E.restart Call.restart)
          else
            let q := q.2.ask E.rephasing Call.rephasing
            if q.1 then (⟨0, false⟩, q.2.call E.rephase Call.rephase)
            else
              let q := q.2.ask E.reducing Call.reducing
              if q.1 then (⟨0, false⟩, q.2.call E.reduce Call.reduce)
              else
                let q := q.2.ask E.probing Call.probing
                if q.1 then (⟨0, false⟩, q.2.call (E.probe none) (Call.probe none))
                else
                  let q := q.2.ask E.subsuming Call.subsuming
                  if q.1 then (⟨0, false⟩, q.2.call E.subsume Call.subsume)
                  else
                    let q := q.2.ask E.eliminating Call.eliminating
                    if q.1 then (⟨0, false⟩, q.2.call (E.elim none) (Call.elim none))
                    else
                      let q := q.2.ask E.compacting Call.compacting
                      if q.1 then (⟨0, false⟩, q.2.call E.compact Call.compact)
                      else
                        let d := q.2.ask E.decide Call.decide
                        (⟨d.1, false⟩, d.2)

/-- The loop `while (!res) ...` of `cdcl_loop_with_inprocessing`. -/
def cdcl_iterate (E : Env T) : Nat → Run T → Option Int × Run T
  | 0, r => (none, r)
  | fuel + 1, r =>
    if (cdcl_step E r).1.brk then (some (cdcl_step E r).1.res, (cdcl_step E r).2)
    else if (cdcl_step E r).1.res ≠ 0 then (some (cdcl_step E r).1.res, (cdcl_step E r).2)
    else cdcl_iterate E fuel (cdcl_step E r).2

/-- The function `Internal::cdcl_loop_with_inprocessing`. -/
def cdcl_loop_with_inprocessing (E : Env T) (fuel : Nat) (r : Run T) : Option Int × Run T :=
  let r := r.log (Call.enter Fn.cdcl_loop_with_inprocessing)
  let r := if r.st.stable then r.call (E.report '[') (Call.report '[')
    else r.call (E.report '{') (Call.report '{')
  let p := cdcl_iterate E fuel r
  match p.1 with
  | none => (none, p.2)
  | some res =>
    let r := if p.2.st.stable then p.2.call (E.report ']') (Call.report ']')
      else p.2.call (E.report '}') (Call.report '}')
    (some res, r.log (Call.leave Fn.cdcl_loop_with_inprocessing res))

/-! ## The incremental solve -/

/-- Sequencing of two steps of which the first may run out of fuel. -/
def and_then (p : Option Int × Run T) (f : Int → Run T → Option Int × Run T) :
    Option Int × Run T :=
  match p.1 with
  | none => (none, p.2)
  | some res => f res p.2

/-- The restore step of `Internal::solve`: the statements between
`init_limits ()` and `preprocess ()`, and the value of `res` they leave. -/
def restore_step (E : Env T) (r : Run T) : Int × Run T :=
  if decide (r.st.opts.restoreall ≤ 1) && E.tainted_empty r.st then
    (0, r.call (E.report '*') (Call.report '*'))
  else
    let r := r.call (E.report '+') (Call.report '+')
    let r := r.call E.restore_clauses Call.restore_clauses
    let r := r.call (E.report 'r') (Call.report 'r')
    if r.st.unsat then (0, r)
    else
      let p := r.ask E.propagate Call.propagate
      if !p.1 then (20, p.2.call E.learn_empty_clause Call.learn_empty_clause)
      else (0, p.2)

/-- The four `if (!res) ...` statements of `Internal::solve`. -/
def ladder (E : Env T) (fuel : Nat) (res : Int) (r : Run T) : Option Int × Run T :=
  and_then (if res = 0 then preprocess E fuel r else (some res, r)) fun res r =>
  and_then (if res = 0 then local_search E fuel r else (some res, r)) fun res r =>
  and_then (if res = 0 then
      ((r.ask E.lucky_phases Call.lucky_phases).1, (r.ask E.lucky_phases Call.lucky_phases).2)
    else (some res, r)) fun res r =>
  if res = 0 then
    let t := r.ask E.terminating Call.terminating
    if t.1 then (some 0, t.2) else cdcl_loop_with_inprocessing E fuel t.2
  else (some res, r)

/-- The branch `if (unsat) ... else if (!propagate ()) ... else ...` of
`Internal::solve` and the value of `res` it leaves. -/
def solve_branch (E : Env T) (fuel : Nat) (r : Run T) : Option Int × Run T :=
  if r.st.unsat then (some 20, r)
  else
    let p := r.ask E.propagate Call.propagate
    if !p.1 then (some 20, p.2.call E.learn_empty_clause Call.learn_empty_clause)
    else
      let q := restore_step E (init_limits E p.2)
      ladder E fuel q.1 q.2

/-- The end of `Internal::solve`: reset of `termination_forced`, final
report, return. -/
def solve_finish (E : Env T) (res : Int) (r : Run T) : Option Int × Run T :=
  let r := if r.st.termination_forced then
    r.upd fun s => { s with termination_forced := false } else r
  let r := if res = 10 then r.call (E.report '1') (Call.report '1')
    else if res = 20 then r.call (E.report '0') (Call.report '0')
    else r.call (E.report '?') (Call.report '?')
  (some res, r.log (Call.leave Fn.solve res))

/-- The function `Internal::solve`. -/
def solve (E : Env T) (fuel : Nat) (r : Run T) : Option Int × Run T :=
  let r := r.log (Call.enter Fn.solve)
  let r := if r.st.level ≠ 0 then r.call E.backtrack Call.backtrack else r
  and_then (solve_branch E fuel r) (solve_finish E)

/-! ## Properties used as hypotheses about the functions of `Env` -/

/-- The function `f` leaves `max_var` and `vsize` as they are. -/
def KeepsSize (f : Internal T → Internal T) : Prop :=
  ∀ s, (f s).max_var = s.max_var ∧ (f s).vsize = s.vsize

/-- The state `s'` still holds what `s` held: the cells of `vals` for the
literals `-m .. m`, and every entry of every table at its index. -/
def KeepsContents (m : Int) (s s' : Internal T) : Prop :=
  (∀ lit : Int, -m ≤ lit → lit ≤ m → s'.val lit = s.val lit) ∧
  s.wtab <+: s'.wtab ∧ s.vtab <+: s'.vtab ∧ s.links <+: s'.links ∧
  s.btab <+: s'.btab ∧ s.stab <+: s'.stab ∧ s.ptab <+: s'.ptab ∧
  s.ftab <+: s'.ftab ∧ s.frozentab <+: s'.frozentab ∧
  s.phases.saved <+: s'.phases.saved ∧ s.phases.target <+: s'.phases.target ∧
  s.phases.best <+: s'.phases.best ∧ s.phases.prev <+: s'.phases.prev ∧
  s.phases.min <+: s'.phases.min ∧ s.marks <+: s'.marks

/-- The states `s` and `s'` have the same `vals`, `vsize` and tables. -/
def SameTables (s s' : Internal T) : Prop :=
  s'.vals = s.vals ∧ s'.vsize = s.vsize ∧ s'.wtab = s.wtab ∧
    s'.vtab = s.vtab ∧ s'.links = s.links ∧ s'.btab = s.btab ∧
    s'.stab = s.stab ∧ s'.ptab = s.ptab ∧ s'.ftab = s.ftab ∧
    s'.frozentab = s.frozentab ∧ s'.phases = s.phases ∧ s'.marks = s.marks

/-- The function `f` writes none of `lim`, `inc`, `last`, `stats`, `opts`,
`reported`, `stable`. -/
def KeepsLimits (f : Internal T → Internal T) : Prop :=
  ∀ s, (f s).lim = s.lim ∧ (f s).inc = s.inc ∧ (f s).last = s.last ∧
    (f s).stats = s.stats ∧ (f s).opts = s.opts ∧ (f s).reported = s.reported ∧
    (f s).stable = s.stable

/-- States reached from a freshly constructed solver by calls of `init`. -/
inductive Reachable (E : Env T) : Run T → Prop where
  | fresh (lim : Limit) (inc : Inc) (last : Last) (stats : Stats) (opts : Options)
      (reluctant : T.Reluctant) (rest : T.Rest) :
      Reachable E { st := Internal.new lim inc last stats opts reluctant rest, trace := [] }
  | init (n : Int) (r : Run T) : Reachable E r → Reachable E (init E n r)

/-! ## Concrete instances for runs on explicit inputs -/

/-- Absent classes instantiated by `Unit`; the rest of the state is a number. -/
abbrev T0 : Absent :=
  { Watches := Unit, Var := Unit, Link := Unit, Flags := Unit, Reluctant := Unit,
    Rest := Nat, watches0 := (), var0 := (), link0 := (), flags0 := () }

/-- All limits zero, not yet initialised. -/
def lim0 : Limit :=
  { initialized := false, conflicts := 0, decisions := 0, preprocessing := 0,
    localsearch := 0, compact := 0, elim := 0, flush := 0, probe := 0, reduce := 0,
    rephase := 0, report := 0, restart := 0, stabilize := 0, subsume := 0,
    rephased0 := 0, rephased1 := 0, elimbound := 0 }

/-- All increments zero. -/
def inc0 : Inc :=
  { flush := 0, stabilize := 0, conflicts := 0, decisions := 0, preprocessing := 0,
    localsearch := 0 }

/-- No previous trigger points. -/
def last0 : Last := { reduce_conflicts := 0, elim_marked := 0, ternary_marked := 0 }

/-- All counters zero. -/
def stats0 : Stats :=
  { conflicts := 0, decisions := 0, vars := 0, unused := 0, inactive := 0, active := 0,
    preprocessings := 0, current_irredundant := 0, now_fixed := 0, now_eliminated := 0,
    now_substituted := 0, now_pure := 0 }

/-- Some option values. -/
def opts0 : Options :=
  { reduceint := 300, flushint := 100000, subsumeint := 10000, elimint := 2000,
    elimboundmin := 0, probeint := 5000, compactint := 2000, rephaseint := 1000,
    restartint := 2, stabilizeint := 1000, stabilize := true, stabilizeonly := false,
    reluctant := 1024, reluctantmax := 1048576, restoreall := 0, simplify := true,
    probe := true, elim := true, walk := true, walkmineff := 100000, phase := true }

/-- Functions that leave the state alone; every predicate is false, every
integer result 0, propagation succeeds. -/
def E0 : Env T0 :=
  { backtrack := fun s => { s with level := 0 },
    init_queue := fun a b s => { s with rest := s.rest + (b - a).toNat },
    init_scores := fun _ b s => { s with rest := s.rest + b.toNat },
    propagate := fun s => (true, s),
    analyze := id, iterate := id,
    satisfied := fun s => (false, s),
    terminating := fun s => (false, s),
    restarting := fun s => (false, s),
    restart := id,
    rephasing := fun s => (false, s),
    rephase := id,
    reducing := fun s => (false, s),
    reduce := id,
    probing := fun s => (false, s),
    probe := fun _ s => s,
    subsuming := fun s => (false, s),
    subsume := id,
    eliminating := fun s => (false, s),
    elim := fun _ s => s,
    compacting := fun s => (false, s),
    compact := id,
    decide := fun s => (0, s),
    learn_empty_clause := fun s => { s with unsat := true },
    init_averages := fun s => { s with rest := 1 },
    swap_averages := fun s => { s with rest := 2 },
    reluctant_enable := fun _ _ x => x,
    reluctant_disable := fun x => x,
    restore_clauses := id,
    lucky_phases := fun s => (0, s),
    walk_round := fun _ _ s => (0, s),
    report := fun _ s => s,
    scale := fun _ x => x,
    tainted_empty := fun _ => true,
    active := fun s => s.stats.active }

/-- A freshly constructed solver. -/
def s0 : Internal T0 := Internal.new lim0 inc0 last0 stats0 opts0 () 0

/-- A freshly constructed solver with an empty call log. -/
def run0 : Run T0 := { st := s0, trace := [] }

/-- A solver with three variables as a first `solve` may leave it for the
next one: limits initialised, stable mode. -/
def s1 : Internal T0 :=
  { (init E0 3 run0).st with
    lim := { lim0 with initialized := true, reduce := 300, compact := 2000 },
    stable := true }

/-- The state `s1` with an empty call log. -/
def run1 : Run T0 := { st := s1, trace := [] }

/-- The state `s1` with stable-only configured. -/
def run2 : Run T0 :=
  { st := { s1 with opts := { opts0 with stabilizeonly := true } }, trace := [] }

/-- The event recorded for the call on the member `reluctant`. -/
def reluctant_call (opts : Options) : Call :=
  if opts.stabilize && decide (opts.reluctant ≠ 0)
  then Call.reluctant_enable opts.reluctant opts.reluctantmax
  else Call.reluctant_disable

/-! ## The dispatch of the CDCL loop as a priority table -/

/-- A row of the dispatch table: a predicate, which may call a function of
`Env`, and the action taken when it holds. -/
structure Rule (T : Absent) where
  guard : Run T → Bool × Run T
  action : Run T → Step × Run T

/-- Evaluate the predicates of a table in order and take the action of the
first one that holds; `otherwise` when none does.  A predicate after the first
one that holds is not evaluated. -/
def first_match : List (Rule T) → (Run T → Step × Run T) → Run T → Step × Run T
  | [], otherwise, r => otherwise r
  | rule :: rules, otherwise, r =>
    if (rule.guard r).1 then rule.action (rule.guard r).2
    else first_match rules otherwise (rule.guard r).2

/-- An action that calls `f` and goes on with the loop. -/
def go_on (f : Internal T → Internal T) (ev : Call) (r : Run T) : Step × Run T :=
  (⟨0, false⟩, r.call f ev)

/-- The twelve rows of the dispatch, in the order of the specification. -/
def dispatch_table (E : Env T) : List (Rule T) :=
  [ { guard := fun r => (r.st.unsat, r), action := fun r => (⟨20, false⟩, r) },
    { guard := fun r => (!(r.ask E.propagate Call.propagate).1,
        (r.ask E.propagate Call.propagate).2),
      action := go_on E.analyze Call.analyze },
    { guard := fun r => (r.st.iterating, r), action := go_on E.iterate Call.iterate },
    { guard := fun r => r.ask E.satisfied Call.satisfied,
      action := fun r => (⟨10, false⟩, r) },
    { guard := fun r => r.ask E.terminating Call.terminating,
      action := fun r => (⟨0, true⟩, r) },
    { guard := fun r => r.ask E.restarting Call.restarting,
      action := go_on E.restart Call.restart },
    { guard := fun r => r.ask E.rephasing Call.rephasing,
      action := go_on E.rephase Call.rephase },
    { guard := fun r => r.ask E.reducing Call.reducing,
      action := go_on E.reduce Call.reduce },
    { guard := fun r => r.ask E.probing Call.probing,
      action := go_on (E.probe none) (Call.probe none) },
    { guard := fun r => r.ask E.subsuming Call.subsuming,
      action := go_on E.subsume Call.subsume },
    { guard := fun r => r.ask E.eliminating Call.eliminating,
      action := go_on (E.elim none) (Call.elim none) },
    { guard := fun r => r.ask E.compacting Call.compacting,
      action := go_on E.compact Call.compact } ]

/-- The last row: `decide ()`, whose value becomes `res`. -/
def dispatch_otherwise (E : Env T) (r : Run T) : Step × Run T :=
  (⟨(r.ask E.decide Call.decide).1, false⟩, (r.ask E.decide Call.decide).2)

/-- The functions `E0` with a propagation that always finds a conflict. -/
def E_conflict : Env T0 := { E0 with propagate := fun s => (false, s) }

/-- A solver on which an empty clause was derived, left at decision level 2. -/
def run_unsat : Run T0 :=
  { st := { s1 with unsat := true, level := 2 }, trace := [] }

/-! ## Call logs: what a function may record -/

/-- The run `r'` continues `r` and every entry it adds to the call log
satisfies `P`. -/
def Emits (P : Call → Bool) (r r' : Run T) : Prop :=
  ∃ tr, r'.trace = r.trace ++ tr ∧ ∀ e ∈ tr, P e = true

/-- What is recorded between entry and return of `preprocess`. -/
def in_preprocess : Call → Bool
  | Call.enter Fn.preprocess_round => true
  | Call.leave Fn.preprocess_round _ => true
  | Call.probe _ => true
  | Call.elim _ => true
  | Call.report _ => true
  | _ => false

/-- What is recorded between entry and return of `local_search`. -/
def in_local_search : Call → Bool
  | Call.enter Fn.local_search_round => true
  | Call.leave Fn.local_search_round _ => true
  | Call.enter Fn.try_to_satisfy_formula_by_saved_phases => true
  | Call.leave Fn.try_to_satisfy_formula_by_saved_phases _ => true
  | Call.enter Fn.produce_failed_assumptions => true
  | Call.leave Fn.produce_failed_assumptions _ => true
  | Call.walk_round _ _ _ => true
  | Call.report _ => true
  | Call.satisfied _ => true
  | Call.decide _ => true
  | Call.propagate _ => true
  | Call.backtrack => true
  | Call.analyze => true
  | _ => false

/-- What is recorded between entry and return of
`cdcl_loop_with_inprocessing`. -/
def in_cdcl_loop : Call → Bool
  | Call.report _ => true
  | Call.propagate _ => true
  | Call.analyze => true
  | Call.iterate => true
  | Call.satisfied _ => true
  | Call.terminating _ => true
  | Call.restarting _ => true
  | Call.restart => true
  | Call.rephasing _ => true
  | Call.rephase => true
  | Call.reducing _ => true
  | Call.reduce => true
  | Call.probing _ => true
  | Call.probe _ => true
  | Call.subsuming _ => true
  | Call.subsume => true
  | Call.eliminating _ => true
  | Call.elim _ => true
  | Call.compacting _ => true
  | Call.compact => true
  | Call.decide _ => true
  | _ => false

/-- What `solve` records outside the ladder: before it, the calls up to the
restore step; after it, the final report and the return. -/
def around_ladder : Call → Bool
  | Call.enter Fn.solve => true
  | Call.leave Fn.solve _ => true
  | Call.enter Fn.init_limits => true
  | Call.leave Fn.init_limits _ => true
  | Call.backtrack => true
  | Call.propagate _ => true
  | Call.learn_empty_clause => true
  | Call.init_averages => true
  | Call.swap_averages => true
  | Call.reluctant_enable _ _ => true
  | Call.reluctant_disable => true
  | Call.restore_clauses => true
  | Call.report _ => true
  | _ => false

/-- The entries of the call log the ladder of `solve` is read from: entry and
return of `preprocess`, `local_search`, `cdcl_loop_with_inprocessing`, the
calls of `lucky_phases`, and the calls of `terminating`. -/
def is_ladder_event : Call → Bool
  | Call.enter Fn.preprocess => true
  | Call.leave Fn.preprocess _ => true
  | Call.enter Fn.local_search => true
  | Call.leave Fn.local_search _ => true
  | Call.lucky_phases _ => true
  | Call.terminating _ => true
  | Call.enter Fn.cdcl_loop_with_inprocessing => true
  | Call.leave Fn.cdcl_loop_with_inprocessing _ => true
  | _ => false

/-- The ladder events of a call log, in order. -/
def ladder_events (tr : List Call) : List Call := tr.filter is_ladder_event

/-- A call of `terminating`, whatever it returned. -/
def is_terminating : Call → Bool
  | Call.terminating _ => true
  | _ => false

/-- The return entry of a function that returned, nothing for one that did
not (fuel ran out). -/
def closing (f : Fn) : Option Int → List Call
  | some res => [Call.leave f res]
  | none => []

/-- What a function `f` of this file adds to the call log: its entry, what
is recorded inside, and its return if it returned. -/
def stage_log (f : Fn) (inner : List Call) (res : Option Int) : List Call :=
  Call.enter f :: (inner ++ closing f res)

/-- The ladder events up to the return of `preprocess` with 0. -/
def after_preprocess : List Call :=
  [Call.enter Fn.preprocess, Call.leave Fn.preprocess 0]

/-- The ladder events up to the return of `local_search` with 0. -/
def after_local_search : List Call :=
  after_preprocess ++ [Call.enter Fn.local_search, Call.leave Fn.local_search 0]

/-- The ladder events up to the entry of `cdcl_loop_with_inprocessing`. -/
def before_cdcl_loop : List Call :=
  after_local_search ++ [Call.lucky_phases 0, Call.terminating false,
    Call.enter Fn.cdcl_loop_with_inprocessing]

/-- The ladder of `solve` as the specification describes it: the sequences of
ladder events a run may show when `res` is `res0` before the ladder, each with
the value the ladder leaves in `res` (`none`: the stage entered last did not
return).  A stage is entered only after the one before it returned 0, and the
CDCL loop only after `terminating ()` was false on top of that; `ts` are the
calls of `terminating` made inside the CDCL loop. -/
inductive Ladder (res0 : Int) : List Call → Option Int → Prop where
  | skipped : res0 ≠ 0 → Ladder res0 [] (some res0)
  | in_preprocess : res0 = 0 → Ladder res0 [Call.enter Fn.preprocess] none
  | preprocess_decided (x : Int) : res0 = 0 → x ≠ 0 →
      Ladder res0 [Call.enter Fn.preprocess, Call.leave Fn.preprocess x] (some x)
  | in_local_search : res0 = 0 →
      Ladder res0 (after_preprocess ++ [Call.enter Fn.local_search]) none
  | local_search_decided (x : Int) : res0 = 0 → x ≠ 0 →
      Ladder res0 (after_preprocess ++
        [Call.enter Fn.local_search, Call.leave Fn.local_search x]) (some x)
  | lucky_decided (x : Int) : res0 = 0 → x ≠ 0 →
      Ladder res0 (after_local_search ++ [Call.lucky_phases x]) (some x)
  | terminated : res0 = 0 →
      Ladder res0 (after_local_search ++ [Call.lucky_phases 0, Call.terminating true])
        (some 0)
  | in_cdcl_loop (ts : List Call) : res0 = 0 → (∀ e ∈ ts, is_terminating e = true) →
      Ladder res0 (before_cdcl_loop ++ ts) none
  | cdcl_loop_done (ts : List Call) (x : Int) : res0 = 0 →
      (∀ e ∈ ts, is_terminating e = true) →
      Ladder res0 (before_cdcl_loop ++ ts ++ [Call.leave Fn.cdcl_loop_with_inprocessing x])
        (some x)

/-- The functions `E0` with a `restore_clauses` that derives the empty clause. -/
def E_restore : Env T0 := { E0 with restore_clauses := fun s => { s with unsat := true } }

/-- The state `s1` with `opts.restoreall = 2`. -/
def run_restore : Run T0 :=
  { st := { s1 with opts := { opts0 with restoreall := 2 } }, trace := [] }

/-- The functions `E0` with a `satisfied` that always holds. -/
def E_sat : Env T0 := { E0 with satisfied := fun s => (true, s) }

/-! ## The initial values of new slots and the assertions of `init` -/

/-- The cell `vals[lit]` as the buffer holds it: `none` for a read through the
null pointer or outside the buffer. -/
def Internal.cell (s : Internal T) (lit : Int) : Option Int :=
  match s.vals with
  | none => none
  | some buf => if 0 ≤ lit + s.vsize then buf[(lit + s.vsize).toNat]? else none

/-- The statement `if ((size_t) new_max_var >= vsize) enlarge (new_max_var);`
of `init`. -/
def init_enlarge (new_max_var : Int) (s : Internal T) : Internal T :=
  if s.vsize ≤ new_max_var.toNat then enlarge new_max_var s else s

/-- A loop `for (int i = lo; i <= hi; i++) assert (p (i));`. -/
def assert_all (lo hi : Int) (p : Int → Bool) : Bool :=
  (List.range (hi + 1 - lo).toNat).all fun (k : Nat) => p (lo + k)

/-- The assertions of `init` between its call of `enlarge` and its assignment
to `max_var` (the four loops of lines 145-150), read in a state whose `max_var`
is still the old one.  A cell that is asserted has to exist. -/
def init_assertions (new_max_var : Int) (s : Internal T) : Bool :=
  assert_all (-new_max_var) (-s.max_var - 1) (fun i => s.cell i == some 0) &&
  assert_all (s.max_var + 1) new_max_var (fun i => s.cell i == some 0) &&
  assert_all (s.max_var + 1) new_max_var (fun i => s.btab[i.toNat]? == some 0) &&
  assert_all (2 * (s.max_var + 1)) (2 * new_max_var + 1)
    (fun i => s.ptab[i.toNat]? == some (-1))

/-- The vector `new` has `max old.length N` entries, and those at the indices
from `old.length` on are all `x`. -/
def Filled (old new : List Int) (N : Nat) (x : Int) : Prop :=
  new.length = max old.length N ∧
    ∀ i : Nat, old.length ≤ i → i < new.length → new[i]? = some x

/-- The slots beyond `max_var` hold their initial values: the cells of `vals`
for the literals of larger magnitude are zero, the entries of `btab` beyond
index `max_var` are zero, and the entries of `ptab` from index
`2 * (max_var + 1)` on are -1. -/
def BeyondClean (s : Internal T) : Prop :=
  (∀ lit : Int, s.max_var < |lit| → s.val lit = 0) ∧
  (∀ i : Nat, s.max_var < i → i < s.btab.length → s.btab[i]? = some 0) ∧
  (∀ i : Nat, 2 * (s.max_var + 1) ≤ i → i < s.ptab.length → s.ptab[i]? = some (-1))

/-- The buffer of `vals` and the tables `btab` and `ptab` have the sizes that
go with `vsize`. -/
def Sized (s : Internal T) : Prop :=
  (∃ buf, s.vals = some buf ∧ buf.length = 2 * s.vsize) ∧
    s.vsize ≤ s.btab.length ∧ 2 * s.vsize ≤ s.ptab.length

/-- A run in which the first of three variables is assigned true: capacity 4,
`vals[1] = 1`, `vals[-1] = -1`, all other cells zero. -/
def run_assigned : Run T0 :=
  { st := { (init E0 3 run0).st with vals := some [0, 0, 0, -1, 0, 1, 0, 0] }, trace := [] }

/-- The predicates of the class `Flags` read by `check_var_stats`.  The class
is declared outside the sources at hand, so its predicates are taken as they
come. -/
structure FlagsOps (T : Absent) where
  active : T.Flags → Bool
  fixed : T.Flags → Bool
  eliminated : T.Flags → Bool
  substituted : T.Flags → Bool
  unused : T.Flags → Bool
  pure : T.Flags → Bool

/-- The body of the loop of `check_var_stats` at the variable `idx`: whether
the counter that goes with the predicate `p` is incremented, which it is when
the flags `ftab[idx]` are not active and satisfy `p`. -/
def counts_as (F : FlagsOps T) (p : T.Flags → Bool) (s : Internal T) (idx : Nat) : Bool :=
  match s.ftab[idx]? with
  | some f => !F.active f && p f
  | none => false

/-- One counter of the loop of `check_var_stats` after the loop over the
variables `1 .. max_var`. -/
def count_inactive (F : FlagsOps T) (p : T.Flags → Bool) (s : Internal T) : Int :=
  ((List.range s.max_var.toNat).countP fun (k : Nat) => counts_as F p s (k + 1) : Nat)

/-- The function `Internal::check_var_stats`: whether all its assertions
hold. -/
def check_var_stats (F : FlagsOps T) (s : Internal T) : Bool :=
  let fixed := count_inactive F F.fixed s
  let eliminated := count_inactive F F.eliminated s
  let substituted := count_inactive F F.substituted s
  let unused := count_inactive F F.unused s
  let pure := count_inactive F F.pure s
  decide (s.stats.now_fixed = fixed) &&
  decide (s.stats.now_eliminated = eliminated) &&
  decide (s.stats.now_substituted = substituted) &&
  decide (s.stats.now_pure = pure) &&
  decide (s.stats.inactive = unused + fixed + eliminated + substituted + pure) &&
  decide (s.max_var = s.stats.active + s.stats.inactive)

/-- The flags `f` say unused and nothing else. -/
def IsUnused (F : FlagsOps T) (f : T.Flags) : Prop :=
  F.unused f = true ∧ F.active f = false ∧ F.fixed f = false ∧
    F.eliminated f = false ∧ F.substituted f = false ∧ F.pure f = false

/-- The function `f` writes neither `stats`, `max_var`, `vsize` nor `ftab`. -/
def KeepsAccounts (f : Internal T → Internal T) : Prop :=
  ∀ s, (f s).stats = s.stats ∧ (f s).max_var = s.max_var ∧ (f s).vsize = s.vsize ∧
    (f s).ftab = s.ftab

/-- Flag predicates for `T0`, whose flags carry nothing: every variable counts
as unused. -/
def F0 : FlagsOps T0 :=
  { active := fun _ => false, fixed := fun _ => false, eliminated := fun _ => false,
    substituted := fun _ => false, unused := fun _ => true, pure := fun _ => false }

/-! ## Traversal of the irredundant clauses -/

/-- The abstract class `ClauseIterator`, declared outside the sources at hand:
an object with a state of type `σ` whose method `clause` receives a literal
list and answers whether the traversal is to go on. -/
structure ClauseIterator (σ : Type) where
  clause : List Int → σ → Bool × σ

/-- The queries `fixed` (the root-level value of a literal: positive, negative
or zero) and `externalize` of `Internal`, both defined outside the sources at
hand. -/
structure Queries (T : Absent) where
  fixed : Internal T → Int → Int
  externalize : Internal T → Int → Int

/-- The inner loop of `traverse_clauses` over the literals of one clause, from
the literals still to visit and the current `eclause`: the flag `satisfied` and
`eclause` after the loop. -/
def traverse_literals (Q : Queries T) (s : Internal T) : List Int → List Int → Bool × List Int
  | [], eclause => (false, eclause)
  | ilit :: rest, eclause =>
    let tmp := Q.fixed s ilit
    if tmp > 0 then (true, eclause)
    else if tmp < 0 then traverse_literals Q s rest eclause
    else
      let elit := Q.externalize s ilit
      traverse_literals Q s rest (eclause ++ [elit])

/-- The outer loop of `traverse_clauses` over the clauses still to visit, with
the current `eclause` and the state of the iterator. -/
def traverse_loop {σ : Type} (Q : Queries T) (s : Internal T) (it : ClauseIterator σ) :
    List Clause → List Int → σ → Bool × σ
  | [], _, st => (true, st)
  | c :: cs, eclause, st =>
    if c.garbage then traverse_loop Q s it cs eclause st
    else if c.redundant then traverse_loop Q s it cs eclause st
    else
      let p := traverse_literals Q s c.lits eclause
      if !p.1 then
        let a := it.clause p.2 st
        if !a.1 then (false, a.2)
        else traverse_loop Q s it cs [] a.2
      else traverse_loop Q s it cs [] st

/-- The function `Internal::traverse_clauses`: its result and the state of the
iterator afterwards. -/
def traverse_clauses {σ : Type} (Q : Queries T) (it : ClauseIterator σ) (s : Internal T)
    (st : σ) : Bool × σ :=
  let eclause : List Int := []
  if s.unsat then it.clause eclause st
  else traverse_loop Q s it s.clauses eclause st

/-- The literal lists as the specification words them: in the order of the
clause database, for each clause that is neither garbage nor redundant and has
no literal fixed true, the externalization, in clause order, of its literals
that are not fixed false. -/
def reported_clauses (Q : Queries T) (s : Internal T) : List (List Int) :=
  (s.clauses.filter fun c =>
      !c.garbage && !c.redundant && c.lits.all fun l => decide (¬ 0 < Q.fixed s l)).map
    fun c => (c.lits.filter fun l => decide (¬ Q.fixed s l < 0)).map (Q.externalize s)

/-- Handing literal lists to an iterator one after the other, up to the first
answer `false`: whether all were accepted, and the state of the iterator. -/
def hand_over {σ : Type} (it : ClauseIterator σ) : List (List Int) → σ → Bool × σ
  | [], st => (true, st)
  | c :: cs, st =>
    let a := it.clause c st
    if !a.1 then (false, a.2) else hand_over it cs a.2

/-- An iterator that records the lists it receives and answers by `answer`. -/
def recorder (answer : List Int → Bool) : ClauseIterator (List (List Int)) :=
  { clause := fun c log => (answer c, log ++ [c]) }

/-- The lists of `cs` up to and including the first one that `answer`
rejects. -/
def until_rejected (answer : List Int → Bool) : List (List Int) → List (List Int)
  | [] => []
  | c :: cs => if answer c then c :: until_rejected answer cs else [c]

/-- The lists that `traverse_clauses` passes to an iterator that always answers
`true`. -/
def traversed (Q : Queries T) (s : Internal T) : List (List Int) :=
  (traverse_clauses Q (recorder fun _ => true) s []).2

/-- The value of the literal `l` under the assignment `α` of the variables;
0 is not a literal and is never true. -/
def lit_true (α : Nat → Bool) (l : Int) : Bool :=
  if 0 < l then α l.toNat else if l < 0 then !α (-l).toNat else false

/-- The clause `c` has a literal that is true under `α`. -/
def clause_true (α : Nat → Bool) (c : List Int) : Bool :=
  c.any (lit_true α)

/-- Some assignment makes every clause of `F` true. -/
def Satisfiable (F : List (List Int)) : Prop :=
  ∃ α : Nat → Bool, ∀ c ∈ F, clause_true α c = true

/-- Some assignment makes true every clause of the database that is neither
garbage nor redundant and every literal that is fixed true at root. -/
def HeldSatisfiable (Q : Queries T) (s : Internal T) : Prop :=
  ∃ α : Nat → Bool,
    (∀ c ∈ s.clauses, c.garbage = false → c.redundant = false →
      clause_true α c.lits = true) ∧
    (∀ l : Int, 0 < Q.fixed s l → lit_true α l = true)

/-- Queries for runs on explicit inputs: variable 1 is fixed true at root and
`externalize` moves every literal ten variables up. -/
def Q0 : Queries T0 :=
  { fixed := fun _ l => if l = 1 then 1 else if l = -1 then -1 else 0,
    externalize := fun _ l => if 0 < l then l + 10 else if l < 0 then l - 10 else 0 }

/-- A state with five clauses over three variables: one satisfied at root, one
with a literal false at root, one garbage, one redundant, one untouched. -/
def s_clauses : Internal T0 :=
  { s1 with clauses :=
      [{ garbage := false, redundant := false, lits := [1, 2] },
       { garbage := false, redundant := false, lits := [-1, 2, 3] },
       { garbage := true, redundant := false, lits := [3] },
       { garbage := false, redundant := true, lits := [2, 3] },
       { garbage := false, redundant := false, lits := [-2, -3] }] }

/-- The round proper of `preprocess_round`, on the state: the statements from
the counting of the round to the call of `elim` (lines 405-415). -/
def preprocess_round_state (E : Env T) (s : Internal T) : Internal T :=
  let s := { s with stats := { s.stats with preprocessings := s.stats.preprocessings + 1 } }
  let s := { s with preprocessing := true }
  let s := if s.opts.probe then E.probe (some false) s else s
  if s.opts.elim then E.elim (some false) s else s

/-- Probing that fixes a variable and then derives the empty clause. -/
def E_failed : Env T0 :=
  { E0 with probe := fun _ s =>
      { s with unsat := true, stats := { s.stats with active := s.stats.active - 1 } } }

/-- The state `s1` with its three variables active. -/
def run_active : Run T0 :=
  { st := { s1 with stats := { s1.stats with active := 3, unused := 0, inactive := 0 } },
    trace := [] }

/-- Elimination that removes one variable. -/
def E_elim : Env T0 :=
  { E0 with elim := fun _ s =>
      { s with stats := { s.stats with active := s.stats.active - 1 } } }

/-- The result of a round of preprocessing as the call log records it at the
return of `preprocess_round`. -/
def round_result : Call → Option Int
  | Call.leave Fn.preprocess_round v => some v
  | _ => none

/-- The results of the rounds of preprocessing recorded in a call log, in
order. -/
def round_results (t : List Call) : List Int :=
  t.filterMap round_result

/-- The number of calls of `preprocess_round` recorded in a call log. -/
def rounds_entered (t : List Call) : Nat :=
  t.countP fun e => decide (e = Call.enter Fn.preprocess_round)

/-- The function `f` does not write `lim.preprocessing`. -/
def KeepsRounds (f : Internal T → Internal T) : Prop :=
  ∀ s, (f s).lim.preprocessing = s.lim.preprocessing

/-- The state of `run_active` with two rounds of preprocessing allowed. -/
def run_rounds : Run T0 :=
  { st := { run_active.st with lim := { run_active.st.lim with preprocessing := 2 } },
    trace := [] }

/-- The propagation limit that `local_search_round` computes for
`walk_round` (lines 502-505): `int64_t limit = opts.walkmineff; limit *= round;
if (LONG_MAX / round > limit) limit *= round; else limit = LONG_MAX;`. -/
def walk_limit (walkmineff round : Int) : Int :=
  let limit : Int := walkmineff
  let limit := wrap64 (limit * round)
  if Int.tdiv LONG_MAX round > limit then wrap64 (limit * round) else LONG_MAX

/-- The state `s1` with a minimum effort of 83886 for local search. -/
def run_walk : Run T0 :=
  { st := { s1 with opts := { opts0 with walkmineff := 83886 } }, trace := [] }

/-- What one full iteration of the loop of
`try_to_satisfy_formula_by_saved_phases` records: the formula is not yet
satisfied, the decision succeeds and propagation finds no conflict. -/
def saved_phase_step : List Call :=
  [Call.satisfied false, Call.decide 0, Call.propagate true]

/-- The four ways in which the loop of `try_to_satisfy_formula_by_saved_phases`
ends after `k` full iterations, with the result, what the last, partial
iteration records and the state: satisfied (10), a decision that fails (20), a
conflict that is backtracked and dropped (0), or, in the model, the end of the
`fuel` iterations. -/
def SavedPhasesEnd (fuel k : Nat) (res : Option Int) (last : List Call) (s : Internal T) :
    Prop :=
  (res = some 10 ∧ last = [Call.satisfied true]) ∨
  (res = some 20 ∧ ∃ d : Int, d ≠ 0 ∧ last = [Call.satisfied false, Call.decide d]) ∨
  (res = some 0 ∧ s.conflict = none ∧
    last = [Call.satisfied false, Call.decide 0, Call.propagate false, Call.backtrack]) ∨
  (res = none ∧ last = [] ∧ k = fuel)

/-- The function `f` does not write `unsat`. -/
def KeepsUnsat (f : Internal T → Internal T) : Prop :=
  ∀ s, (f s).unsat = s.unsat

end CaDiCaL

namespace MiniSat

/-! ## The MiniSat binding of IPASIR (`ipasirminisatglue.cc`) -/

/-- The type `lbool` of MiniSat. -/
inductive LBool where
  | l_True
  | l_False
  | l_Undef
deriving DecidableEq

/-- A literal of MiniSat, as `mkLit (var, sign)` makes it and `var` reads
it. -/
structure Lit where
  var : Int
  sign : Bool
deriving DecidableEq

/-- The members of the base class `Solver` that the binding uses.  The class
is declared in `Solver.h`, outside the sources at hand; `σ` is its state. -/
structure Solver (σ : Type) where
  nVars : σ → Int
  newVar : σ → σ
  addClause : List Lit → σ → σ
  solveLimited : List Lit → σ → LBool × σ
  modelValue : Lit → σ → LBool
  conflict : σ → List Lit

/-- The class `IPAsirMiniSAT`: the state of its base class and its own
members.  `fmap` is `none` for the null pointer. -/
structure IPAsirMiniSAT (σ : Type) where
  base : σ
  assumptions : List Lit
  clause : List Lit
  szfmap : Int
  fmap : Option (List Nat)
  nomodel : Bool
  calls : Nat

variable {σ : Type}

/-- The constructor `IPAsirMiniSAT ()`, on the state that the constructor of
the base class has made. -/
def IPAsirMiniSAT.new (base : σ) : IPAsirMiniSAT σ :=
  { base := base, assumptions := [], clause := [], szfmap := 0, fmap := none,
    nomodel := false, calls := 0 }

/-- The function `reset`. -/
def reset (s : IPAsirMiniSAT σ) : IPAsirMiniSAT σ :=
  if s.fmap.isSome then { s with fmap := none, szfmap := 0 } else s

/-- The loop `while (abs (lit) > nVars ()) (void) newVar ();` of `import`;
`none` when the fuel runs out. -/
def import_vars (B : Solver σ) : Nat → Int → σ → Option σ
  | 0, lit, b => if |lit| > B.nVars b then none else some b
  | fuel + 1, lit, b =>
    if |lit| > B.nVars b then import_vars B fuel lit (B.newVar b) else some b

/-- The function `import` (a reserved word here, hence the name): the literal
of MiniSat for `lit`, after making the variables it needs. -/
def import_lit (B : Solver σ) (fuel : Nat) (lit : Int) (s : IPAsirMiniSAT σ) :
    Option (Lit × IPAsirMiniSAT σ) :=
  match import_vars B fuel lit s.base with
  | none => none
  | some b => some ({ var := |lit| - 1, sign := decide (lit < 0) }, { s with base := b })

/-- One step of the loop of `ana`: `fmap[tmp] = 1` for `tmp = var
(conflict[i])`.  A write outside the array does not happen. -/
def mark (m : List Nat) (l : Lit) : List Nat :=
  if 0 ≤ l.var ∧ l.var < m.length then m.set l.var.toNat 1 else m

/-- The function `add`. -/
def add (B : Solver σ) (fuel : Nat) (lit : Int) (s : IPAsirMiniSAT σ) :
    Option (IPAsirMiniSAT σ) :=
  let s := reset s
  let s := { s with nomodel := true }
  if lit ≠ 0 then
    match import_lit B fuel lit s with
    | none => none
    | some (l, s) => some { s with clause := s.clause ++ [l] }
  else some { s with base := B.addClause s.clause s.base, clause := [] }

/-- The function `assume`. -/
def assume (B : Solver σ) (fuel : Nat) (lit : Int) (s : IPAsirMiniSAT σ) :
    Option (IPAsirMiniSAT σ) :=
  let s := reset s
  let s := { s with nomodel := true }
  match import_lit B fuel lit s with
  | none => none
  | some (l, s) => some { s with assumptions := s.assumptions ++ [l] }

/-- The function `solve`; `calls` is an `unsigned long long`. -/
def solve (B : Solver σ) (s : IPAsirMiniSAT σ) : Int × IPAsirMiniSAT σ :=
  let s := { s with calls := (s.calls + 1) % 2 ^ 64 }
  let s := reset s
  let res := B.solveLimited s.assumptions s.base
  let s := { s with base := res.2 }
  let s := { s with assumptions := [] }
  let s := { s with nomodel := decide (res.1 ≠ LBool.l_True) }
  ((if res.1 = LBool.l_Undef then 0 else if res.1 = LBool.l_True then 10 else 20), s)

/-- The function `val`. -/
def val (B : Solver σ) (fuel : Nat) (lit : Int) (s : IPAsirMiniSAT σ) :
    Option (Int × IPAsirMiniSAT σ) :=
  if s.nomodel then some (0, s)
  else
    match import_lit B fuel lit s with
    | none => none
    | some (l, s) =>
      let res := B.modelValue l s.base
      some ((if res = LBool.l_True then lit else -lit), s)

/-- A base solver for runs on explicit inputs: a counter of variables, a
model, a final conflict clause and the answer of the next `solveLimited`. -/
structure Base0 where
  nvars : Int
  model : List Bool
  conflict : List Lit
  answer : LBool
deriving DecidableEq

/-- The operations on `Base0`: `solveLimited` gives the prepared answer, and
`modelValue` reads the model, `l_Undef` where it has no entry. -/
def B0 : Solver Base0 :=
  { nVars := fun b => b.nvars,
    newVar := fun b => { b with nvars := b.nvars + 1 },
    addClause := fun _ b => b,
    solveLimited := fun _ b => (b.answer, b),
    modelValue := fun l b =>
      match b.model[l.var.toNat]? with
      | some v => if v != l.sign then LBool.l_True else LBool.l_False
      | none => LBool.l_Undef,
    conflict := fun b => b.conflict }

/-- A base solver without variables. -/
def base0 : Base0 := { nvars := 0, model := [], conflict := [], answer := LBool.l_Undef }

end MiniSat

namespace CaDiCaL

/-! ## What `init` keeps: its collaborators on the new variables -/

/-- The function `f`, called by `init` to initialise the variables above `a`,
writes neither `vals`, `vsize` nor a table other than `links`, `btab` and
`stab`, and leaves the entries of `btab` and `stab` of the variables up to `a`
as they are. -/
def InitialisesAbove (a : Int) (f : Internal T → Internal T) : Prop :=
  ∀ s, (f s).vals = s.vals ∧ (f s).vsize = s.vsize ∧ (f s).wtab = s.wtab ∧
    (f s).vtab = s.vtab ∧ (f s).ptab = s.ptab ∧ (f s).ftab = s.ftab ∧
    (f s).frozentab = s.frozentab ∧ (f s).phases = s.phases ∧ (f s).marks = s.marks ∧
    ∀ i : Nat, (i : Int) ≤ a →
      (f s).btab[i]? = s.btab[i]? ∧ (f s).stab[i]? = s.stab[i]?

/-- The state `s'` still holds what `s` held for the variables up to `m`: the
cells of `vals` for the literals `-m .. m`, every entry of every table other
than `links`, `btab` and `stab` at its index, and the entries of `btab` and
`stab` at the indices up to `m`. -/
def KeepsOld (m : Int) (s s' : Internal T) : Prop :=
  (∀ lit : Int, -m ≤ lit → lit ≤ m → s'.val lit = s.val lit) ∧
  s.wtab <+: s'.wtab ∧ s.vtab <+: s'.vtab ∧ s.ptab <+: s'.ptab ∧
  s.ftab <+: s'.ftab ∧ s.frozentab <+: s'.frozentab ∧
  s.phases.saved <+: s'.phases.saved ∧ s.phases.target <+: s'.phases.target ∧
  s.phases.best <+: s'.phases.best ∧ s.phases.prev <+: s'.phases.prev ∧
  s.phases.min <+: s'.phases.min ∧ s.marks <+: s'.marks ∧
  (∀ i : Nat, (i : Int) ≤ m → i < s.btab.length → s'.btab[i]? = s.btab[i]?) ∧
  (∀ i : Nat, (i : Int) ≤ m → i < s.stab.length → s'.stab[i]? = s.stab[i]?)

/-- Collaborators of `init` that do on explicit inputs what their names say:
`backtrack` unassigns every literal and returns to level 0, and `init_queue`
stamps the entries of `btab` of the new variables. -/
def E_stamp : Env T0 :=
  { E0 with
    backtrack := fun s =>
      { s with level := 0, vals := s.vals.map fun buf => buf.map fun _ => 0 },
    init_queue := fun a b s =>
      { s with btab := (List.range s.btab.length).map fun (i : Nat) =>
          if a < (i : Int) ∧ (i : Int) ≤ b then (i : Int) else s.btab.getD i 0 } }

/-- The state of `run_assigned` with entries in its tables that are not the
values `enlarge` fills in. -/
def run_stamped : Run T0 :=
  { st := { run_assigned.st with
      btab := [0, 1, 2, 3], stab := [0, 7, 5, 6], ptab := [-1, -1, 0, -1, -1, -1, -1, -1],
      frozentab := [0, 2, 0, 0], marks := [0, 0, 1, 0],
      phases := { saved := [1, 1, -1, 1], target := [0, 1, 0, 0], best := [0, -1, 0, 0],
                  prev := [0, 0, 1, 0], min := [0, 0, 0, -1] } },
    trace := [] }

/-- The state of `run_stamped` at decision level 1. -/
def run_decided : Run T0 :=
  { st := { run_stamped.st with level := 1 }, trace := [] }

/-! ## Growth of the variable space: auxiliary facts -/

theorem double_vsize_gt (fuel v n : Nat) (hv : 0 < v) (hf : n < v + fuel) :
    n < double_vsize fuel v n := by
  induction fuel generalizing v with
  | zero => simpa [double_vsize] using hf
  | succ k ih =>
    unfold double_vsize
    split
    · apply ih <;> omega
    · omega

theorem double_vsize_pow (fuel v n : Nat) :
    ∃ k, double_vsize fuel v n = v * 2 ^ k ∧ (k = 0 ∨ double_vsize fuel v n / 2 ≤ n) := by
  induction fuel generalizing v with
  | zero => exact ⟨0, by simp [double_vsize]⟩
  | succ j ih =>
    unfold double_vsize
    split
    · rename_i hle
      obtain ⟨k, hk, hk2⟩ := ih (v * 2)
      refine ⟨k + 1, by rw [hk]; ring, Or.inr ?_⟩
      rcases hk2 with h0 | h2
      · subst h0
        rw [hk]
        simp
        omega
      · exact h2
    · exact ⟨0, by simp⟩

theorem new_vsize_gt (vsize : Nat) (n : Int) : n < (new_vsize vsize n : Int) := by
  have h : n.toNat < new_vsize vsize n := by
    unfold new_vsize
    apply double_vsize_gt
    · split <;> omega
    · split <;> omega
  omega

theorem enlarge_vsize (n : Int) (s : Internal T) :
    (enlarge n s).vsize = new_vsize s.vsize n := rfl

theorem enlarge_max_var (n : Int) (s : Internal T) :
    (enlarge n s).max_var = s.max_var := rfl

theorem enlarge_init_prefix {α : Type} (v : List α) (N : Nat) (i : α) :
    v <+: enlarge_init v N i := List.prefix_append _ _

theorem range_map_getD (f : Nat → Int) (n i : Nat) (h : i < n) :
    ((List.range n).map f).getD i 0 = f i := by
  simp [List.getD_eq_getElem?_getD, List.getElem?_map, List.getElem?_range, h]

theorem val_of_buffer (s : Internal T) (buf : List Int) (lit : Int)
    (hv : s.vals = some buf) (h : 0 ≤ lit + s.vsize) :
    s.val lit = buf.getD (lit + s.vsize).toNat 0 := by
  unfold Internal.val
  rw [hv]
  simp [h]

theorem val_of_null (s : Internal T) (lit : Int) (hv : s.vals = none) : s.val lit = 0 := by
  unfold Internal.val
  rw [hv]

theorem enlarge_vals_eq (n : Int) (s : Internal T) :
    (enlarge n s).vals = some ((List.range (2 * new_vsize s.vsize n)).map fun (i : Nat) =>
      if s.vals.isSome ∧ -s.max_var ≤ (i : Int) - new_vsize s.vsize n
          ∧ (i : Int) - new_vsize s.vsize n ≤ s.max_var
      then s.val ((i : Int) - new_vsize s.vsize n) else 0) := rfl

theorem enlarge_val (n : Int) (s : Internal T) (lit : Int)
    (h1 : -s.max_var ≤ lit) (h2 : lit ≤ s.max_var) (h3 : s.max_var ≤ n) :
    (enlarge n s).val lit = s.val lit := by
  have hN := new_vsize_gt s.vsize n
  have hlt : (lit + (new_vsize s.vsize n : Int)).toNat < 2 * new_vsize s.vsize n := by omega
  have hcast : (((lit + (new_vsize s.vsize n : Int)).toNat : Nat) : Int)
      - (new_vsize s.vsize n : Int) = lit := by omega
  have hnn : 0 ≤ lit + ((enlarge n s).vsize : Int) := by rw [enlarge_vsize]; omega
  rw [val_of_buffer (enlarge n s) _ lit (enlarge_vals_eq n s) hnn, enlarge_vsize,
    range_map_getD _ _ _ hlt, hcast]
  cases hv : s.vals with
  | none => simp [val_of_null s lit hv]
  | some buf => simp [h1, h2]

theorem enlarge_keeps (n : Int) (s : Internal T) (h : s.max_var ≤ n) :
    KeepsContents s.max_var s (enlarge n s) := by
  refine ⟨fun lit h1 h2 => enlarge_val n s lit h1 h2 h, ?_⟩
  simp only [enlarge, enlarge_vals, enlarge_only, enlarge_zero]
  refine ⟨?_, ?_, ?_, ?_, ?_, ?_, ?_, ?_, ?_, ?_, ?_, ?_, ?_, ?_⟩ <;>
    exact enlarge_init_prefix _ _ _

/-! ## Growth of the variable space: `init` -/

@[simp] theorem Run.call_st (r : Run T) (f : Internal T → Internal T) (ev : Call) :
    (r.call f ev).st = f r.st := rfl

@[simp] theorem Run.call_trace (r : Run T) (f : Internal T → Internal T) (ev : Call) :
    (r.call f ev).trace = r.trace ++ [ev] := rfl

@[simp] theorem Run.ask_fst {β : Type} (r : Run T) (f : Internal T → β × Internal T)
    (ev : β → Call) : (r.ask f ev).1 = (f r.st).1 := rfl

@[simp] theorem Run.ask_st {β : Type} (r : Run T) (f : Internal T → β × Internal T)
    (ev : β → Call) : (r.ask f ev).2.st = (f r.st).2 := rfl

@[simp] theorem Run.ask_trace {β : Type} (r : Run T) (f : Internal T → β × Internal T)
    (ev : β → Call) : (r.ask f ev).2.trace = r.trace ++ [ev (f r.st).1] := rfl

@[simp] theorem Run.log_st (r : Run T) (ev : Call) : (r.log ev).st = r.st := rfl

@[simp] theorem Run.log_trace (r : Run T) (ev : Call) :
    (r.log ev).trace = r.trace ++ [ev] := rfl

@[simp] theorem Run.upd_st (r : Run T) (f : Internal T → Internal T) :
    (r.upd f).st = f r.st := rfl

@[simp] theorem Run.upd_trace (r : Run T) (f : Internal T → Internal T) :
    (r.upd f).trace = r.trace := rfl

theorem init_noop (E : Env T) (n : Int) (r : Run T) (h : n ≤ r.st.max_var) :
    init E n r = r := by
  simp [init, h]

theorem init_max_var_eq (E : Env T) (n : Int) (r : Run T)
    (hq : ∀ a b s, (E.init_queue a b s).max_var = s.max_var)
    (hs : ∀ a b s, (E.init_scores a b s).max_var = s.max_var)
    (h : r.st.max_var < n) : (init E n r).st.max_var = n := by
  have h' : ¬ n ≤ r.st.max_var := by omega
  simp [init, h', hq, hs]

theorem init_vsize_gt (E : Env T) (n : Int) (r : Run T)
    (hq : ∀ a b, KeepsSize (E.init_queue a b))
    (hs : ∀ a b, KeepsSize (E.init_scores a b))
    (h : r.st.max_var < n) : n < ((init E n r).st.vsize : Int) := by
  have h' : ¬ n ≤ r.st.max_var := by omega
  simp only [init, h', if_false, Run.upd_st, Run.call_st, (hq _ _ _).2, (hs _ _ _).2]
  generalize (if r.st.level ≠ 0 then r.call E.backtrack Call.backtrack else r) = r1
  by_cases hc : r1.st.vsize ≤ n.toNat
  · simp only [hc, if_true, Run.upd_st, enlarge_vsize]
    exact new_vsize_gt _ _
  · simp only [hc, if_false]
    omega

theorem val_congr (s s' : Internal T) (hv : s'.vals = s.vals) (hz : s'.vsize = s.vsize)
    (lit : Int) : s'.val lit = s.val lit := by
  unfold Internal.val
  rw [hv, hz]

theorem keepsContents_of_same (m : Int) (s s' : Internal T) (h : SameTables s s') :
    KeepsContents m s s' := by
  obtain ⟨h1, h2, h3, h4, h5, h6, h7, h8, h9, h10, h11, h12⟩ := h
  refine ⟨fun lit _ _ => val_congr s s' h1 h2 lit, ?_⟩
  simp [h3, h4, h5, h6, h7, h8, h9, h10, h11, h12]

theorem keepsContents_trans (m : Int) (a b c : Internal T) (h1 : KeepsContents m a b)
    (h2 : KeepsContents m b c) : KeepsContents m a c := by
  obtain ⟨v1, w1, x1, l1, b1, s1, p1, f1, z1, ps1, pt1, pb1, pp1, pm1, m1⟩ := h1
  obtain ⟨v2, w2, x2, l2, b2, s2, p2, f2, z2, ps2, pt2, pb2, pp2, pm2, m2⟩ := h2
  exact ⟨fun lit ha hb => (v2 lit ha hb).trans (v1 lit ha hb), w1.trans w2, x1.trans x2,
    l1.trans l2, b1.trans b2, s1.trans s2, p1.trans p2, f1.trans f2, z1.trans z2,
    ps1.trans ps2, pt1.trans pt2, pb1.trans pb2, pp1.trans pp2, pm1.trans pm2, m1.trans m2⟩

theorem sameTables_refl (s : Internal T) : SameTables s s := by
  simp [SameTables]

theorem reachable_inv (E : Env T) (hq : ∀ a b, KeepsSize (E.init_queue a b))
    (hs : ∀ a b, KeepsSize (E.init_scores a b)) (r : Run T) (hr : Reachable E r) :
    0 ≤ r.st.max_var ∧
      (r.st.max_var = 0 ∧ r.st.vsize = 0 ∨ r.st.max_var + 1 ≤ (r.st.vsize : Int)) := by
  induction hr with
  | fresh lim inc last stats opts reluctant rest => simp [Internal.new]
  | init n r _ ih =>
    by_cases h : n ≤ r.st.max_var
    · rw [init_noop E n r h]
      exact ih
    · have hlt : r.st.max_var < n := by omega
      have h1 := init_max_var_eq E n r (fun a b s => (hq a b s).1) (fun a b s => (hs a b s).1) hlt
      have h2 := init_vsize_gt E n r hq hs hlt
      omega

theorem new_vsize_zero (n : Int) : new_vsize 0 n = n.toNat + 1 := by
  simp [new_vsize, double_vsize]
  omega

theorem new_vsize_doubled (vsize : Nat) (n : Int) (h0 : vsize ≠ 0) (hle : vsize ≤ n.toNat) :
    ∃ k, 1 ≤ k ∧ new_vsize vsize n = vsize * 2 ^ k ∧ n < (new_vsize vsize n : Int) ∧
      new_vsize vsize n / 2 ≤ n.toNat := by
  have hgt := new_vsize_gt vsize n
  obtain ⟨k, hk, hk2⟩ := double_vsize_pow (n.toNat + 1) (2 * vsize) n.toNat
  have he : new_vsize vsize n = double_vsize (n.toNat + 1) (2 * vsize) n.toNat := by
    simp [new_vsize, h0]
  refine ⟨k + 1, by omega, by rw [he, hk]; ring, hgt, ?_⟩
  rcases hk2 with hz | hh
  · subst hz
    rw [he, hk]
    simp
    omega
  · rw [he]
    exact hh

theorem init_vsize_eq (E : Env T) (hb : KeepsSize E.backtrack)
    (hq : ∀ a b, KeepsSize (E.init_queue a b))
    (hs : ∀ a b, KeepsSize (E.init_scores a b)) (n : Int) (r : Run T) :
    (init E n r).st.vsize =
      if r.st.max_var < n ∧ r.st.vsize ≤ n.toNat then (enlarge n r.st).vsize
      else r.st.vsize := by
  by_cases h : n ≤ r.st.max_var
  · have h' : ¬ r.st.max_var < n := by omega
    simp [init_noop E n r h, h']
  · have hlt : r.st.max_var < n := by omega
    simp only [init, h, if_false, Run.upd_st, Run.call_st, (hq _ _ _).2, (hs _ _ _).2, hlt,
      true_and]
    by_cases hl : r.st.level ≠ 0
    · rw [if_pos hl]
      by_cases hc : r.st.vsize ≤ n.toNat
      · rw [if_pos (by rw [Run.call_st, (hb _).2]; exact hc), if_pos hc, Run.upd_st,
          Run.call_st, enlarge_vsize, enlarge_vsize, (hb _).2]
      · rw [if_neg (by rw [Run.call_st, (hb _).2]; exact hc), if_neg hc, Run.call_st,
          (hb _).2]
    · rw [if_neg hl]
      by_cases hc : r.st.vsize ≤ n.toNat
      · rw [if_pos hc, if_pos hc, Run.upd_st]
      · rw [if_neg hc, if_neg hc]

/-- C8: `init (v)` twice is `init (v)` once.  A call with
`new_max_var <= max_var` changes nothing at all (no member and no entry of the
call log), and, `init_queue` and `init_scores` not writing `max_var`, after
`init (v)` the member `max_var` is at least `v`. -/
theorem init_idempotent (E : Env T) (v : Int) (r : Run T)
    (hq : ∀ a b s, (E.init_queue a b s).max_var = s.max_var)
    (hs : ∀ a b s, (E.init_scores a b s).max_var = s.max_var) :
    (∀ n, n ≤ r.st.max_var → init E n r = r) ∧ v ≤ (init E v r).st.max_var ∧
      init E v (init E v r) = init E v r := by
  have hge : v ≤ (init E v r).st.max_var := by
    by_cases h : v ≤ r.st.max_var
    · rw [init_noop E v r h]
      exact h
    · rw [init_max_var_eq E v r hq hs (by omega)]
  exact ⟨fun n h => init_noop E n r h, hge, init_noop E v _ hge⟩

theorem init_idempotent_witness :
    (∀ a b s, (E0.init_queue a b s).max_var = s.max_var) ∧
    (∀ a b s, (E0.init_scores a b s).max_var = s.max_var) ∧
    ((∀ n, n ≤ run0.st.max_var → init E0 n run0 = run0) ∧
      (3 : Int) ≤ (init E0 3 run0).st.max_var ∧
      init E0 3 (init E0 3 run0) = init E0 3 run0) :=
  ⟨fun _ _ _ => rfl, fun _ _ _ => rfl,
    init_idempotent E0 3 run0 (fun _ _ _ => rfl) (fun _ _ _ => rfl)⟩

/-- C9, as stated, fails in the state of a freshly constructed solver on which
`init (0)` has been called: there `vsize` is 0 and `max_var + 1` is 1. -/
theorem init_growth_counterexample :
    Reachable E0 (init E0 0 run0) ∧
      ¬ ((init E0 0 run0).st.max_var + 1 ≤ ((init E0 0 run0).st.vsize : Int)) :=
  ⟨Reachable.init 0 run0 (@Reachable.fresh T0 E0 lim0 inc0 last0 stats0 opts0 () (0 : Nat)), by decide⟩

/-- C9, amended: in every state reached from a freshly constructed solver by
calls of `init`, with `backtrack`, `init_queue` and `init_scores` not writing
`max_var` and `vsize`: `max_var` is not negative; either `max_var` and `vsize`
are both still 0 or `vsize >= max_var + 1`; `init (n)` sets `max_var` to the
maximum of its old value and `n`; and `init (n)` changes `vsize` only by running
`enlarge`, which it does when `n > max_var` and `n >= vsize`: the new capacity
is then `n + 1` if `vsize` was 0 and otherwise the first of `2*vsize`,
`4*vsize`, ... that exceeds `n`. -/
theorem init_growth (E : Env T) (hb : KeepsSize E.backtrack)
    (hq : ∀ a b, KeepsSize (E.init_queue a b))
    (hs : ∀ a b, KeepsSize (E.init_scores a b)) (r : Run T) (hr : Reachable E r) :
    0 ≤ r.st.max_var ∧
    (r.st.max_var = 0 ∧ r.st.vsize = 0 ∨ r.st.max_var + 1 ≤ (r.st.vsize : Int)) ∧
    (∀ n, (init E n r).st.max_var = max r.st.max_var n) ∧
    (∀ n, (init E n r).st.vsize =
      if r.st.max_var < n ∧ r.st.vsize ≤ n.toNat then (enlarge n r.st).vsize
      else r.st.vsize) ∧
    (∀ n, r.st.max_var < n → r.st.vsize ≤ n.toNat →
      (r.st.vsize = 0 → ((enlarge n r.st).vsize : Int) = n + 1) ∧
      (r.st.vsize ≠ 0 → ∃ k, 1 ≤ k ∧ (enlarge n r.st).vsize = r.st.vsize * 2 ^ k ∧
        n < ((enlarge n r.st).vsize : Int) ∧ (enlarge n r.st).vsize / 2 ≤ n.toNat)) := by
  obtain ⟨h0, hinv⟩ := reachable_inv E hq hs r hr
  refine ⟨h0, hinv, ?_, fun n => init_vsize_eq E hb hq hs n r, ?_⟩
  · intro n
    by_cases h : n ≤ r.st.max_var
    · rw [init_noop E n r h, max_eq_left h]
    · rw [init_max_var_eq E n r (fun a b s => (hq a b s).1) (fun a b s => (hs a b s).1)
        (by omega), max_eq_right (by omega)]
  · intro n hlt hle
    refine ⟨fun hz => ?_, fun hnz => ?_⟩
    · rw [enlarge_vsize, hz, new_vsize_zero]
      omega
    · rw [enlarge_vsize]
      exact new_vsize_doubled _ _ hnz hle

theorem init_growth_witness :
    KeepsSize E0.backtrack ∧ (∀ a b, KeepsSize (E0.init_queue a b)) ∧
    (∀ a b, KeepsSize (E0.init_scores a b)) ∧ Reachable E0 (init E0 5 (init E0 3 run0)) ∧
    (init E0 5 (init E0 3 run0)).st.max_var = 5 ∧
    (init E0 5 (init E0 3 run0)).st.vsize = 8 ∧
    (init E0 9 (init E0 5 (init E0 3 run0))).st.vsize = 16 :=
  have hb : KeepsSize E0.backtrack := fun _ => ⟨rfl, rfl⟩
  have hq : ∀ a b, KeepsSize (E0.init_queue a b) := fun _ _ _ => ⟨rfl, rfl⟩
  have hs : ∀ a b, KeepsSize (E0.init_scores a b) := fun _ _ _ => ⟨rfl, rfl⟩
  have hr : Reachable E0 (init E0 5 (init E0 3 run0)) :=
    Reachable.init 5 _ (Reachable.init 3 run0
      (@Reachable.fresh T0 E0 lim0 inc0 last0 stats0 opts0 () (0 : Nat)))
  have h := init_growth E0 hb hq hs _ hr
  ⟨hb, hq, hs, hr, by decide, by decide, by rw [h.2.2.2.1 9]; decide⟩

theorem prefix_getElem? {α : Type} (a b : List α) (h : a <+: b) (i : Nat)
    (hi : i < a.length) : b[i]? = a[i]? := by
  obtain ⟨t, ht⟩ := h
  rw [← ht, List.getElem?_append_left hi]

/-- C10, as stated, fails in two ways.  Entered at decision level 1, `init (5)`
first backtracks, which unassigns: `vals[1]` is 1 before and 0 afterwards.
And `init (7)` on a solver of capacity 8 with 5 variables does not enlarge, and
`init_queue` stamps the new variables 6 and 7 in `btab`, whose entries at these
indices were there before (with value 0). -/
theorem init_keeps_contents_counterexample :
    run_decided.st.max_var < 5 ∧ run_decided.st.level = 1 ∧
    run_decided.st.val 1 = 1 ∧ (init E_stamp 5 run_decided).st.val 1 = 0 ∧
    ¬ KeepsContents run_decided.st.max_var run_decided.st (init E_stamp 5 run_decided).st ∧
    (init E_stamp 5 run_stamped).st.max_var < 7 ∧
    (init E_stamp 5 run_stamped).st.level = 0 ∧
    (init E_stamp 5 run_stamped).st.btab = [0, 1, 2, 3, 4, 5, 0, 0] ∧
    (init E_stamp 7 (init E_stamp 5 run_stamped)).st.btab = [0, 1, 2, 3, 4, 5, 6, 7] :=
  ⟨by decide, by decide, by decide, by decide,
    fun h => absurd (h.1 1 (by decide) (by decide)) (by decide),
    by decide, by decide, by decide, by decide⟩

/-- C10, amended: growing keeps what was there.  `enlarge (n)` with
`n >= max_var` leaves `vals[l]` as it was for every `l` in `-max_var ..
max_var` and leaves every table a prefix of its new value.  `init (n)` with
`n > max_var`, entered at decision level 0, leaves `vals[l]` as it was for
every such `l`, leaves each of `wtab`, `vtab`, `ptab`, `ftab`, `frozentab`,
`phases.saved`, `target`, `best`, `prev`, `min` and `marks` a prefix of its new
value, and leaves the entries of `btab` and `stab` of the variables up to the
old `max_var` as they were; here `init_queue` and `init_scores`, which
initialise the new variables, are taken to write neither `vals`, `vsize` nor
one of the tables just listed, and not the entries of `btab` and `stab` of the
variables up to the old `max_var`. -/
theorem init_keeps_contents (E : Env T) (n : Int) (r : Run T) (h : r.st.max_var < n)
    (hl : r.st.level = 0)
    (hq : ∀ a b, InitialisesAbove a (E.init_queue a b))
    (hs : ∀ a b, InitialisesAbove a (E.init_scores a b)) :
    KeepsContents r.st.max_var r.st (enlarge n r.st) ∧
      KeepsOld r.st.max_var r.st (init E n r).st := by
  refine ⟨enlarge_keeps n r.st (by omega), ?_⟩
  have h' : ¬ n ≤ r.st.max_var := by omega
  have hl' : ¬ r.st.level ≠ 0 := by rw [hl]; decide
  simp only [init, h', if_false, Run.upd_st, Run.call_st]
  rw [if_neg hl']
  have h2 : KeepsContents r.st.max_var r.st
      (if r.st.vsize ≤ n.toNat then r.upd (enlarge n) else r).st ∧
      (if r.st.vsize ≤ n.toNat then r.upd (enlarge n) else r).st.max_var = r.st.max_var := by
    by_cases hc : r.st.vsize ≤ n.toNat
    · rw [if_pos hc, Run.upd_st]
      exact ⟨enlarge_keeps n r.st (by omega), rfl⟩
    · rw [if_neg hc]
      exact ⟨keepsContents_of_same _ _ _ (sameTables_refl _), rfl⟩
  generalize (if r.st.vsize ≤ n.toNat then r.upd (enlarge n) else r) = r2 at h2
  obtain ⟨⟨v, w1, w2, -, w4, w5, w6, w7, w8, w9, w10, w11, w12, w13, w14⟩, hm⟩ := h2
  rw [hm]
  obtain ⟨q1, q2, q3, q4, q5, q6, q7, q8, q9, q10⟩ :=
    hq r.st.max_var n { r2.st with max_var := n }
  obtain ⟨s1, s2, s3, s4, s5, s6, s7, s8, s9, s10⟩ :=
    hs r.st.max_var n (E.init_queue r.st.max_var n { r2.st with max_var := n })
  generalize E.init_scores r.st.max_var n
    (E.init_queue r.st.max_var n { r2.st with max_var := n }) = S at s1 s2 s3 s4 s5 s6 s7 s8 s9 s10 ⊢
  refine ⟨fun lit a b => ?_, ?_, ?_, ?_, ?_, ?_, ?_, ?_, ?_, ?_, ?_, ?_,
    fun i hi hlen => ?_, fun i hi hlen => ?_⟩
  · rw [← v lit a b]
    exact val_congr _ _ (s1.trans q1) (s2.trans q2) lit
  · show _ <+: S.wtab
    rw [s3, q3]
    exact w1
  · show _ <+: S.vtab
    rw [s4, q4]
    exact w2
  · show _ <+: S.ptab
    rw [s5, q5]
    exact w6
  · show _ <+: S.ftab
    rw [s6, q6]
    exact w7
  · show _ <+: S.frozentab
    rw [s7, q7]
    exact w8
  · show _ <+: S.phases.saved
    rw [s8, q8]
    exact w9
  · show _ <+: S.phases.target
    rw [s8, q8]
    exact w10
  · show _ <+: S.phases.best
    rw [s8, q8]
    exact w11
  · show _ <+: S.phases.prev
    rw [s8, q8]
    exact w12
  · show _ <+: S.phases.min
    rw [s8, q8]
    exact w13
  · show _ <+: S.marks
    rw [s9, q9]
    exact w14
  · show S.btab[i]? = _
    rw [(s10 i hi).1, (q10 i hi).1]
    exact prefix_getElem? _ _ w4 i hlen
  · show S.stab[i]? = _
    rw [(s10 i hi).2, (q10 i hi).2]
    exact prefix_getElem? _ _ w5 i hlen

theorem init_keeps_contents_witness :
    run_stamped.st.max_var < 5 ∧ run_stamped.st.level = 0 ∧
    (∀ a b, InitialisesAbove a (E_stamp.init_queue a b)) ∧
    (∀ a b, InitialisesAbove a (E_stamp.init_scores a b)) ∧
    (init E_stamp 5 run_stamped).st.val 1 = 1 ∧
    (init E_stamp 5 run_stamped).st.btab = [0, 1, 2, 3, 4, 5, 0, 0] ∧
    (init E_stamp 5 run_stamped).st.phases.saved = [1, 1, -1, 1, 1, 1, 1, 1] ∧
    KeepsContents run_stamped.st.max_var run_stamped.st (enlarge 5 run_stamped.st) ∧
    KeepsOld run_stamped.st.max_var run_stamped.st (init E_stamp 5 run_stamped).st :=
  have hq : ∀ a b, InitialisesAbove a (E_stamp.init_queue a b) := fun a b s =>
    ⟨rfl, rfl, rfl, rfl, rfl, rfl, rfl, rfl, rfl, fun i hi => ⟨by
      show ((List.range s.btab.length).map fun (i : Nat) =>
        if a < (i : Int) ∧ (i : Int) ≤ b then (i : Int) else s.btab.getD i 0)[i]? = s.btab[i]?
      by_cases hlt : i < s.btab.length
      · rw [List.getElem?_map, List.getElem?_range hlt, Option.map_some',
          if_neg (by omega), List.getD_eq_getElem?_getD, List.getElem?_eq_getElem hlt]
        rfl
      · rw [List.getElem?_eq_none (by simpa using hlt), List.getElem?_eq_none (by omega)],
      rfl⟩⟩
  have hs : ∀ a b, InitialisesAbove a (E_stamp.init_scores a b) := fun _ _ _ =>
    ⟨rfl, rfl, rfl, rfl, rfl, rfl, rfl, rfl, rfl, fun _ _ => ⟨rfl, rfl⟩⟩
  have h := init_keeps_contents E_stamp 5 run_stamped (by decide) rfl hq hs
  ⟨by decide, rfl, hq, hs, by decide, by decide, by decide, h.1, h.2⟩

/-! ## Limits: `init_limits` -/

theorem keeps_lim {f : Internal T → Internal T} (h : KeepsLimits f) (s : Internal T) :
    (f s).lim = s.lim := (h s).1

theorem keeps_inc {f : Internal T → Internal T} (h : KeepsLimits f) (s : Internal T) :
    (f s).inc = s.inc := (h s).2.1

theorem keeps_last {f : Internal T → Internal T} (h : KeepsLimits f) (s : Internal T) :
    (f s).last = s.last := (h s).2.2.1

theorem keeps_stats {f : Internal T → Internal T} (h : KeepsLimits f) (s : Internal T) :
    (f s).stats = s.stats := (h s).2.2.2.1

theorem keeps_opts {f : Internal T → Internal T} (h : KeepsLimits f) (s : Internal T) :
    (f s).opts = s.opts := (h s).2.2.2.2.1

theorem keeps_reported {f : Internal T → Internal T} (h : KeepsLimits f)
    (s : Internal T) : (f s).reported = s.reported := (h s).2.2.2.2.2.1

theorem keeps_stable {f : Internal T → Internal T} (h : KeepsLimits f)
    (s : Internal T) : (f s).stable = s.stable := (h s).2.2.2.2.2.2

theorem passes_trace (E : Env T) (b : Bool) (r : Run T) :
    (init_limits_passes E b r).trace = r.trace := by
  cases b <;>
    simp only [init_limits_passes, if_true, Run.upd_trace, Bool.not_true, Bool.false_eq_true,
      if_false, Bool.not_false]

theorem passes_frame (E : Env T) (b : Bool) (r : Run T) :
    (init_limits_passes E b r).st.stats = r.st.stats ∧
    (init_limits_passes E b r).st.opts = r.st.opts ∧
    (init_limits_passes E b r).st.stable = r.st.stable ∧
    (init_limits_passes E b r).st.lim.initialized = r.st.lim.initialized := by
  cases b <;>
    simp only [init_limits_passes, if_true, Run.upd_st, Bool.not_true, Bool.false_eq_true,
      if_false, Bool.not_false, and_self]

theorem passes_reset (E : Env T) (b : Bool) (r : Run T) :
    (init_limits_passes E b r).st.lim.rephase = r.st.stats.conflicts + r.st.opts.rephaseint ∧
    (init_limits_passes E b r).st.lim.rephased0 = 0 ∧
    (init_limits_passes E b r).st.lim.rephased1 = 0 ∧
    (init_limits_passes E b r).st.lim.restart = r.st.stats.conflicts + r.st.opts.restartint ∧
    (init_limits_passes E b r).st.reported = false ∧
    (init_limits_passes E b r).st.lim.report = 0 ∧
    (init_limits_passes E b r).st.lim.elimbound = r.st.opts.elimboundmin := by
  cases b <;>
    simp only [init_limits_passes, if_true, Run.upd_st, Bool.not_true, Bool.false_eq_true,
      if_false, Bool.not_false, and_self]

theorem passes_keep (E : Env T) (r : Run T) :
    (init_limits_passes E true r).st.lim.reduce = r.st.lim.reduce ∧
    (init_limits_passes E true r).st.lim.flush = r.st.lim.flush ∧
    (init_limits_passes E true r).st.lim.subsume = r.st.lim.subsume ∧
    (init_limits_passes E true r).st.lim.elim = r.st.lim.elim ∧
    (init_limits_passes E true r).st.lim.probe = r.st.lim.probe ∧
    (init_limits_passes E true r).st.lim.compact = r.st.lim.compact ∧
    (init_limits_passes E true r).st.inc = r.st.inc ∧
    (init_limits_passes E true r).st.last = r.st.last := by
  simp only [init_limits_passes, if_true, Run.upd_st, Bool.not_true, Bool.false_eq_true,
      if_false, Bool.not_false, and_self]

theorem budgets_fields (E : Env T) (r : Run T) :
    (init_limits_budgets E r).st.lim.reduce = r.st.lim.reduce ∧
    (init_limits_budgets E r).st.lim.flush = r.st.lim.flush ∧
    (init_limits_budgets E r).st.lim.subsume = r.st.lim.subsume ∧
    (init_limits_budgets E r).st.lim.elim = r.st.lim.elim ∧
    (init_limits_budgets E r).st.lim.probe = r.st.lim.probe ∧
    (init_limits_budgets E r).st.lim.compact = r.st.lim.compact ∧
    (init_limits_budgets E r).st.lim.rephase = r.st.lim.rephase ∧
    (init_limits_budgets E r).st.lim.rephased0 = r.st.lim.rephased0 ∧
    (init_limits_budgets E r).st.lim.rephased1 = r.st.lim.rephased1 ∧
    (init_limits_budgets E r).st.lim.restart = r.st.lim.restart ∧
    (init_limits_budgets E r).st.lim.report = r.st.lim.report ∧
    (init_limits_budgets E r).st.lim.elimbound = r.st.lim.elimbound ∧
    (init_limits_budgets E r).st.lim.stabilize = r.st.stats.conflicts + r.st.opts.stabilizeint ∧
    (init_limits_budgets E r).st.lim.initialized = true ∧
    (init_limits_budgets E r).st.inc.stabilize = r.st.opts.stabilizeint ∧
    (init_limits_budgets E r).st.inc.flush = r.st.inc.flush ∧
    (init_limits_budgets E r).st.last = r.st.last ∧
    (init_limits_budgets E r).st.reported = r.st.reported ∧
    (init_limits_budgets E r).st.stable = r.st.stable ∧
    (init_limits_budgets E r).st.stats = r.st.stats ∧
    (init_limits_budgets E r).st.opts = r.st.opts := by
  by_cases h : (r.st.opts.stabilize && decide (r.st.opts.reluctant ≠ 0)) = true
  · simp only [init_limits_budgets, Run.upd_st, Run.log_st, h, if_true, and_self]
  · simp only [init_limits_budgets, Run.upd_st, Run.log_st, h, Bool.false_eq_true, if_false,
      and_self]

theorem budgets_trace (E : Env T) (r : Run T) :
    (init_limits_budgets E r).trace = r.trace ++
      [if r.st.opts.stabilize && decide (r.st.opts.reluctant ≠ 0)
       then Call.reluctant_enable r.st.opts.reluctant r.st.opts.reluctantmax
       else Call.reluctant_disable] := by
  by_cases h : (r.st.opts.stabilize && decide (r.st.opts.reluctant ≠ 0)) = true
  · simp only [init_limits_budgets, Run.upd_st, Run.upd_trace, Run.log_trace, h, if_true]
  · simp only [init_limits_budgets, Run.upd_st, Run.upd_trace, Run.log_trace, h,
      Bool.false_eq_true, if_false]

theorem mode_fresh (E : Env T) (r : Run T) :
    init_limits_mode E false r =
      { st := E.init_averages { r.st with stable := r.st.opts.stabilize && r.st.opts.stabilizeonly },
        trace := r.trace ++ [Call.init_averages] } := by
  simp only [init_limits_mode, Bool.not_false, if_true, Run.call, Run.upd]

theorem mode_stable_only (E : Env T) (r : Run T)
    (h : (r.st.opts.stabilize && r.st.opts.stabilizeonly) = true) :
    init_limits_mode E true r = r := by
  simp only [init_limits_mode, Bool.not_true, Bool.false_eq_true, if_false, h, if_true]

theorem mode_switch (E : Env T) (r : Run T)
    (h : ¬ (r.st.opts.stabilize && r.st.opts.stabilizeonly) = true) (hs : r.st.stable = true) :
    init_limits_mode E true r =
      { st := E.swap_averages { r.st with stable := false },
        trace := r.trace ++ [Call.swap_averages] } := by
  simp only [init_limits_mode, Bool.not_true, Bool.false_eq_true, if_false, h, hs, if_true,
    Run.call, Run.upd]

theorem mode_unstable (E : Env T) (r : Run T)
    (h : ¬ (r.st.opts.stabilize && r.st.opts.stabilizeonly) = true) (hs : ¬ r.st.stable = true) :
    init_limits_mode E true r = r := by
  simp only [init_limits_mode, Bool.not_true, Bool.false_eq_true, if_false, h, hs]

theorem mode_frame_fresh (E : Env T) (r : Run T) (hi : KeepsLimits E.init_averages) :
    (init_limits_mode E false r).st.lim = r.st.lim ∧
    (init_limits_mode E false r).st.inc = r.st.inc ∧
    (init_limits_mode E false r).st.last = r.st.last ∧
    (init_limits_mode E false r).st.stats = r.st.stats ∧
    (init_limits_mode E false r).st.opts = r.st.opts ∧
    (init_limits_mode E false r).st.reported = r.st.reported := by
  rw [mode_fresh]
  simp only [(keeps_lim hi), (keeps_inc hi), (keeps_last hi), (keeps_stats hi), (keeps_opts hi), (keeps_reported hi), and_self]

theorem mode_frame_incremental (E : Env T) (r : Run T) (hs : KeepsLimits E.swap_averages) :
    (init_limits_mode E true r).st.lim = r.st.lim ∧
    (init_limits_mode E true r).st.inc = r.st.inc ∧
    (init_limits_mode E true r).st.last = r.st.last ∧
    (init_limits_mode E true r).st.stats = r.st.stats ∧
    (init_limits_mode E true r).st.opts = r.st.opts ∧
    (init_limits_mode E true r).st.reported = r.st.reported := by
  by_cases h : (r.st.opts.stabilize && r.st.opts.stabilizeonly) = true
  · rw [mode_stable_only E r h]
    simp only [and_self]
  · by_cases hst : r.st.stable = true
    · rw [mode_switch E r h hst]
      simp only [(keeps_lim hs), (keeps_inc hs), (keeps_last hs), (keeps_stats hs), (keeps_opts hs), (keeps_reported hs), and_self]
    · rw [mode_unstable E r h hst]
      simp only [and_self]

theorem mode_frame (E : Env T) (b : Bool) (r : Run T) (hi : KeepsLimits E.init_averages)
    (hs : KeepsLimits E.swap_averages) :
    (init_limits_mode E b r).st.lim = r.st.lim ∧ (init_limits_mode E b r).st.inc = r.st.inc ∧
    (init_limits_mode E b r).st.last = r.st.last ∧
    (init_limits_mode E b r).st.stats = r.st.stats ∧
    (init_limits_mode E b r).st.opts = r.st.opts ∧
    (init_limits_mode E b r).st.reported = r.st.reported := by
  cases b
  · exact mode_frame_fresh E r hi
  · exact mode_frame_incremental E r hs

theorem init_limits_st (E : Env T) (r : Run T) :
    (init_limits E r).st = (init_limits_budgets E (init_limits_mode E r.st.lim.initialized
      (init_limits_passes E r.st.lim.initialized (r.log (Call.enter Fn.init_limits))))).st := rfl

theorem init_limits_trace (E : Env T) (r : Run T) :
    (init_limits E r).trace = (init_limits_budgets E (init_limits_mode E r.st.lim.initialized
      (init_limits_passes E r.st.lim.initialized (r.log (Call.enter Fn.init_limits))))).trace
      ++ [Call.leave Fn.init_limits 0] := rfl

/-- C5: on an incremental call (`lim.initialized` set on entry) `init_limits`
leaves `lim.reduce`, `lim.flush`, `inc.flush`, `lim.subsume`, `lim.elim`,
`lim.probe`, `lim.compact`, `last.reduce.conflicts`, `last.elim.marked` and
`last.ternary.marked` as they were, whatever `stats`, `opts` and `inc` hold;
`swap_averages`, the one function of another file it may call that could
reach them, is taken to satisfy `KeepsLimits`. -/
theorem init_limits_incremental (E : Env T) (r : Run T)
    (hinc : r.st.lim.initialized = true) (hsw : KeepsLimits E.swap_averages) :
    (init_limits E r).st.lim.reduce = r.st.lim.reduce ∧
    (init_limits E r).st.lim.flush = r.st.lim.flush ∧
    (init_limits E r).st.inc.flush = r.st.inc.flush ∧
    (init_limits E r).st.lim.subsume = r.st.lim.subsume ∧
    (init_limits E r).st.lim.elim = r.st.lim.elim ∧
    (init_limits E r).st.lim.probe = r.st.lim.probe ∧
    (init_limits E r).st.lim.compact = r.st.lim.compact ∧
    (init_limits E r).st.last.reduce_conflicts = r.st.last.reduce_conflicts ∧
    (init_limits E r).st.last.elim_marked = r.st.last.elim_marked ∧
    (init_limits E r).st.last.ternary_marked = r.st.last.ternary_marked := by
  rw [init_limits_st, hinc]
  obtain ⟨b1, b2, b3, b4, b5, b6, -, -, -, -, -, -, -, -, -, b16, b17, -⟩ :=
    budgets_fields E (init_limits_mode E true
      (init_limits_passes E true (r.log (Call.enter Fn.init_limits))))
  obtain ⟨m1, m2, m3, -⟩ := mode_frame_incremental E
    (init_limits_passes E true (r.log (Call.enter Fn.init_limits))) hsw
  obtain ⟨p1, p2, p3, p4, p5, p6, p7, p8⟩ :=
    passes_keep E (r.log (Call.enter Fn.init_limits))
  rw [b1, b2, b3, b4, b5, b6, b16, b17, m1, m2, m3, p1, p2, p3, p4, p5, p6, p7, p8]
  simp only [Run.log_st, and_self]


theorem init_limits_incremental_witness :
    run1.st.lim.initialized = true ∧ KeepsLimits E0.swap_averages ∧
    (init_limits E0 run1).st.lim.reduce = run1.st.lim.reduce ∧
    (init_limits E0 run1).st.lim.flush = run1.st.lim.flush ∧
    (init_limits E0 run1).st.inc.flush = run1.st.inc.flush ∧
    (init_limits E0 run1).st.lim.subsume = run1.st.lim.subsume ∧
    (init_limits E0 run1).st.lim.elim = run1.st.lim.elim ∧
    (init_limits E0 run1).st.lim.probe = run1.st.lim.probe ∧
    (init_limits E0 run1).st.lim.compact = run1.st.lim.compact ∧
    (init_limits E0 run1).st.last.reduce_conflicts = run1.st.last.reduce_conflicts ∧
    (init_limits E0 run1).st.last.elim_marked = run1.st.last.elim_marked ∧
    (init_limits E0 run1).st.last.ternary_marked = run1.st.last.ternary_marked :=
  ⟨rfl, fun _ => ⟨rfl, rfl, rfl, rfl, rfl, rfl, rfl⟩,
    init_limits_incremental E0 run1 rfl (fun _ => ⟨rfl, rfl, rfl, rfl, rfl, rfl, rfl⟩)⟩

/-- C6: whatever the entry state, fresh or incremental, after `init_limits`
`lim.rephase`, `lim.restart`, `lim.stabilize` are `stats.conflicts` plus the
respective option, `lim.rephased[0..1]` and `lim.report` are 0, `reported` is
false, `inc.stabilize` is `opts.stabilizeint`, `lim.elimbound` is
`opts.elimboundmin` and `lim.initialized` is true (`stats` and `opts` as on
entry; `init_averages` and `swap_averages` are taken to satisfy
`KeepsLimits`). -/
theorem init_limits_resets (E : Env T) (r : Run T) (hi : KeepsLimits E.init_averages)
    (hs : KeepsLimits E.swap_averages) :
    (init_limits E r).st.lim.rephase = r.st.stats.conflicts + r.st.opts.rephaseint ∧
    (init_limits E r).st.lim.rephased0 = 0 ∧
    (init_limits E r).st.lim.rephased1 = 0 ∧
    (init_limits E r).st.lim.restart = r.st.stats.conflicts + r.st.opts.restartint ∧
    (init_limits E r).st.reported = false ∧
    (init_limits E r).st.lim.report = 0 ∧
    (init_limits E r).st.inc.stabilize = r.st.opts.stabilizeint ∧
    (init_limits E r).st.lim.stabilize = r.st.stats.conflicts + r.st.opts.stabilizeint ∧
    (init_limits E r).st.lim.elimbound = r.st.opts.elimboundmin ∧
    (init_limits E r).st.lim.initialized = true := by
  rw [init_limits_st]
  generalize r.st.lim.initialized = b
  obtain ⟨-, -, -, -, -, -, b7, b8, b9, b10, b11, b12, b13, b14, b15, -, -, b18, -, -, -⟩ :=
    budgets_fields E (init_limits_mode E b
      (init_limits_passes E b (r.log (Call.enter Fn.init_limits))))
  obtain ⟨m1, -, -, m4, m5, m6⟩ := mode_frame E b
    (init_limits_passes E b (r.log (Call.enter Fn.init_limits))) hi hs
  obtain ⟨p1, p2, p3, p4, p5, p6, p7⟩ :=
    passes_reset E b (r.log (Call.enter Fn.init_limits))
  obtain ⟨q1, q2, -, -⟩ := passes_frame E b (r.log (Call.enter Fn.init_limits))
  rw [b7, b8, b9, b10, b11, b12, b13, b14, b15, b18, m1, m4, m5, m6, p1, p2, p3, p4, p5, p6,
    p7, q1, q2]
  simp only [Run.log_st, and_self]

theorem init_limits_resets_witness :
    KeepsLimits E0.init_averages ∧ KeepsLimits E0.swap_averages ∧
    (init_limits E0 run0).st.lim.rephase = 1000 ∧
    (init_limits E0 run1).st.lim.restart = 2 ∧
    (init_limits E0 run1).st.lim.initialized = true :=
  have hi : KeepsLimits E0.init_averages := fun _ => ⟨rfl, rfl, rfl, rfl, rfl, rfl, rfl⟩
  have hs : KeepsLimits E0.swap_averages := fun _ => ⟨rfl, rfl, rfl, rfl, rfl, rfl, rfl⟩
  ⟨hi, hs, (init_limits_resets E0 run0 hi hs).1, (init_limits_resets E0 run1 hi hs).2.2.2.1,
    (init_limits_resets E0 run1 hi hs).2.2.2.2.2.2.2.2.2⟩


theorem budgets_trace_of (E : Env T) (r : Run T) :
    (init_limits_budgets E r).trace = r.trace ++ [reluctant_call r.st.opts] :=
  budgets_trace E r

/-- C7: mode selection in `init_limits`, in executions in which its assertion
holds.  On a first call `stable` becomes `opts.stabilize && opts.stabilizeonly`
and `init_averages` is called once (`swap_averages` not).  On an incremental
call with stable-only configured `stable` is kept, so it is true afterwards,
and neither function is called.  On an incremental call without stable-only
`stable` is false afterwards and `swap_averages` is called, once, exactly when
`stable` was true on entry.  (`init_averages` and `swap_averages` are taken
to satisfy `KeepsLimits`.) -/
theorem init_limits_mode_selection (E : Env T) (r : Run T)
    (hi : KeepsLimits E.init_averages) (hs : KeepsLimits E.swap_averages)
    (ha : init_limits_assertion r.st = true) :
    (r.st.lim.initialized = false →
      (init_limits E r).st.stable = (r.st.opts.stabilize && r.st.opts.stabilizeonly) ∧
      (init_limits E r).trace = r.trace ++ [Call.enter Fn.init_limits, Call.init_averages,
        reluctant_call r.st.opts, Call.leave Fn.init_limits 0]) ∧
    (r.st.lim.initialized = true →
      (r.st.opts.stabilize && r.st.opts.stabilizeonly) = true →
      (init_limits E r).st.stable = r.st.stable ∧ (init_limits E r).st.stable = true ∧
      (init_limits E r).trace = r.trace ++ [Call.enter Fn.init_limits,
        reluctant_call r.st.opts, Call.leave Fn.init_limits 0]) ∧
    (r.st.lim.initialized = true →
      (r.st.opts.stabilize && r.st.opts.stabilizeonly) = false →
      (init_limits E r).st.stable = false ∧
      (init_limits E r).trace = r.trace ++ [Call.enter Fn.init_limits] ++
        (if r.st.stable then [Call.swap_averages] else []) ++
        [reluctant_call r.st.opts, Call.leave Fn.init_limits 0]) := by
  have hb := fun x => (budgets_fields E x).2.2.2.2.2.2.2.2.2.2.2.2.2.2.2.2.2.2.1
  have hp := passes_frame E r.st.lim.initialized (r.log (Call.enter Fn.init_limits))
  have hpt := passes_trace E r.st.lim.initialized (r.log (Call.enter Fn.init_limits))
  rw [init_limits_st, init_limits_trace, hb, budgets_trace_of]
  generalize init_limits_passes E r.st.lim.initialized (r.log (Call.enter Fn.init_limits)) = x
    at hp hpt ⊢
  obtain ⟨-, p2, p3, -⟩ := hp
  simp only [Run.log_st, Run.log_trace] at p2 p3 hpt
  refine ⟨fun h0 => ?_, fun h1 hso => ?_, fun h1 hso => ?_⟩
  · rw [h0, mode_fresh]
    simp only [(keeps_stable hi), (keeps_opts hi), p2, hpt, List.append_assoc, List.cons_append,
      List.nil_append, and_self]
  · have hso' : (x.st.opts.stabilize && x.st.opts.stabilizeonly) = true := by rw [p2]; exact hso
    have hst : r.st.stable = true := by
      simpa [init_limits_assertion, h1, hso] using ha
    rw [h1, mode_stable_only E x hso']
    simp only [p2, p3, hst, hpt, List.append_assoc, List.cons_append, List.nil_append,
      and_self]
  · have hso' : ¬ (x.st.opts.stabilize && x.st.opts.stabilizeonly) = true := by
      rw [p2, hso]; simp
    rw [h1]
    by_cases hst : r.st.stable = true
    · have hst' : x.st.stable = true := by rw [p3]; exact hst
      rw [mode_switch E x hso' hst']
      simp only [(keeps_stable hs), (keeps_opts hs), p2, hst, hpt, if_true, List.append_assoc,
        List.cons_append, List.nil_append, and_self]
    · have hst' : ¬ x.st.stable = true := by rw [p3]; exact hst
      rw [mode_unstable E x hso' hst']
      have hf : r.st.stable = false := by simpa using hst
      simp only [p2, p3, hf, hpt, Bool.false_eq_true, if_false, List.append_assoc,
        List.cons_append, List.nil_append, List.append_nil, and_self]

theorem init_limits_mode_selection_witness :
    KeepsLimits E0.init_averages ∧ KeepsLimits E0.swap_averages ∧
    init_limits_assertion run1.st = true ∧
    (init_limits E0 run1).st.stable = false ∧
    (init_limits E0 run1).trace = [Call.enter Fn.init_limits, Call.swap_averages,
      Call.reluctant_enable 1024 1048576, Call.leave Fn.init_limits 0] ∧
    init_limits_assertion run2.st = true ∧ (init_limits E0 run2).st.stable = true :=
  have hi : KeepsLimits E0.init_averages := fun _ => ⟨rfl, rfl, rfl, rfl, rfl, rfl, rfl⟩
  have hs : KeepsLimits E0.swap_averages := fun _ => ⟨rfl, rfl, rfl, rfl, rfl, rfl, rfl⟩
  ⟨hi, hs, rfl, ((init_limits_mode_selection E0 run1 hi hs rfl).2.2 rfl rfl).1,
    ((init_limits_mode_selection E0 run1 hi hs rfl).2.2 rfl rfl).2, rfl,
    ((init_limits_mode_selection E0 run2 hi hs rfl).2.1 rfl rfl).2.1⟩

/-! ## The CDCL loop -/

/-- C1: one pass through the loop body of `cdcl_loop_with_inprocessing` is
the evaluation of the priority table `dispatch_table` (unsat, failed
propagate, iterating, satisfied, terminating, restarting, rephasing, reducing,
probing, subsuming, eliminating, compacting, else decide): the action of the
first predicate that holds is taken and no later predicate is evaluated.  In
particular a pass in which propagation reports a conflict consists of
`propagate` and `analyze` and nothing else. -/
theorem cdcl_step_dispatch (E : Env T) (r : Run T) :
    cdcl_step E r = first_match (dispatch_table E) (dispatch_otherwise E) r ∧
    (r.st.unsat = false → (E.propagate r.st).1 = false →
      cdcl_step E r = (⟨0, false⟩,
        { st := E.analyze (E.propagate r.st).2,
          trace := r.trace ++ [Call.propagate false, Call.analyze] })) := by
  constructor
  · simp only [cdcl_step, first_match, dispatch_table, dispatch_otherwise, go_on]
  · intro hu hp
    simp [cdcl_step, hu, hp, Run.call, Run.ask]

theorem cdcl_step_dispatch_witness :
    run0.st.unsat = false ∧ (E_conflict.propagate run0.st).1 = false ∧
    cdcl_step E_conflict run0 = (⟨0, false⟩,
      { st := run0.st, trace := [Call.propagate false, Call.analyze] }) :=
  ⟨rfl, rfl, (cdcl_step_dispatch E_conflict run0).2 rfl rfl⟩

/-! ## The incremental solve -/

theorem solve_finish_fst (E : Env T) (res : Int) (r : Run T) :
    (solve_finish E res r).1 = some res := rfl

theorem solve_finish_trace (E : Env T) (res : Int) (r : Run T) :
    (solve_finish E res r).2.trace = r.trace ++
      [Call.report (if res = 10 then '1' else if res = 20 then '0' else '?'),
        Call.leave Fn.solve res] := by
  simp only [solve_finish]
  split_ifs <;>
    simp only [Run.log_trace, Run.call_trace, Run.upd_trace, List.append_assoc,
      List.cons_append, List.nil_append]

theorem solve_finish_st (E : Env T) (res : Int) (r : Run T) :
    (solve_finish E res r).2.st =
      E.report (if res = 10 then '1' else if res = 20 then '0' else '?')
        (if r.st.termination_forced then { r.st with termination_forced := false }
          else r.st) := by
  simp only [solve_finish]
  split_ifs <;> simp only [Run.log_st, Run.call_st, Run.upd_st]

/-- C3: when `unsat` is set on entry, `solve` returns 20 and its whole call
log is: entry of `solve`, `backtrack` if the level was not 0, `report ('0')`,
return of `solve`; so none of `propagate`, `init_limits`, `restore_clauses`,
`preprocess`, `local_search`, `lucky_phases`, `cdcl_loop_with_inprocessing`,
`learn_empty_clause` is called and the last character reported is `'0'`.
`lim`, `inc` and `last` are as on entry.  (`backtrack` is taken not to write
`unsat`, and `backtrack` and `report` not to write `lim`, `inc`, `last`.) -/
theorem solve_already_unsat (E : Env T) (fuel : Nat) (r : Run T) (hu : r.st.unsat = true)
    (hb : ∀ s, (E.backtrack s).unsat = s.unsat ∧ (E.backtrack s).lim = s.lim ∧
      (E.backtrack s).inc = s.inc ∧ (E.backtrack s).last = s.last)
    (hr : ∀ c s, (E.report c s).lim = s.lim ∧ (E.report c s).inc = s.inc ∧
      (E.report c s).last = s.last) :
    (solve E fuel r).1 = some 20 ∧
    (solve E fuel r).2.trace = r.trace ++ [Call.enter Fn.solve] ++
      (if r.st.level ≠ 0 then [Call.backtrack] else []) ++
      [Call.report '0', Call.leave Fn.solve 20] ∧
    (solve E fuel r).2.st.lim = r.st.lim ∧ (solve E fuel r).2.st.inc = r.st.inc ∧
    (solve E fuel r).2.st.last = r.st.last := by
  have key : ∀ r0 : Run T, r0.st.unsat = true →
      and_then (solve_branch E fuel r0) (solve_finish E) = solve_finish E 20 r0 := by
    intro r0 h0
    simp only [solve_branch, h0, if_true, and_then]
  have fin : ∀ r0 : Run T, (solve_finish E 20 r0).2.st.lim = r0.st.lim ∧
      (solve_finish E 20 r0).2.st.inc = r0.st.inc ∧
      (solve_finish E 20 r0).2.st.last = r0.st.last := by
    intro r0
    rw [solve_finish_st, (hr _ _).1, (hr _ _).2.1, (hr _ _).2.2]
    split <;> exact ⟨rfl, rfl, rfl⟩
  unfold solve
  simp only [Run.log_st]
  by_cases hl : r.st.level ≠ 0
  · rw [if_pos hl, if_pos hl, key _ (by rw [Run.call_st, (hb _).1]; exact hu),
      solve_finish_fst, solve_finish_trace, (fin _).1, (fin _).2.1, (fin _).2.2]
    simp [(hb _).2.1, (hb _).2.2.1, (hb _).2.2.2]
  · rw [if_neg hl, if_neg hl, key (r.log (Call.enter Fn.solve)) hu, solve_finish_fst, solve_finish_trace, (fin _).1,
      (fin _).2.1, (fin _).2.2]
    simp

theorem solve_already_unsat_witness :
    run_unsat.st.unsat = true ∧
    (solve E0 0 run_unsat).1 = some 20 ∧
    (solve E0 0 run_unsat).2.trace = [Call.enter Fn.solve, Call.backtrack,
      Call.report '0', Call.leave Fn.solve 20] ∧
    (solve E0 0 run_unsat).2.st.lim = run_unsat.st.lim :=
  have h := solve_already_unsat E0 0 run_unsat rfl (fun _ => ⟨rfl, rfl, rfl, rfl⟩)
    (fun _ _ => ⟨rfl, rfl, rfl⟩)
  ⟨rfl, h.1, h.2.1, h.2.2.1⟩

/-! ## Call logs of the ladder stages -/

theorem emits_refl (P : Call → Bool) (r : Run T) : Emits P r r :=
  ⟨[], by simp, by simp⟩

theorem emits_trans {P : Call → Bool} {a b c : Run T} (h1 : Emits P a b) (h2 : Emits P b c) :
    Emits P a c := by
  obtain ⟨t1, e1, p1⟩ := h1
  obtain ⟨t2, e2, p2⟩ := h2
  refine ⟨t1 ++ t2, by rw [e2, e1, List.append_assoc], ?_⟩
  intro e he
  rcases List.mem_append.mp he with h | h
  · exact p1 e h
  · exact p2 e h

theorem emits_mono {P Q : Call → Bool} {a b : Run T} (h : ∀ e, P e = true → Q e = true)
    (h1 : Emits P a b) : Emits Q a b := by
  obtain ⟨t1, e1, p1⟩ := h1
  exact ⟨t1, e1, fun e he => h e (p1 e he)⟩

theorem emits_log {P : Call → Bool} {r a : Run T} (h : Emits P r a) (ev : Call)
    (hp : P ev = true) : Emits P r (a.log ev) :=
  emits_trans h ⟨[ev], rfl, by simpa using hp⟩

theorem emits_call {P : Call → Bool} {r a : Run T} (h : Emits P r a)
    (f : Internal T → Internal T) (ev : Call) (hp : P ev = true) : Emits P r (a.call f ev) :=
  emits_trans h ⟨[ev], rfl, by simpa using hp⟩

theorem emits_ask {P : Call → Bool} {β : Type} {r a : Run T} (h : Emits P r a)
    (f : Internal T → β × Internal T) (ev : β → Call) (hp : ∀ b, P (ev b) = true) :
    Emits P r (a.ask f ev).2 :=
  emits_trans h ⟨[ev (f a.st).1], rfl, by simpa using hp _⟩

theorem emits_upd {P : Call → Bool} {r a : Run T} (h : Emits P r a)
    (f : Internal T → Internal T) : Emits P r (a.upd f) :=
  emits_trans h ⟨[], by simp, by simp⟩

theorem emits_ite {P : Call → Bool} {r a b : Run T} (c : Prop) [Decidable c]
    (h1 : Emits P r a) (h2 : Emits P r b) : Emits P r (if c then a else b) := by
  split
  · exact h1
  · exact h2

section Logs

attribute [local irreducible] Run.call Run.ask Run.log Run.upd

theorem emits_ite_snd {P : Call → Bool} {β : Type} {r : Run T} (c : Prop) [Decidable c]
    {a b : β × Run T} (h1 : Emits P r a.2) (h2 : Emits P r b.2) :
    Emits P r (if c then a else b).2 := by
  split
  · exact h1
  · exact h2

theorem preprocess_round_emits (E : Env T) (i : Int) (r : Run T) :
    Emits in_preprocess r (preprocess_round E i r).2 := by
  unfold preprocess_round
  repeat' first
    | apply emits_ite_snd
    | apply emits_log
    | apply emits_call
    | apply emits_upd
    | apply emits_ite
    | exact emits_refl _ _
    | rfl

theorem preprocess_rounds_emits (E : Env T) (fuel : Nat) (i : Int) (r : Run T) :
    Emits in_preprocess r (preprocess_rounds E fuel i r).2 := by
  induction fuel generalizing i r with
  | zero => exact emits_refl _ _
  | succ k ih =>
    unfold preprocess_rounds
    refine emits_ite_snd _ (emits_ite_snd _ (preprocess_round_emits E i r) ?_) (emits_refl _ _)
    exact emits_trans (preprocess_round_emits E i r) (ih _ _)

theorem preprocess_trace (E : Env T) (fuel : Nat) (r : Run T) :
    ∃ inner, (∀ e ∈ inner, in_preprocess e = true) ∧
      (preprocess E fuel r).2.trace =
        r.trace ++ stage_log Fn.preprocess inner (preprocess E fuel r).1 := by
  have h : Emits in_preprocess (r.log (Call.enter Fn.preprocess))
      (if (r.log (Call.enter Fn.preprocess)).st.opts.simplify
        then preprocess_rounds E fuel 0 (r.log (Call.enter Fn.preprocess))
        else (true, r.log (Call.enter Fn.preprocess))).2 :=
    emits_ite_snd _ (preprocess_rounds_emits E fuel 0 _) (emits_refl _ _)
  unfold preprocess
  simp only []
  generalize (if (r.log (Call.enter Fn.preprocess)).st.opts.simplify
    then preprocess_rounds E fuel 0 (r.log (Call.enter Fn.preprocess))
    else (true, r.log (Call.enter Fn.preprocess))) = p at h ⊢
  obtain ⟨inner, htr, hP⟩ := h
  refine ⟨inner, hP, ?_⟩
  cases hp : p.1
  · simp [stage_log, closing, htr]
  · simp [stage_log, closing, htr]

theorem saved_phases_loop_emits (E : Env T) (fuel : Nat) (r : Run T) :
    Emits in_local_search r (saved_phases_loop E fuel r).2 := by
  induction fuel generalizing r with
  | zero => exact emits_refl _ _
  | succ k ih =>
    unfold saved_phases_loop
    have h1 : Emits in_local_search r (r.ask E.satisfied Call.satisfied).2 :=
      emits_ask (emits_refl _ _) _ _ (fun _ => rfl)
    have h2 := emits_ask h1 E.decide Call.decide (fun _ => rfl)
    have h3 := emits_ask h2 E.propagate Call.propagate (fun _ => rfl)
    refine emits_ite_snd _ h1 (emits_ite_snd _ h2 (emits_ite_snd _ ?_ ?_))
    · exact emits_upd (emits_call h3 E.backtrack Call.backtrack rfl) _
    · exact emits_trans h3 (ih _)

theorem try_to_satisfy_emits (E : Env T) (fuel : Nat) (r : Run T) :
    Emits in_local_search r (try_to_satisfy_formula_by_saved_phases E fuel r).2 := by
  have h := saved_phases_loop_emits E fuel
    ((r.log (Call.enter Fn.try_to_satisfy_formula_by_saved_phases)).upd
      fun s => { s with force_saved_phase := true })
  have h0 : Emits in_local_search r
      ((r.log (Call.enter Fn.try_to_satisfy_formula_by_saved_phases)).upd
        fun s => { s with force_saved_phase := true }) :=
    emits_upd (emits_log (emits_refl _ _) _ rfl) _
  have h1 := emits_trans h0 h
  unfold try_to_satisfy_formula_by_saved_phases
  simp only []
  generalize saved_phases_loop E fuel
    ((r.log (Call.enter Fn.try_to_satisfy_formula_by_saved_phases)).upd
      fun s => { s with force_saved_phase := true }) = p at h1 ⊢
  cases hp : p.1
  · exact h1
  · exact emits_log (emits_upd h1 _) _ rfl

theorem propagate_analyze_emits (E : Env T) (fuel : Nat) (r : Run T) :
    Emits in_local_search r (propagate_analyze E fuel r).2 := by
  induction fuel generalizing r with
  | zero => exact emits_refl _ _
  | succ k ih =>
    unfold propagate_analyze
    have h1 : Emits in_local_search r (r.ask E.propagate Call.propagate).2 :=
      emits_ask (emits_refl _ _) _ _ (fun _ => rfl)
    refine emits_ite_snd _ (emits_refl _ _) (emits_ite_snd _ h1 ?_)
    exact emits_trans (emits_call h1 E.analyze Call.analyze rfl) (ih _)

theorem failed_assumptions_loop_emits (E : Env T) (fuel0 fuel : Nat) (r : Run T) :
    Emits in_local_search r (failed_assumptions_loop E fuel0 fuel r).2 := by
  induction fuel generalizing r with
  | zero => exact emits_refl _ _
  | succ k ih =>
    unfold failed_assumptions_loop
    have h1 : Emits in_local_search r (r.ask E.decide Call.decide).2 :=
      emits_ask (emits_refl _ _) _ _ (fun _ => rfl)
    have h2 := emits_trans h1 (propagate_analyze_emits E fuel0 (r.ask E.decide Call.decide).2)
    refine emits_ite_snd _ (emits_refl _ _) (emits_ite_snd _ h1 (emits_ite_snd _ h2 ?_))
    exact emits_trans h2 (ih _)

theorem produce_failed_assumptions_emits (E : Env T) (fuel : Nat) (r : Run T) :
    Emits in_local_search r (produce_failed_assumptions E fuel r).2 := by
  have h := emits_trans (emits_log (emits_refl in_local_search r)
    (Call.enter Fn.produce_failed_assumptions) rfl)
    (failed_assumptions_loop_emits E fuel fuel _)
  unfold produce_failed_assumptions
  exact emits_ite_snd _ h (emits_log h _ rfl)

theorem local_search_round_emits (E : Env T) (i : Int) (r : Run T) :
    Emits in_local_search r (local_search_round E i r).2 := by
  unfold local_search_round
  repeat' first
    | apply emits_ite_snd
    | apply emits_log
    | apply emits_call
    | apply emits_upd
    | apply emits_ask
    | exact emits_refl _ _
    | rfl
    | exact fun _ => rfl

theorem local_search_rounds_emits (E : Env T) (fuel : Nat) (i res : Int) (r : Run T) :
    Emits in_local_search r (local_search_rounds E fuel i res r).2 := by
  induction fuel generalizing i res r with
  | zero => exact emits_refl _ _
  | succ k ih =>
    unfold local_search_rounds
    exact emits_ite_snd _ (emits_trans (local_search_round_emits E i r) (ih _ _ _))
      (emits_refl _ _)

theorem cdcl_step_emits (E : Env T) (r : Run T) :
    Emits in_cdcl_loop r (cdcl_step E r).2 := by
  unfold cdcl_step
  repeat' first
    | apply emits_ite_snd
    | apply emits_call
    | apply emits_ask
    | exact emits_refl _ _
    | rfl
    | exact fun _ => rfl

theorem cdcl_iterate_emits (E : Env T) (fuel : Nat) (r : Run T) :
    Emits in_cdcl_loop r (cdcl_iterate E fuel r).2 := by
  induction fuel generalizing r with
  | zero => exact emits_refl _ _
  | succ k ih =>
    unfold cdcl_iterate
    exact emits_ite_snd _ (cdcl_step_emits E r) (emits_ite_snd _ (cdcl_step_emits E r)
      (emits_trans (cdcl_step_emits E r) (ih _)))

theorem closed_none {P : Call → Bool} {r x : Run T} (f : Fn) (h : Emits P r x) :
    ∃ inner, (∀ e ∈ inner, P e = true) ∧
      ((none : Option Int), x).2.trace = r.trace ++ inner ++ closing f (none, x).1 := by
  obtain ⟨inner, htr, hP⟩ := h
  exact ⟨inner, hP, by simp [closing, htr]⟩

theorem closed_some {P : Call → Bool} {r x : Run T} (f : Fn) (res : Int) (h : Emits P r x) :
    ∃ inner, (∀ e ∈ inner, P e = true) ∧
      (some res, x.log (Call.leave f res)).2.trace =
        r.trace ++ inner ++ closing f (some res, x.log (Call.leave f res)).1 := by
  obtain ⟨inner, htr, hP⟩ := h
  exact ⟨inner, hP, by simp [closing, htr]⟩

theorem local_search_trace (E : Env T) (fuel : Nat) (r : Run T) :
    ∃ inner, (∀ e ∈ inner, in_local_search e = true) ∧
      (local_search E fuel r).2.trace =
        r.trace ++ stage_log Fn.local_search inner (local_search E fuel r).1 := by
  have key : ∃ inner, (∀ e ∈ inner, in_local_search e = true) ∧
      (local_search E fuel r).2.trace = (r.log (Call.enter Fn.local_search)).trace ++ inner ++
        closing Fn.local_search (local_search E fuel r).1 := by
    have hp := local_search_rounds_emits E fuel 1 0 (r.log (Call.enter Fn.local_search))
    have hq1 := fun x (h : Emits in_local_search (r.log (Call.enter Fn.local_search)) x) =>
      emits_trans h (try_to_satisfy_emits E fuel x)
    have hq2 := fun x (h : Emits in_local_search (r.log (Call.enter Fn.local_search)) x) =>
      emits_trans h (produce_failed_assumptions_emits E fuel x)
    unfold local_search
    simp only []
    repeat' split
    all_goals first
      | exact closed_some _ _ (emits_refl _ _)
      | exact closed_none _ hp
      | exact closed_some _ _ hp
      | exact closed_none _ (hq1 _ hp)
      | exact closed_some _ _ (hq1 _ hp)
      | exact closed_none _ (hq2 _ hp)
      | exact closed_some _ _ (hq2 _ hp)
  obtain ⟨inner, hP, htr⟩ := key
  exact ⟨inner, hP, by rw [htr, Run.log_trace]; simp [stage_log]⟩

theorem cdcl_loop_trace (E : Env T) (fuel : Nat) (r : Run T) :
    ∃ inner, (∀ e ∈ inner, in_cdcl_loop e = true) ∧
      (cdcl_loop_with_inprocessing E fuel r).2.trace =
        r.trace ++ stage_log Fn.cdcl_loop_with_inprocessing inner
          (cdcl_loop_with_inprocessing E fuel r).1 := by
  have key : ∃ inner, (∀ e ∈ inner, in_cdcl_loop e = true) ∧
      (cdcl_loop_with_inprocessing E fuel r).2.trace =
        (r.log (Call.enter Fn.cdcl_loop_with_inprocessing)).trace ++ inner ++
          closing Fn.cdcl_loop_with_inprocessing (cdcl_loop_with_inprocessing E fuel r).1 := by
    have h0 : Emits in_cdcl_loop (r.log (Call.enter Fn.cdcl_loop_with_inprocessing))
        (if (r.log (Call.enter Fn.cdcl_loop_with_inprocessing)).st.stable
         then (r.log (Call.enter Fn.cdcl_loop_with_inprocessing)).call (E.report '[')
          (Call.report '[')
         else (r.log (Call.enter Fn.cdcl_loop_with_inprocessing)).call (E.report '{')
          (Call.report '{')) :=
      emits_ite _ (emits_call (emits_refl _ _) _ _ rfl) (emits_call (emits_refl _ _) _ _ rfl)
    have hp := emits_trans h0 (cdcl_iterate_emits E fuel _)
    unfold cdcl_loop_with_inprocessing
    simp only []
    split
    · exact closed_none _ hp
    · exact closed_some _ _
        (emits_ite _ (emits_call hp _ _ rfl) (emits_call hp _ _ rfl))
  obtain ⟨inner, hP, htr⟩ := key
  exact ⟨inner, hP, by rw [htr, Run.log_trace]; simp [stage_log]⟩

theorem ladder_events_append (a b : List Call) :
    ladder_events (a ++ b) = ladder_events a ++ ladder_events b := by
  simp [ladder_events]

theorem in_preprocess_quiet (e : Call) (h : in_preprocess e = true) :
    is_ladder_event e = false := by
  cases e with
  | enter f => cases f <;> first | rfl | exact Bool.noConfusion h
  | leave f x => cases f <;> first | rfl | exact Bool.noConfusion h
  | _ => first | rfl | exact Bool.noConfusion h

theorem in_local_search_quiet (e : Call) (h : in_local_search e = true) :
    is_ladder_event e = false := by
  cases e with
  | enter f => cases f <;> first | rfl | exact Bool.noConfusion h
  | leave f x => cases f <;> first | rfl | exact Bool.noConfusion h
  | _ => first | rfl | exact Bool.noConfusion h

theorem around_ladder_quiet (e : Call) (h : around_ladder e = true) :
    is_ladder_event e = false := by
  cases e with
  | enter f => cases f <;> first | rfl | exact Bool.noConfusion h
  | leave f x => cases f <;> first | rfl | exact Bool.noConfusion h
  | _ => first | rfl | exact Bool.noConfusion h

theorem in_cdcl_loop_terminating (e : Call) (h : in_cdcl_loop e = true)
    (h2 : is_ladder_event e = true) : is_terminating e = true := by
  cases e with
  | enter f => exact Bool.noConfusion h
  | leave f x => exact Bool.noConfusion h
  | _ => first | rfl | exact Bool.noConfusion h | exact Bool.noConfusion h2

theorem quiet_of (P : Call → Bool) (hP : ∀ e, P e = true → is_ladder_event e = false)
    (l : List Call) (h : ∀ e ∈ l, P e = true) : ladder_events l = [] := by
  rw [ladder_events, List.filter_eq_nil_iff]
  intro e he
  rw [hP e (h e he)]
  exact Bool.false_ne_true

theorem cdcl_loop_events (l : List Call) (h : ∀ e ∈ l, in_cdcl_loop e = true) :
    ∀ e ∈ ladder_events l, is_terminating e = true := by
  intro e he
  rw [ladder_events, List.mem_filter] at he
  exact in_cdcl_loop_terminating e (h e he.1) he.2

theorem and_then_none (r : Run T) (f : Int → Run T → Option Int × Run T) :
    and_then (none, r) f = (none, r) := rfl

theorem and_then_some (x : Int) (r : Run T) (f : Int → Run T → Option Int × Run T) :
    and_then (some x, r) f = f x r := rfl

theorem ladder_skip (E : Env T) (fuel : Nat) (res0 : Int) (r : Run T) (h : res0 ≠ 0) :
    ladder E fuel res0 r = (some res0, r) := by
  simp only [ladder, if_neg h, and_then_some]

theorem stage_events (f : Fn) (inner : List Call) (o : Option Int)
    (hf : is_ladder_event (Call.enter f) = true)
    (hl : ∀ x, is_ladder_event (Call.leave f x) = true) (q : ladder_events inner = []) :
    ladder_events (stage_log f inner o) = Call.enter f :: closing f o := by
  cases o with
  | none =>
    simp only [stage_log, closing, List.append_nil]
    rw [show Call.enter f :: inner = [Call.enter f] ++ inner from rfl, ladder_events_append, q]
    simp [ladder_events, hf]
  | some x =>
    simp only [stage_log, closing]
    rw [show Call.enter f :: (inner ++ [Call.leave f x]) =
      [Call.enter f] ++ (inner ++ [Call.leave f x]) from rfl, ladder_events_append,
      ladder_events_append, q]
    simp [ladder_events, hf, hl]

theorem cdcl_stage_events (inner : List Call) (o : Option Int) :
    ladder_events (stage_log Fn.cdcl_loop_with_inprocessing inner o) =
      Call.enter Fn.cdcl_loop_with_inprocessing ::
        (ladder_events inner ++ closing Fn.cdcl_loop_with_inprocessing o) := by
  cases o with
  | none =>
    simp only [stage_log, closing, List.append_nil]
    rfl
  | some x =>
    simp only [stage_log, closing]
    rw [show Call.enter Fn.cdcl_loop_with_inprocessing ::
      (inner ++ [Call.leave Fn.cdcl_loop_with_inprocessing x]) =
      [Call.enter Fn.cdcl_loop_with_inprocessing] ++
        (inner ++ [Call.leave Fn.cdcl_loop_with_inprocessing x]) from rfl,
      ladder_events_append, ladder_events_append]
    rfl

theorem ladder_shape (E : Env T) (fuel : Nat) (res0 : Int) (r : Run T) :
    ∃ tr, (ladder E fuel res0 r).2.trace = r.trace ++ tr ∧
      Ladder res0 (ladder_events tr) (ladder E fuel res0 r).1 := by
  by_cases h0 : res0 = 0
  swap
  · rw [ladder_skip E fuel res0 r h0]
    exact ⟨[], by simp, Ladder.skipped h0⟩
  subst h0
  unfold ladder
  rw [if_pos rfl]
  obtain ⟨i1, hi1, ht1⟩ := preprocess_trace E fuel r
  have q1 := fun o => stage_events Fn.preprocess i1 o rfl (fun _ => rfl)
    (quiet_of _ in_preprocess_quiet i1 hi1)
  generalize preprocess E fuel r = p1 at ht1 ⊢
  obtain ⟨o1, r1⟩ := p1
  simp only [] at ht1
  cases o1 with
  | none =>
    rw [and_then_none]
    refine ⟨_, ht1, ?_⟩
    rw [q1]
    exact Ladder.in_preprocess rfl
  | some x1 =>
    rw [and_then_some]
    by_cases hx1 : x1 = 0
    swap
    · simp only [if_neg hx1, and_then_some]
      refine ⟨_, ht1, ?_⟩
      rw [q1]
      exact Ladder.preprocess_decided x1 rfl hx1
    subst hx1
    rw [if_pos rfl]
    obtain ⟨i2, hi2, ht2⟩ := local_search_trace E fuel r1
    have q2 := fun o => stage_events Fn.local_search i2 o rfl (fun _ => rfl)
      (quiet_of _ in_local_search_quiet i2 hi2)
    generalize local_search E fuel r1 = p2 at ht2 ⊢
    obtain ⟨o2, r2⟩ := p2
    simp only [] at ht2
    rw [ht1, List.append_assoc] at ht2
    cases o2 with
    | none =>
      rw [and_then_none]
      refine ⟨_, ht2, ?_⟩
      rw [ladder_events_append, q1, q2]
      exact Ladder.in_local_search rfl
    | some x2 =>
      rw [and_then_some]
      by_cases hx2 : x2 = 0
      swap
      · simp only [if_neg hx2, and_then_some]
        refine ⟨_, ht2, ?_⟩
        rw [ladder_events_append, q1, q2]
        exact Ladder.local_search_decided x2 rfl hx2
      subst hx2
      rw [if_pos rfl]
      have e2 : ladder_events (stage_log Fn.preprocess i1 (some 0) ++
          stage_log Fn.local_search i2 (some 0)) = after_local_search := by
        rw [ladder_events_append, q1, q2]
        rfl
      generalize stage_log Fn.preprocess i1 (some 0) ++
          stage_log Fn.local_search i2 (some 0) = pre at e2 ht2
      rw [and_then_some]
      by_cases hx3 : (E.lucky_phases r2.st).1 = 0
      swap
      · rw [if_neg (by rw [Run.ask_fst]; exact hx3)]
        refine ⟨pre ++ [Call.lucky_phases (E.lucky_phases r2.st).1],
          by rw [Run.ask_trace, ht2, List.append_assoc], ?_⟩
        rw [ladder_events_append, e2]
        have := Ladder.lucky_decided (E.lucky_phases r2.st).1 (rfl : (0 : Int) = 0) hx3
        simpa [ladder_events, is_ladder_event, Run.ask_fst] using this
      rw [if_pos (by rw [Run.ask_fst]; exact hx3)]
      simp only []
      have ht3 : ((r2.ask E.lucky_phases Call.lucky_phases).2.ask E.terminating
          Call.terminating).2.trace = r.trace ++ (pre ++ [Call.lucky_phases 0,
            Call.terminating (E.terminating (E.lucky_phases r2.st).2).1]) := by
        rw [Run.ask_trace, Run.ask_trace, Run.ask_st, ht2, hx3]
        simp
      by_cases hx4 : (E.terminating (E.lucky_phases r2.st).2).1 = true
      · rw [if_pos (by rw [Run.ask_fst, Run.ask_st]; exact hx4)]
        refine ⟨_, ht3, ?_⟩
        rw [ladder_events_append, e2, hx4]
        exact Ladder.terminated rfl
      · rw [if_neg (by rw [Run.ask_fst, Run.ask_st]; exact hx4)]
        have hf : (E.terminating (E.lucky_phases r2.st).2).1 = false := by simpa using hx4
        rw [hf] at ht3
        obtain ⟨i4, hi4, ht4⟩ := cdcl_loop_trace E fuel
          ((r2.ask E.lucky_phases Call.lucky_phases).2.ask E.terminating Call.terminating).2
        have q4 := cdcl_loop_events i4 hi4
        generalize cdcl_loop_with_inprocessing E fuel
          ((r2.ask E.lucky_phases Call.lucky_phases).2.ask E.terminating Call.terminating).2
          = p4 at ht4 ⊢
        obtain ⟨o4, r4⟩ := p4
        simp only [] at ht4
        rw [ht3, List.append_assoc] at ht4
        refine ⟨_, ht4, ?_⟩
        rw [ladder_events_append, ladder_events_append, e2, cdcl_stage_events]
        cases o4 with
        | none =>
          have := Ladder.in_cdcl_loop (ladder_events i4) (rfl : (0 : Int) = 0) q4
          simpa [before_cdcl_loop, closing, ladder_events, is_ladder_event] using this
        | some x4 =>
          have := Ladder.cdcl_loop_done (ladder_events i4) x4 (rfl : (0 : Int) = 0) q4
          simpa [before_cdcl_loop, closing, ladder_events, is_ladder_event] using this

theorem solve_finish_emits (E : Env T) (res : Int) (r : Run T) :
    Emits around_ladder r (solve_finish E res r).2 := by
  unfold solve_finish
  repeat' first
    | apply emits_log
    | apply emits_call
    | apply emits_upd
    | apply emits_ite
    | exact emits_refl _ _
    | rfl

theorem ladder_then_finish (E : Env T) (res0 : Int) (r0 r : Run T) (p : Option Int × Run T)
    (h0 : Emits around_ladder r0 r)
    (hp : ∃ tr, p.2.trace = r.trace ++ tr ∧ Ladder res0 (ladder_events tr) p.1) :
    ∃ tr, (and_then p (solve_finish E)).2.trace = r0.trace ++ tr ∧
      Ladder res0 (ladder_events tr) (and_then p (solve_finish E)).1 := by
  obtain ⟨t0, e0, q0⟩ := h0
  obtain ⟨tr, e1, hl⟩ := hp
  obtain ⟨o, r1⟩ := p
  have z0 := quiet_of _ around_ladder_quiet t0 q0
  cases o with
  | none =>
    rw [and_then_none]
    exact ⟨t0 ++ tr, by simp only [] at e1; rw [e1, e0, List.append_assoc],
      by rw [ladder_events_append, z0]; exact hl⟩
  | some x =>
    rw [and_then_some]
    obtain ⟨t2, e2, q2⟩ := solve_finish_emits E x r1
    have z2 := quiet_of _ around_ladder_quiet t2 q2
    refine ⟨t0 ++ (tr ++ t2), ?_, ?_⟩
    · simp only [] at e1
      rw [e2, e1, e0, List.append_assoc, List.append_assoc]
    · rw [ladder_events_append, ladder_events_append, z0, z2, List.append_nil]
      exact hl

end Logs

/-- C4, as stated, fails when `restore_clauses` leaves `unsat` set: with
`opts.restoreall = 2` the run below passes root propagation, reports `'+'`,
restores, reports `'r'` and then enters `preprocess` without propagating
again; it returns 20. -/
theorem solve_restore_counterexample :
    run_restore.st.opts.restoreall = 2 ∧
    (solve E_restore 1 run_restore).1 = some 20 ∧
    (solve E_restore 1 run_restore).2.trace =
      [Call.enter Fn.solve, Call.propagate true, Call.enter Fn.init_limits,
        Call.swap_averages, Call.reluctant_enable 1024 1048576, Call.leave Fn.init_limits 0,
        Call.report '+', Call.restore_clauses, Call.report 'r', Call.enter Fn.preprocess,
        Call.leave Fn.preprocess 20, Call.report '0', Call.leave Fn.solve 20] := by
  decide

section Restore

attribute [local irreducible] Run.call Run.ask Run.log Run.upd

theorem preprocess_round_unsat (E : Env T) (i : Int) (r : Run T) (hu : r.st.unsat = true) :
    preprocess_round E i r = (false, (r.log (Call.enter Fn.preprocess_round)).log
      (Call.leave Fn.preprocess_round 0)) := by
  unfold preprocess_round
  simp only []
  rw [if_pos (by rw [Run.log_st]; exact hu)]

theorem preprocess_rounds_unsat (E : Env T) (fuel : Nat) (i : Int) (r : Run T)
    (hu : r.st.unsat = true) :
    (preprocess_rounds E fuel i r).2.st = r.st ∧
      (0 < fuel → (preprocess_rounds E fuel i r).1 = true) := by
  cases fuel with
  | zero => exact ⟨rfl, fun h => absurd h (by decide)⟩
  | succ k =>
    unfold preprocess_rounds
    rw [preprocess_round_unsat E i r hu]
    split
    · exact ⟨by simp only [Bool.not_false, if_true, Run.log_st], fun _ => by simp⟩
    · exact ⟨rfl, fun _ => rfl⟩

theorem preprocess_unsat (E : Env T) (fuel : Nat) (r : Run T) (hu : r.st.unsat = true) :
    ((preprocess E fuel r).1 = some 20 ∨ (preprocess E fuel r).1 = none) ∧
      (0 < fuel → (preprocess E fuel r).1 = some 20) := by
  have h := preprocess_rounds_unsat E fuel 0 (r.log (Call.enter Fn.preprocess))
    (by rw [Run.log_st]; exact hu)
  unfold preprocess
  simp only []
  by_cases hs : (r.log (Call.enter Fn.preprocess)).st.opts.simplify = true
  · rw [if_pos hs]
    cases hb : (preprocess_rounds E fuel 0 (r.log (Call.enter Fn.preprocess))).1
    · simp only [Bool.not_false, if_true, or_true, true_and]
      intro hf
      rw [h.2 hf] at hb
      exact absurd hb (by decide)
    · simp only [Bool.not_true, Bool.false_eq_true, if_false, h.1, Run.log_st, hu, if_true,
        true_or, implies_true, and_self]
  · rw [if_neg hs]
    simp only [Bool.not_true, Bool.false_eq_true, if_false, Run.log_st, hu, if_true,
      true_or, implies_true, and_self]

theorem ladder_extends (E : Env T) (fuel : Nat) (res0 : Int) (r : Run T) :
    ∃ tr, (and_then (ladder E fuel res0 r) (solve_finish E)).2.trace = r.trace ++ tr := by
  obtain ⟨tr, h, -⟩ := ladder_then_finish E res0 r r (ladder E fuel res0 r) (emits_refl _ _)
    (ladder_shape E fuel res0 r)
  exact ⟨tr, h⟩

theorem not_propagate_of_preprocess (e : Call) (h : in_preprocess e = true) (b : Bool) :
    e ≠ Call.propagate b := by
  intro he
  subst he
  exact Bool.noConfusion h

theorem ladder_unsat (E : Env T) (fuel : Nat) (r : Run T) (hu : r.st.unsat = true) :
    (0 < fuel → (and_then (ladder E fuel 0 r) (solve_finish E)).1 = some 20) ∧
    ∃ tl, (and_then (ladder E fuel 0 r) (solve_finish E)).2.trace = r.trace ++ tl ∧
      ∀ b, Call.propagate b ∉ tl := by
  obtain ⟨hres, hfuel⟩ := preprocess_unsat E fuel r hu
  obtain ⟨inner, hin, htr⟩ := preprocess_trace E fuel r
  have hno : ∀ b, Call.propagate b ∉ inner :=
    fun b hm => not_propagate_of_preprocess _ (hin _ hm) b rfl
  unfold ladder
  rw [if_pos rfl]
  generalize preprocess E fuel r = p at hres hfuel htr
  obtain ⟨o, r1⟩ := p
  simp only [] at hres hfuel htr
  rcases hres with h20 | hnone
  · subst h20
    simp only [and_then_some, if_neg (show ¬ (20 : Int) = 0 by decide)]
    refine ⟨fun _ => solve_finish_fst E 20 r1, ?_⟩
    refine ⟨stage_log Fn.preprocess inner (some 20) ++
      [Call.report '0', Call.leave Fn.solve 20], ?_, ?_⟩
    · rw [solve_finish_trace, htr, List.append_assoc]
      rfl
    · intro b hm
      simp only [stage_log, closing, List.mem_append, List.mem_cons, List.mem_singleton,
        List.not_mem_nil, or_false] at hm
      rcases hm with (h | h | h) | h | h
      · exact Call.noConfusion h
      · exact hno b h
      · exact Call.noConfusion h
      · exact Call.noConfusion h
      · exact Call.noConfusion h
  · subst hnone
    rw [and_then_none, and_then_none]
    refine ⟨fun hf => absurd (hfuel hf) (by simp), ?_⟩
    refine ⟨stage_log Fn.preprocess inner none, htr, ?_⟩
    intro b hm
    simp only [stage_log, closing, List.append_nil, List.mem_cons] at hm
    rcases hm with h | h
    · exact Call.noConfusion h
    · exact hno b h

/-- C4, amended: when `solve` has passed root propagation and does not take
the skip branch (`opts.restoreall > 1` or a tainted literal, read after
`init_limits`), it reports `'+'`, calls `restore_clauses`, reports `'r'`; then,
if `unsat` is not set at that point, its next call is `propagate`, and if that
reports a conflict it calls `learn_empty_clause`, reports `'0'` and returns 20;
if `unsat` is set at that point it does not propagate again and returns 20.
A run on this branch that returns 10 has called `propagate`, with success,
right after reporting `'r'`. -/
theorem solve_restore (E : Env T) (fuel : Nat) (r r0 r1 r3 : Run T)
    (e0 : r0 = if (r.log (Call.enter Fn.solve)).st.level ≠ 0
      then (r.log (Call.enter Fn.solve)).call E.backtrack Call.backtrack
      else r.log (Call.enter Fn.solve))
    (e1 : r1 = init_limits E (r0.ask E.propagate Call.propagate).2)
    (e3 : r3 = ((r1.call (E.report '+') (Call.report '+')).call E.restore_clauses
      Call.restore_clauses).call (E.report 'r') (Call.report 'r'))
    (hu : r0.st.unsat = false) (hp : (E.propagate r0.st).1 = true)
    (hb : ¬ (r1.st.opts.restoreall ≤ 1 ∧ E.tainted_empty r1.st = true)) :
    r3.trace = r1.trace ++ [Call.report '+', Call.restore_clauses, Call.report 'r'] ∧
    (r3.st.unsat = false →
      ∃ tl, (solve E fuel r).2.trace =
          r3.trace ++ Call.propagate (E.propagate r3.st).1 :: tl ∧
        ((E.propagate r3.st).1 = false → (solve E fuel r).1 = some 20 ∧
          tl = [Call.learn_empty_clause, Call.report '0', Call.leave Fn.solve 20])) ∧
    (r3.st.unsat = true →
      (0 < fuel → (solve E fuel r).1 = some 20) ∧
      ∃ tl, (solve E fuel r).2.trace = r3.trace ++ tl ∧ ∀ b, Call.propagate b ∉ tl) ∧
    ((solve E fuel r).1 = some 10 →
      ∃ tl, (solve E fuel r).2.trace = r3.trace ++ Call.propagate true :: tl) := by
  have hs : solve E fuel r = and_then (solve_branch E fuel r0) (solve_finish E) := by
    rw [e0]
    rfl
  have hbr : solve_branch E fuel r0 =
      ladder E fuel (restore_step E r1).1 (restore_step E r1).2 := by
    unfold solve_branch
    rw [if_neg (by rw [hu]; decide)]
    simp only []
    rw [if_neg (by rw [Run.ask_fst, hp]; decide), e1]
  have hc : ¬ (decide (r1.st.opts.restoreall ≤ 1) && E.tainted_empty r1.st) = true := by
    simpa using hb
  have hrs : restore_step E r1 =
      if r3.st.unsat then (0, r3)
      else if (!(r3.ask E.propagate Call.propagate).1) then
        (20, (r3.ask E.propagate Call.propagate).2.call E.learn_empty_clause
          Call.learn_empty_clause)
      else (0, (r3.ask E.propagate Call.propagate).2) := by
    unfold restore_step
    rw [if_neg hc, e3]
  have ht3 : r3.trace = r1.trace ++ [Call.report '+', Call.restore_clauses, Call.report 'r'] := by
    rw [e3]
    simp only [Run.call_trace, List.append_assoc, List.cons_append, List.nil_append]
  have hA : r3.st.unsat = false →
      ∃ tl, (solve E fuel r).2.trace =
          r3.trace ++ Call.propagate (E.propagate r3.st).1 :: tl ∧
        ((E.propagate r3.st).1 = false → (solve E fuel r).1 = some 20 ∧
          tl = [Call.learn_empty_clause, Call.report '0', Call.leave Fn.solve 20]) := by
    intro h3
    rw [hs, hbr, hrs, if_neg (by rw [h3]; decide)]
    by_cases hq : (E.propagate r3.st).1 = true
    · rw [if_neg (by rw [Run.ask_fst, hq]; decide)]
      obtain ⟨tr, htr⟩ := ladder_extends E fuel 0 (r3.ask E.propagate Call.propagate).2
      refine ⟨tr, ?_, fun hf => absurd (hq.symm.trans hf) (by decide)⟩
      rw [htr, Run.ask_trace, List.append_assoc]
      rfl
    · have hf : (E.propagate r3.st).1 = false := by simpa using hq
      rw [if_pos (by rw [Run.ask_fst, hf]; rfl)]
      simp only []
      rw [ladder_skip E fuel 20 _ (by decide), and_then_some]
      refine ⟨[Call.learn_empty_clause, Call.report '0', Call.leave Fn.solve 20], ?_,
        fun _ => ⟨solve_finish_fst E 20 _, rfl⟩⟩
      rw [solve_finish_trace, Run.call_trace, Run.ask_trace]
      simp
  have hB : r3.st.unsat = true →
      (0 < fuel → (solve E fuel r).1 = some 20) ∧
      ∃ tl, (solve E fuel r).2.trace = r3.trace ++ tl ∧ ∀ b, Call.propagate b ∉ tl := by
    intro h3
    rw [hs, hbr, hrs, if_pos h3]
    exact ladder_unsat E fuel r3 h3
  refine ⟨ht3, hA, hB, ?_⟩
  intro h10
  cases h3 : r3.st.unsat
  · obtain ⟨tl, htl, hf⟩ := hA h3
    cases hq : (E.propagate r3.st).1
    · rw [(hf hq).1] at h10
      exact absurd h10 (by decide)
    · rw [hq] at htl
      exact ⟨tl, htl⟩
  · obtain ⟨hfuel, -⟩ := hB h3
    cases fuel with
    | zero =>
      exfalso
      rw [hs, hbr, hrs, if_pos h3] at h10
      have := (preprocess_unsat E 0 r3 h3).1
      unfold ladder at h10
      rw [if_pos rfl] at h10
      rcases this with h | h
      · generalize preprocess E 0 r3 = p at h h10
        obtain ⟨o, r4⟩ := p
        simp only [] at h
        subst h
        simp only [and_then_some, if_neg (show ¬ (20 : Int) = 0 by decide)] at h10
        rw [solve_finish_fst] at h10
        exact absurd h10 (by decide)
      · generalize preprocess E 0 r3 = p at h h10
        obtain ⟨o, r4⟩ := p
        simp only [] at h
        subst h
        rw [and_then_none, and_then_none] at h10
        exact absurd h10 (by simp)
    | succ k =>
      rw [hfuel (Nat.succ_pos k)] at h10
      exact absurd h10 (by decide)

end Restore

theorem solve_restore_witness :
    run_restore.st.unsat = false ∧ (E0.propagate run_restore.st).1 = true ∧
    ∃ tl, (solve E0 1 run_restore).2.trace =
      [Call.enter Fn.solve, Call.propagate true, Call.enter Fn.init_limits,
        Call.swap_averages, Call.reluctant_enable 1024 1048576, Call.leave Fn.init_limits 0,
        Call.report '+', Call.restore_clauses, Call.report 'r'] ++
        Call.propagate true :: tl := by
  have h := solve_restore E0 1 run_restore _ _ _ rfl rfl rfl (by decide) (by decide)
    (by decide)
  obtain ⟨tl, htl, -⟩ := h.2.1 (by decide)
  exact ⟨rfl, rfl, tl, htl⟩

/-! ## Growth of the variable space: the new slots -/

theorem assert_all_iff (lo hi : Int) (p : Int → Bool) :
    assert_all lo hi p = true ↔ ∀ i, lo ≤ i → i ≤ hi → p i = true := by
  unfold assert_all
  rw [List.all_eq_true]
  constructor
  · intro h i h1 h2
    have := h (i - lo).toNat (by rw [List.mem_range]; omega)
    have e : lo + ((i - lo).toNat : Int) = i := by omega
    rwa [e] at this
  · intro h k hk
    rw [List.mem_range] at hk
    exact h _ (by omega) (by omega)

theorem enlarge_init_filled (v : List Int) (N : Nat) (x : Int) :
    Filled v (enlarge_init v N x) N x := by
  unfold Filled enlarge_init
  refine ⟨by rw [List.length_append, List.length_replicate]; omega, fun i h1 h2 => ?_⟩
  rw [List.length_append, List.length_replicate] at h2
  rw [List.getElem?_append_right h1, List.getElem?_replicate]
  simp
  omega

theorem enlarge_cell (n : Int) (s : Internal T) (lit : Int) (h : s.max_var < |lit|)
    (h1 : -(new_vsize s.vsize n : Int) ≤ lit) (h2 : lit < new_vsize s.vsize n) :
    (enlarge n s).cell lit = some 0 := by
  have hlt : (lit + (new_vsize s.vsize n : Int)).toNat < 2 * new_vsize s.vsize n := by omega
  have hcast : (((lit + (new_vsize s.vsize n : Int)).toNat : Nat) : Int)
      - (new_vsize s.vsize n : Int) = lit := by omega
  unfold Internal.cell
  rw [enlarge_vals_eq, enlarge_vsize]
  simp only
  rw [if_pos (by omega), List.getElem?_map, List.getElem?_range hlt]
  simp only [Option.map_some', hcast]
  rw [if_neg]
  intro hc
  have := abs_le.mpr ⟨by omega, hc.2.2⟩
  omega

theorem enlarge_init_get (v : List Int) (N : Nat) (x : Int) (i : Nat) (hi : i < N)
    (hold : i < v.length → v[i]? = some x) : (enlarge_init v N x)[i]? = some x := by
  by_cases hl : i < v.length
  · unfold enlarge_init
    rw [List.getElem?_append_left hl]
    exact hold hl
  · have hf := enlarge_init_filled v N x
    exact hf.2 i (by omega) (by rw [hf.1]; omega)

theorem enlarge_btab (n : Int) (s : Internal T) :
    (enlarge n s).btab = enlarge_init s.btab (new_vsize s.vsize n) 0 := rfl

theorem enlarge_ptab (n : Int) (s : Internal T) :
    (enlarge n s).ptab = enlarge_init s.ptab (2 * new_vsize s.vsize n) (-1) := rfl

theorem cell_of_val (s : Internal T) (buf : List Int) (lit : Int) (hv : s.vals = some buf)
    (h1 : 0 ≤ lit + s.vsize) (h2 : (lit + s.vsize).toNat < buf.length)
    (hz : s.val lit = 0) : s.cell lit = some 0 := by
  rw [val_of_buffer s buf lit hv h1, List.getD_eq_getElem?_getD,
    List.getElem?_eq_getElem h2] at hz
  unfold Internal.cell
  rw [hv]
  simp only
  rw [if_pos h1, List.getElem?_eq_getElem h2]
  simpa using hz

theorem init_assertions_hold (n : Int) (s : Internal T) (h0 : 0 ≤ s.max_var)
    (h : s.max_var < n) (hc : BeyondClean s) (hz : n.toNat < s.vsize → Sized s) :
    init_assertions n (init_enlarge n s) = true := by
  obtain ⟨hv, hbt, hpt⟩ := hc
  unfold init_assertions init_enlarge
  by_cases hg : s.vsize ≤ n.toNat
  · rw [if_pos hg]
    have hN := new_vsize_gt s.vsize n
    simp only [Bool.and_eq_true, assert_all_iff, beq_iff_eq, enlarge_max_var]
    refine ⟨⟨⟨?_, ?_⟩, ?_⟩, ?_⟩
    · intro i h1 h2
      exact enlarge_cell n s i (lt_abs.mpr (Or.inr (by omega))) (by omega) (by omega)
    · intro i h1 h2
      exact enlarge_cell n s i (lt_abs.mpr (Or.inl (by omega))) (by omega) (by omega)
    · intro i h1 h2
      rw [enlarge_btab]
      exact enlarge_init_get _ _ _ _ (by omega) (fun hl => hbt _ (by omega) hl)
    · intro i h1 h2
      rw [enlarge_ptab]
      exact enlarge_init_get _ _ _ _ (by omega) (fun hl => hpt _ (by omega) hl)
  · rw [if_neg hg]
    obtain ⟨⟨buf, hb, hlen⟩, hbl, hpl⟩ := hz (by omega)
    simp only [Bool.and_eq_true, assert_all_iff, beq_iff_eq]
    refine ⟨⟨⟨?_, ?_⟩, ?_⟩, ?_⟩
    · intro i h1 h2
      exact cell_of_val s buf i hb (by omega) (by omega)
        (hv i (lt_abs.mpr (Or.inr (by omega))))
    · intro i h1 h2
      exact cell_of_val s buf i hb (by omega) (by omega)
        (hv i (lt_abs.mpr (Or.inl (by omega))))
    · intro i h1 h2
      exact hbt _ (by omega) (by omega)
    · intro i h1 h2
      exact hpt _ (by omega) (by omega)

/-- C11: after `enlarge (n)` every newly exposed slot is initialised.  With
`N` the new capacity: every cell `vals[l]` of the new buffer (`-N <= l < N`)
with `|l| > max_var`, of either sign, exists and is zero; `btab`, `stab`,
`frozentab`, `phases.target`, `phases.best`, `phases.prev`, `phases.min` and
`marks` have grown to `N` entries and their new entries are zero; `ptab` has
grown to `2*N` entries and its new entries are -1; `phases.saved` has grown to
`N` entries and its new entries are +1 if `opts.phase` is set and -1 otherwise.
Consequently the assertions of `init` hold after its guarded call of `enlarge`:
when `0 <= max_var < n`, the slots beyond `max_var` held zero (resp. -1) before,
and, in case `enlarge` is not called, `vals`, `btab` and `ptab` have the sizes
that go with `vsize`. -/
theorem enlarge_initialises (n : Int) (s : Internal T) :
    (∀ lit : Int, s.max_var < |lit| → -(new_vsize s.vsize n : Int) ≤ lit →
      lit < new_vsize s.vsize n → (enlarge n s).cell lit = some 0) ∧
    Filled s.btab (enlarge n s).btab (new_vsize s.vsize n) 0 ∧
    Filled s.stab (enlarge n s).stab (new_vsize s.vsize n) 0 ∧
    Filled s.frozentab (enlarge n s).frozentab (new_vsize s.vsize n) 0 ∧
    Filled s.phases.target (enlarge n s).phases.target (new_vsize s.vsize n) 0 ∧
    Filled s.phases.best (enlarge n s).phases.best (new_vsize s.vsize n) 0 ∧
    Filled s.phases.prev (enlarge n s).phases.prev (new_vsize s.vsize n) 0 ∧
    Filled s.phases.min (enlarge n s).phases.min (new_vsize s.vsize n) 0 ∧
    Filled s.marks (enlarge n s).marks (new_vsize s.vsize n) 0 ∧
    Filled s.ptab (enlarge n s).ptab (2 * new_vsize s.vsize n) (-1) ∧
    Filled s.phases.saved (enlarge n s).phases.saved (new_vsize s.vsize n)
      (if s.opts.phase then 1 else -1) ∧
    (0 ≤ s.max_var → s.max_var < n → BeyondClean s → (n.toNat < s.vsize → Sized s) →
      init_assertions n (init_enlarge n s) = true) :=
  ⟨fun lit h h1 h2 => enlarge_cell n s lit h h1 h2,
    enlarge_init_filled _ _ _, enlarge_init_filled _ _ _, enlarge_init_filled _ _ _,
    enlarge_init_filled _ _ _, enlarge_init_filled _ _ _, enlarge_init_filled _ _ _,
    enlarge_init_filled _ _ _, enlarge_init_filled _ _ _, enlarge_init_filled _ _ _,
    enlarge_init_filled _ _ _, init_assertions_hold n s⟩

theorem init_enlarge_st (n : Int) (r : Run T) :
    (if r.st.vsize ≤ n.toNat then r.upd (enlarge n) else r).st = init_enlarge n r.st := by
  unfold init_enlarge
  split <;> rfl

theorem enlarge_initialises_witness :
    (0 ≤ (run0 : Run T0).st.max_var ∧ run0.st.max_var < 3 ∧ BeyondClean run0.st ∧
      init_assertions 3 (init_enlarge 3 run0.st) = true) ∧
    (0 ≤ (init E0 5 (init E0 3 run0)).st.max_var ∧
      (init E0 5 (init E0 3 run0)).st.max_var < 7 ∧
      BeyondClean (init E0 5 (init E0 3 run0)).st ∧
      Sized (init E0 5 (init E0 3 run0)).st ∧
      init_assertions 7 (init_enlarge 7 (init E0 5 (init E0 3 run0)).st) = true) :=
  have c0 : BeyondClean (run0 : Run T0).st :=
    ⟨fun lit _ => val_of_null _ lit rfl, fun i _ hi => absurd hi (Nat.not_lt_zero i),
      fun i _ hi => absurd hi (Nat.not_lt_zero i)⟩
  have hv : (init E0 5 (init E0 3 run0)).st.vals = some (List.replicate 16 0) := by decide
  have hb : (init E0 5 (init E0 3 run0)).st.btab = List.replicate 8 0 := by decide
  have hp : (init E0 5 (init E0 3 run0)).st.ptab = List.replicate 16 (-1) := by decide
  have c5 : BeyondClean (init E0 5 (init E0 3 run0)).st :=
    ⟨fun lit _ => by
        unfold Internal.val
        rw [hv]
        simp only
        split
        · rw [List.getD_eq_getElem?_getD, List.getElem?_replicate]
          split <;> rfl
        · rfl,
      fun i _ hi => by
        rw [hb] at hi ⊢
        rw [List.getElem?_replicate, if_pos (by simpa using hi)],
      fun i _ hi => by
        rw [hp] at hi ⊢
        rw [List.getElem?_replicate, if_pos (by simpa using hi)]⟩
  have z5 : Sized (init E0 5 (init E0 3 run0)).st :=
    ⟨⟨_, hv, by decide⟩, by decide, by decide⟩
  ⟨⟨by decide, by decide, c0,
      (enlarge_initialises 3 run0.st).2.2.2.2.2.2.2.2.2.2.2 (by decide) (by decide) c0
        (fun h => absurd h (by decide))⟩,
    ⟨by decide, by decide, c5, z5,
      (enlarge_initialises 7 (init E0 5 (init E0 3 run0)).st).2.2.2.2.2.2.2.2.2.2.2
        (by decide) (by decide) c5 (fun _ => z5)⟩⟩

/-! ## Growth of the variable space: assignment duality -/

theorem init_enlarge_max_var (n : Int) (s : Internal T) :
    (init_enlarge n s).max_var = s.max_var := by
  unfold init_enlarge
  split <;> rfl

theorem countP_range_extend (q q' : Nat → Bool) (m d : Nat) (b : Bool)
    (hold : ∀ k, k < m → q' k = q k) (hnew : ∀ k, m ≤ k → k < m + d → q' k = b) :
    (List.range (m + d)).countP q' = (List.range m).countP q + if b then d else 0 := by
  rw [List.range_add, List.countP_append]
  congr 1
  · apply List.countP_congr
    intro k hk
    rw [List.mem_range] at hk
    rw [hold k hk]
  · cases b
    · rw [if_neg (by decide), List.countP_eq_zero]
      intro k hk
      rw [List.mem_map] at hk
      obtain ⟨j, hj, rfl⟩ := hk
      rw [List.mem_range] at hj
      rw [hnew _ (by omega) (by omega)]
      decide
    · rw [if_pos rfl]
      have : (List.map (fun x => m + x) (List.range d)).countP q'
          = (List.map (fun x => m + x) (List.range d)).length := by
        rw [List.countP_eq_length]
        intro k hk
        rw [List.mem_map] at hk
        obtain ⟨j, hj, rfl⟩ := hk
        rw [List.mem_range] at hj
        exact hnew _ (by omega) (by omega)
      rw [this, List.length_map, List.length_range]

theorem init_enlarge_ftab (n : Int) (s : Internal T) :
    (init_enlarge n s).ftab = if s.vsize ≤ n.toNat
      then enlarge_init s.ftab (new_vsize s.vsize n) T.flags0 else s.ftab := by
  unfold init_enlarge
  split <;> rfl

theorem init_enlarge_stats (n : Int) (s : Internal T) :
    (init_enlarge n s).stats = s.stats := by
  unfold init_enlarge
  split <;> rfl

theorem init_accounts (E : Env T) (n : Int) (r : Run T) (h : r.st.max_var < n)
    (hb : KeepsAccounts E.backtrack)
    (hq : ∀ a b, KeepsAccounts (E.init_queue a b))
    (hs : ∀ a b, KeepsAccounts (E.init_scores a b)) :
    (init E n r).st.max_var = n ∧ (init E n r).st.ftab = (init_enlarge n r.st).ftab ∧
    (init E n r).st.stats = { r.st.stats with
      vars := r.st.stats.vars + (n - r.st.max_var),
      unused := r.st.stats.unused + (n - r.st.max_var),
      inactive := r.st.stats.inactive + (n - r.st.max_var) } := by
  have h' : ¬ n ≤ r.st.max_var := by omega
  have hm := init_max_var_eq E n r (fun a b s => (hq a b s).2.1) (fun a b s => (hs a b s).2.1) h
  refine ⟨hm, ?_⟩
  simp only [init, h', if_false, Run.upd_st, Run.call_st, (hq _ _ _).1, (hs _ _ _).1,
    (hq _ _ _).2.2.2, (hs _ _ _).2.2.2]
  have h1 : (if r.st.level ≠ 0 then r.call E.backtrack Call.backtrack else r).st.stats
        = r.st.stats ∧
      (if r.st.level ≠ 0 then r.call E.backtrack Call.backtrack else r).st.max_var
        = r.st.max_var ∧
      (if r.st.level ≠ 0 then r.call E.backtrack Call.backtrack else r).st.vsize
        = r.st.vsize ∧
      (if r.st.level ≠ 0 then r.call E.backtrack Call.backtrack else r).st.ftab
        = r.st.ftab := by
    by_cases hl : r.st.level ≠ 0
    · rw [if_pos hl]
      exact hb _
    · rw [if_neg hl]
      exact ⟨rfl, rfl, rfl, rfl⟩
  generalize (if r.st.level ≠ 0 then r.call E.backtrack Call.backtrack else r) = r1 at h1
  obtain ⟨e1, e2, e3, e4⟩ := h1
  rw [init_enlarge_st, init_enlarge_stats, init_enlarge_max_var, init_enlarge_ftab,
    init_enlarge_ftab, e1, e2, e3, e4]
  exact ⟨rfl, rfl⟩

theorem init_enlarge_ftab_old (n : Int) (s : Internal T) (i : Nat) (hi : i < s.ftab.length) :
    (init_enlarge n s).ftab[i]? = s.ftab[i]? := by
  rw [init_enlarge_ftab]
  split
  · unfold enlarge_init
    rw [List.getElem?_append_left hi]
  · rfl

theorem init_enlarge_ftab_new (n : Int) (s : Internal T) (i : Nat) (hi : s.ftab.length ≤ i)
    (h0 : 0 ≤ n) (hn : i ≤ n.toNat) (hsz : n.toNat < s.vsize → s.vsize ≤ s.ftab.length) :
    (init_enlarge n s).ftab[i]? = some T.flags0 := by
  rw [init_enlarge_ftab]
  split
  · have hN := new_vsize_gt s.vsize n
    unfold enlarge_init
    rw [List.getElem?_append_right hi, List.getElem?_replicate, if_pos (by omega)]
  · have := hsz (by omega)
    omega

theorem init_count (E : Env T) (F : FlagsOps T) (n : Int) (r : Run T) (p : T.Flags → Bool)
    (b : Bool) (h : r.st.max_var < n) (h0 : 0 ≤ r.st.max_var)
    (hb : KeepsAccounts E.backtrack)
    (hq : ∀ a b, KeepsAccounts (E.init_queue a b))
    (hs : ∀ a b, KeepsAccounts (E.init_scores a b))
    (hp : ∀ f, IsUnused F f → (!F.active f && p f) = b)
    (hu0 : IsUnused F T.flags0)
    (hcover : ∀ idx : Nat, 1 ≤ idx → (idx : Int) ≤ r.st.max_var → idx < r.st.ftab.length)
    (hbeyond : ∀ i : Nat, r.st.max_var < (i : Int) → i < r.st.ftab.length →
      ∃ f, r.st.ftab[i]? = some f ∧ IsUnused F f)
    (hsz : n.toNat < r.st.vsize → r.st.vsize ≤ r.st.ftab.length) :
    count_inactive F p (init E n r).st
      = count_inactive F p r.st + if b then n - r.st.max_var else 0 := by
  obtain ⟨e1, e2, _⟩ := init_accounts E n r h hb hq hs
  unfold count_inactive
  rw [e1]
  have en : n.toNat = r.st.max_var.toNat + (n - r.st.max_var).toNat := by omega
  rw [en, countP_range_extend (fun k => counts_as F p r.st (k + 1)) _ _ _ b]
  · cases b
    · simp
    · simp only [if_true, Nat.cast_add]
      congr 1
      omega
  · intro k hk
    unfold counts_as
    rw [e2, init_enlarge_ftab_old n r.st (k + 1) (hcover _ (by omega) (by omega))]
  · intro k hk1 hk2
    unfold counts_as
    rw [e2]
    by_cases hl : k + 1 < r.st.ftab.length
    · rw [init_enlarge_ftab_old n r.st (k + 1) hl]
      obtain ⟨f, hf, hu⟩ := hbeyond (k + 1) (by omega) hl
      rw [hf]
      exact hp f hu
    · rw [init_enlarge_ftab_new n r.st (k + 1) (by omega) (by omega) (by omega) hsz]
      exact hp _ hu0

/-- C13: variable accounting is preserved by `init`, where `backtrack`,
`init_queue` and `init_scores` write neither `stats`, `max_var`, `vsize` nor
`ftab`.  `init (n)` adds exactly `n - max_var` (0 when `n <= max_var`) to each
of `stats.vars`, `stats.unused` and `stats.inactive` and leaves `stats.active`
and the counters `stats.now.fixed`, `eliminated`, `substituted`, `pure` as they
are; so `max_var == stats.active + stats.inactive` and `stats.inactive ==
stats.unused + fixed + eliminated + substituted + pure` hold after it when they
held before.  For the counts that `check_var_stats` takes from the flags: when
`max_var >= 0`, default-constructed flags say unused and nothing else, `ftab`
covers the variables `1 .. max_var`, its entries beyond `max_var` say unused and
nothing else, and `ftab` has at least `vsize` entries in case `enlarge` is not
called, then the counts of fixed, eliminated, substituted and pure variables are
unchanged, the count of unused variables grows by the same amount, and
`check_var_stats` passes after `init (n)` if it passed before. -/
theorem init_accounting (E : Env T) (F : FlagsOps T) (n : Int) (r : Run T)
    (hb : KeepsAccounts E.backtrack)
    (hq : ∀ a b, KeepsAccounts (E.init_queue a b))
    (hs : ∀ a b, KeepsAccounts (E.init_scores a b)) :
    (init E n r).st.stats.vars
      = r.st.stats.vars + (if n ≤ r.st.max_var then 0 else n - r.st.max_var) ∧
    (init E n r).st.stats.unused
      = r.st.stats.unused + (if n ≤ r.st.max_var then 0 else n - r.st.max_var) ∧
    (init E n r).st.stats.inactive
      = r.st.stats.inactive + (if n ≤ r.st.max_var then 0 else n - r.st.max_var) ∧
    (init E n r).st.stats.active = r.st.stats.active ∧
    (init E n r).st.stats.now_fixed = r.st.stats.now_fixed ∧
    (init E n r).st.stats.now_eliminated = r.st.stats.now_eliminated ∧
    (init E n r).st.stats.now_substituted = r.st.stats.now_substituted ∧
    (init E n r).st.stats.now_pure = r.st.stats.now_pure ∧
    (r.st.max_var = r.st.stats.active + r.st.stats.inactive →
      (init E n r).st.max_var
        = (init E n r).st.stats.active + (init E n r).st.stats.inactive) ∧
    (r.st.stats.inactive = r.st.stats.unused + r.st.stats.now_fixed
        + r.st.stats.now_eliminated + r.st.stats.now_substituted + r.st.stats.now_pure →
      (init E n r).st.stats.inactive = (init E n r).st.stats.unused
        + (init E n r).st.stats.now_fixed + (init E n r).st.stats.now_eliminated
        + (init E n r).st.stats.now_substituted + (init E n r).st.stats.now_pure) ∧
    (0 ≤ r.st.max_var → IsUnused F T.flags0 →
      (∀ idx : Nat, 1 ≤ idx → (idx : Int) ≤ r.st.max_var → idx < r.st.ftab.length) →
      (∀ i : Nat, r.st.max_var < (i : Int) → i < r.st.ftab.length →
        ∃ f, r.st.ftab[i]? = some f ∧ IsUnused F f) →
      (n.toNat < r.st.vsize → r.st.vsize ≤ r.st.ftab.length) →
      count_inactive F F.fixed (init E n r).st = count_inactive F F.fixed r.st ∧
      count_inactive F F.eliminated (init E n r).st
        = count_inactive F F.eliminated r.st ∧
      count_inactive F F.substituted (init E n r).st
        = count_inactive F F.substituted r.st ∧
      count_inactive F F.pure (init E n r).st = count_inactive F F.pure r.st ∧
      count_inactive F F.unused (init E n r).st = count_inactive F F.unused r.st
        + (if n ≤ r.st.max_var then 0 else n - r.st.max_var) ∧
      (check_var_stats F r.st = true → check_var_stats F (init E n r).st = true)) := by
  by_cases h : n ≤ r.st.max_var
  · rw [init_noop E n r h, if_pos h]
    simp only [add_zero, true_and]
    exact ⟨fun h => h, fun h => h, fun _ _ _ _ _ => fun h => h⟩
  · have hlt : r.st.max_var < n := by omega
    obtain ⟨e1, e2, e3⟩ := init_accounts E n r hlt hb hq hs
    rw [if_neg h, e1, e3]
    refine ⟨rfl, rfl, rfl, rfl, rfl, rfl, rfl, rfl, fun hm => ?_, fun hi => ?_, ?_⟩
    · show n = r.st.stats.active + (r.st.stats.inactive + (n - r.st.max_var))
      omega
    · show r.st.stats.inactive + (n - r.st.max_var) = r.st.stats.unused + (n - r.st.max_var)
        + r.st.stats.now_fixed + r.st.stats.now_eliminated + r.st.stats.now_substituted
        + r.st.stats.now_pure
      omega
    · intro h0 hu0 hcover hbeyond hsz
      have c1 := init_count E F n r F.fixed false hlt h0 hb hq hs
        (fun f hf => by rw [hf.2.2.1]; simp) hu0 hcover hbeyond hsz
      have c2 := init_count E F n r F.eliminated false hlt h0 hb hq hs
        (fun f hf => by rw [hf.2.2.2.1]; simp) hu0 hcover hbeyond hsz
      have c3 := init_count E F n r F.substituted false hlt h0 hb hq hs
        (fun f hf => by rw [hf.2.2.2.2.1]; simp) hu0 hcover hbeyond hsz
      have c4 := init_count E F n r F.pure false hlt h0 hb hq hs
        (fun f hf => by rw [hf.2.2.2.2.2]; simp) hu0 hcover hbeyond hsz
      have c5 := init_count E F n r F.unused true hlt h0 hb hq hs
        (fun f hf => by rw [hf.1, hf.2.1]; rfl) hu0 hcover hbeyond hsz
      simp only [Bool.false_eq_true, if_false, add_zero, if_true] at c1 c2 c3 c4 c5
      refine ⟨c1, c2, c3, c4, c5, ?_⟩
      simp only [check_var_stats, Bool.and_eq_true, decide_eq_true_eq]
      rw [c1, c2, c3, c4, c5, e1, e3]
      rintro ⟨⟨⟨⟨⟨a1, a2⟩, a3⟩, a4⟩, a5⟩, a6⟩
      refine ⟨⟨⟨⟨⟨a1, a2⟩, a3⟩, a4⟩, ?_⟩, ?_⟩
      · show r.st.stats.inactive + (n - r.st.max_var) = _
        omega
      · show n = r.st.stats.active + (r.st.stats.inactive + (n - r.st.max_var))
        omega

theorem init_accounting_witness :
    check_var_stats F0 (init E0 5 (init E0 3 run0)).st = true ∧
    (init E0 7 (init E0 5 (init E0 3 run0))).st.stats.unused = 7 ∧
    count_inactive F0 F0.unused (init E0 7 (init E0 5 (init E0 3 run0))).st = 7 ∧
    check_var_stats F0 (init E0 7 (init E0 5 (init E0 3 run0))).st = true :=
  have hl : (init E0 5 (init E0 3 run0)).st.ftab.length = 8 := by decide
  have hu : ∀ f : T0.Flags, IsUnused F0 f := fun _ => ⟨rfl, rfl, rfl, rfl, rfl, rfl⟩
  have h := init_accounting E0 F0 7 (init E0 5 (init E0 3 run0))
    (fun _ => ⟨rfl, rfl, rfl, rfl⟩) (fun _ _ _ => ⟨rfl, rfl, rfl, rfl⟩)
    (fun _ _ _ => ⟨rfl, rfl, rfl, rfl⟩)
  have hf := h.2.2.2.2.2.2.2.2.2.2 (by decide) (hu _)
    (fun idx _ h2 => by
      have e : (idx : Int) ≤ 5 := h2
      rw [hl]
      omega)
    (fun i _ h2 => by
      rw [hl] at h2
      exact ⟨(), by rw [List.getElem?_eq_getElem (by rw [hl]; exact h2)], hu _⟩)
    (fun _ => by decide)
  have c : check_var_stats F0 (init E0 5 (init E0 3 run0)).st = true := by decide
  ⟨c, by rw [h.2.1]; decide, by rw [hf.2.2.2.2.1]; decide, hf.2.2.2.2.2 c⟩

/-! ## Traversal of the irredundant clauses -/

theorem traverse_literals_fst (Q : Queries T) (s : Internal T) (lits eclause : List Int) :
    (traverse_literals Q s lits eclause).1 = lits.any fun l => decide (0 < Q.fixed s l) := by
  induction lits generalizing eclause with
  | nil => rfl
  | cons l ls ih =>
    unfold traverse_literals
    simp only [List.any_cons]
    by_cases h1 : Q.fixed s l > 0
    · rw [if_pos h1]
      simp [h1]
    · rw [if_neg h1]
      have e : decide (0 < Q.fixed s l) = false := by simpa using h1
      rw [e, Bool.false_or]
      split
      · exact ih _
      · exact ih _

theorem traverse_literals_snd (Q : Queries T) (s : Internal T) (lits eclause : List Int)
    (h : (lits.all fun l => decide (¬ 0 < Q.fixed s l)) = true) :
    (traverse_literals Q s lits eclause).2 = eclause ++
      (lits.filter fun l => decide (¬ Q.fixed s l < 0)).map (Q.externalize s) := by
  induction lits generalizing eclause with
  | nil => simp [traverse_literals]
  | cons l ls ih =>
    rw [List.all_cons, Bool.and_eq_true] at h
    have h1 : ¬ Q.fixed s l > 0 := by simpa using h.1
    unfold traverse_literals
    simp only
    rw [if_neg h1]
    by_cases h2 : Q.fixed s l < 0
    · rw [if_pos h2, ih _ h.2, List.filter_cons_of_neg (by simpa using h2)]
    · rw [if_neg h2, ih _ h.2, List.filter_cons_of_pos (by simpa using h2)]
      simp

theorem traverse_loop_eq {σ : Type} (Q : Queries T) (s : Internal T) (it : ClauseIterator σ)
    (cs : List Clause) (st : σ) :
    traverse_loop Q s it cs [] st = hand_over it
      ((cs.filter fun c => !c.garbage && !c.redundant &&
          c.lits.all fun l => decide (¬ 0 < Q.fixed s l)).map
        fun c => (c.lits.filter fun l => decide (¬ Q.fixed s l < 0)).map (Q.externalize s))
      st := by
  induction cs generalizing st with
  | nil => rfl
  | cons c cs ih =>
    unfold traverse_loop
    by_cases hg : c.garbage = true
    · rw [if_pos hg, ih, List.filter_cons_of_neg (by simp [hg])]
    · rw [if_neg hg]
      by_cases hr : c.redundant = true
      · rw [if_pos hr, ih, List.filter_cons_of_neg (by simp [hr])]
      · rw [if_neg hr]
        simp only [traverse_literals_fst]
        by_cases hs : (c.lits.any fun l => decide (0 < Q.fixed s l)) = true
        · have hn : ¬ ((c.lits.all fun l => decide (¬ 0 < Q.fixed s l)) = true) := by
            intro ha
            rw [List.any_eq_true] at hs
            obtain ⟨l, hl, hp⟩ := hs
            have := List.all_eq_true.mp ha l hl
            simp at this hp
            omega
          rw [hs, List.filter_cons_of_neg (by simp [hg, hr]; simpa using hn)]
          simpa using ih st
        · have ha : (c.lits.all fun l => decide (¬ 0 < Q.fixed s l)) = true := by
            rw [List.all_eq_true]
            intro l hl
            by_contra hc
            apply hs
            rw [List.any_eq_true]
            exact ⟨l, hl, by simpa using hc⟩
          have hs' : (c.lits.any fun l => decide (0 < Q.fixed s l)) = false := by
            simpa using hs
          rw [hs', List.filter_cons_of_pos (by simp [hg, hr]; simpa using ha), List.map_cons,
            traverse_literals_snd Q s c.lits [] ha]
          simp only [Bool.not_false, if_true, List.nil_append]
          unfold hand_over
          simp only
          split
          · rfl
          · exact ih _

theorem hand_over_recorder (answer : List Int → Bool) (cs log : List (List Int)) :
    hand_over (recorder answer) cs log = (cs.all answer, log ++ until_rejected answer cs) := by
  induction cs generalizing log with
  | nil => simp [hand_over, until_rejected]
  | cons c cs ih =>
    unfold hand_over until_rejected
    simp only [recorder, List.all_cons]
    cases h : answer c
    · simp
    · simp only [Bool.not_true, Bool.false_eq_true, if_false, if_true, Bool.true_and]
      have := ih (log ++ [c])
      simp only [recorder] at this
      rw [this]
      simp

theorem until_rejected_true (cs : List (List Int)) :
    until_rejected (fun _ => true) cs = cs := by
  induction cs with
  | nil => rfl
  | cons c cs ih => simp [until_rejected, ih]

theorem traverse_clauses_sat {σ : Type} (Q : Queries T) (it : ClauseIterator σ)
    (s : Internal T) (st : σ) (h : s.unsat = false) :
    traverse_clauses Q it s st = hand_over it (reported_clauses Q s) st := by
  unfold traverse_clauses reported_clauses
  simp only [h, Bool.false_eq_true, if_false]
  exact traverse_loop_eq Q s it s.clauses st

theorem traverse_clauses_unsat {σ : Type} (Q : Queries T) (it : ClauseIterator σ)
    (s : Internal T) (st : σ) (h : s.unsat = true) :
    traverse_clauses Q it s st = it.clause [] st := by
  unfold traverse_clauses
  simp only [h, if_true]

theorem traversed_eq (Q : Queries T) (s : Internal T) :
    traversed Q s = if s.unsat then [[]] else reported_clauses Q s := by
  unfold traversed
  cases h : s.unsat
  · rw [traverse_clauses_sat Q _ s _ h, hand_over_recorder, until_rejected_true]
    simp
  · rw [traverse_clauses_unsat Q _ s _ h]
    simp [recorder]

/-- C14: when `unsat` is false, `traverse_clauses` hands to the iterator, one
after the other and up to the first answer `false`, the lists of
`reported_clauses`: in the order of the clause database one list for each
clause that is neither garbage nor redundant and has no literal fixed true, the
list being the externalization, in clause order, of the literals of the clause
that are not fixed false.  So an iterator that records what it receives holds
afterwards the lists up to and including the first one it rejected, and the
result is `false` if it rejected one and `true` otherwise. -/
theorem traverse_clauses_reports {σ : Type} (Q : Queries T) (it : ClauseIterator σ)
    (s : Internal T) (st : σ) (h : s.unsat = false) :
    traverse_clauses Q it s st = hand_over it (reported_clauses Q s) st ∧
    ∀ (answer : List Int → Bool) (log : List (List Int)),
      traverse_clauses Q (recorder answer) s log
        = ((reported_clauses Q s).all answer,
            log ++ until_rejected answer (reported_clauses Q s)) :=
  ⟨traverse_clauses_sat Q it s st h, fun answer log => by
    rw [traverse_clauses_sat Q _ s _ h, hand_over_recorder]⟩

/-- C15: when `unsat` is true, `traverse_clauses` calls the iterator exactly
once, with the empty clause, and returns its answer: an iterator that records
what it receives holds afterwards the empty clause and nothing else. -/
theorem traverse_clauses_empty {σ : Type} (Q : Queries T) (it : ClauseIterator σ)
    (s : Internal T) (st : σ) (h : s.unsat = true) :
    traverse_clauses Q it s st = it.clause [] st ∧
    ∀ (answer : List Int → Bool),
      traverse_clauses Q (recorder answer) s [] = (answer [], [[]]) :=
  ⟨traverse_clauses_unsat Q it s st h, fun answer => by
    rw [traverse_clauses_unsat Q _ s _ h]
    rfl⟩

theorem traverse_clauses_reports_witness :
    s_clauses.unsat = false ∧
    reported_clauses Q0 s_clauses = [[12, 13], [-12, -13]] ∧
    traverse_clauses Q0 (recorder fun _ => true) s_clauses []
      = (true, [[12, 13], [-12, -13]]) ∧
    traverse_clauses Q0 (recorder fun c => decide (c ≠ [12, 13])) s_clauses []
      = (false, [[12, 13]]) :=
  ⟨rfl, by decide,
    ((traverse_clauses_reports Q0 (recorder fun _ => true) s_clauses [] rfl).1).trans
      (by decide),
    ((traverse_clauses_reports Q0 (recorder fun c => decide (c ≠ [12, 13])) s_clauses []
      rfl).1).trans (by decide)⟩

theorem traverse_clauses_empty_witness :
    ({ s_clauses with unsat := true } : Internal T0).unsat = true ∧
    traverse_clauses Q0 (recorder fun _ => true) { s_clauses with unsat := true } []
      = (true, [[]]) :=
  ⟨rfl, ((traverse_clauses_empty Q0 (recorder fun _ => true)
    { s_clauses with unsat := true } [] rfl).1).trans (by decide)⟩

theorem lit_true_zero (α : Nat → Bool) : lit_true α 0 = false := by
  simp [lit_true]

theorem lit_true_neg (α : Nat → Bool) (x : Int) (hx : x ≠ 0) :
    lit_true α (-x) = !lit_true α x := by
  unfold lit_true
  rcases lt_or_gt_of_ne hx with h | h
  · rw [if_pos (by omega), if_neg (by omega), if_pos h]
    simp
  · rw [if_neg (by omega), if_pos (by omega), if_pos h]
    simp

theorem externalize_zero (e : Int → Int) (he : ∀ l, e (-l) = -e l) : e 0 = 0 := by
  have := he 0
  simp only [neg_zero] at this
  omega

theorem externalize_ne_zero (e : Int → Int) (he : ∀ l, e (-l) = -e l)
    (hi : Function.Injective e) (l : Int) (hl : l ≠ 0) : e l ≠ 0 := by
  intro h
  apply hl
  apply hi
  rw [h, externalize_zero e he]

theorem mem_reported (Q : Queries T) (s : Internal T) (c' : List Int) :
    c' ∈ reported_clauses Q s ↔ ∃ c ∈ s.clauses, c.garbage = false ∧ c.redundant = false ∧
      (∀ l ∈ c.lits, ¬ 0 < Q.fixed s l) ∧
      c' = (c.lits.filter fun l => decide (¬ Q.fixed s l < 0)).map (Q.externalize s) := by
  unfold reported_clauses
  simp only [List.mem_map, List.mem_filter, Bool.and_eq_true, Bool.not_eq_true',
    List.all_eq_true, decide_eq_true_eq]
  constructor
  · rintro ⟨c, ⟨hc, ⟨hg, hr⟩, hall⟩, rfl⟩
    exact ⟨c, hc, hg, hr, hall, rfl⟩
  · rintro ⟨c, hc, hg, hr, hall, rfl⟩
    exact ⟨c, ⟨hc, ⟨hg, hr⟩, hall⟩, rfl⟩

theorem held_of_reported (Q : Queries T) (s : Internal T)
    (hf : ∀ l, Q.fixed s (-l) = -Q.fixed s l)
    (he : ∀ l, Q.externalize s (-l) = -Q.externalize s l)
    (hi : Function.Injective (Q.externalize s))
    (h : Satisfiable (reported_clauses Q s)) : HeldSatisfiable Q s := by
  obtain ⟨β, hβ⟩ := h
  have hf0 : Q.fixed s 0 = 0 := externalize_zero _ hf
  let α : Nat → Bool := fun v =>
    if 0 < Q.fixed s v then true
    else if Q.fixed s v < 0 then false else lit_true β (Q.externalize s v)
  have unit : ∀ l : Int, 0 < Q.fixed s l → lit_true α l = true := by
    intro l hl
    have hl0 : l ≠ 0 := fun h0 => by rw [h0, hf0] at hl; omega
    unfold lit_true
    rcases lt_or_gt_of_ne hl0 with h | h
    · rw [if_neg (by omega), if_pos h]
      have e : ((-l).toNat : Int) = -l := by omega
      have hneg : Q.fixed s ((-l).toNat : Int) < 0 := by rw [e, hf]; omega
      simp only [α]
      rw [if_neg (by omega), if_pos hneg]
      rfl
    · rw [if_pos h]
      have e : (l.toNat : Int) = l := by omega
      simp only [α]
      rw [e, if_pos hl]
  have free : ∀ l : Int, Q.fixed s l = 0 → l ≠ 0 →
      lit_true α l = lit_true β (Q.externalize s l) := by
    intro l hl hl0
    rcases lt_or_gt_of_ne hl0 with h | h
    · have e : ((-l).toNat : Int) = -l := by omega
      have hz : Q.fixed s ((-l).toNat : Int) = 0 := by rw [e, hf, hl]; rfl
      have hx := externalize_ne_zero _ he hi l hl0
      have e1 : lit_true α l = !α (-l).toNat := by
        unfold lit_true
        rw [if_neg (by omega), if_pos h]
      rw [e1]
      simp only [α]
      rw [if_neg (by omega), if_neg (by omega), e, he, lit_true_neg β _ hx]
      simp
    · have e : (l.toNat : Int) = l := by omega
      have e1 : lit_true α l = α l.toNat := by
        unfold lit_true
        rw [if_pos h]
      rw [e1]
      simp only [α]
      rw [e, if_neg (by omega), if_neg (by omega)]
  refine ⟨α, fun c hc hg hr => ?_, unit⟩
  by_cases hsat : ∃ l ∈ c.lits, 0 < Q.fixed s l
  · obtain ⟨l, hl, hp⟩ := hsat
    unfold clause_true
    rw [List.any_eq_true]
    exact ⟨l, hl, unit l hp⟩
  · have hall : ∀ l ∈ c.lits, ¬ 0 < Q.fixed s l := fun l hl hp => hsat ⟨l, hl, hp⟩
    have hmem := (mem_reported Q s _).mpr ⟨c, hc, hg, hr, hall, rfl⟩
    have ht := hβ _ hmem
    unfold clause_true at ht ⊢
    rw [List.any_eq_true] at ht ⊢
    obtain ⟨x, hx, hxt⟩ := ht
    rw [List.mem_map] at hx
    obtain ⟨l, hl, rfl⟩ := hx
    rw [List.mem_filter] at hl
    have h1 : ¬ Q.fixed s l < 0 := by simpa using hl.2
    have h2 := hall l hl.1
    have hl0 : l ≠ 0 := fun h0 => by
      rw [h0, externalize_zero _ he, lit_true_zero] at hxt
      exact Bool.noConfusion hxt
    exact ⟨l, hl.1, by rw [free l (by omega) hl0]; exact hxt⟩

theorem reported_of_held (Q : Queries T) (s : Internal T)
    (hf : ∀ l, Q.fixed s (-l) = -Q.fixed s l)
    (he : ∀ l, Q.externalize s (-l) = -Q.externalize s l)
    (hi : Function.Injective (Q.externalize s))
    (h : HeldSatisfiable Q s) : Satisfiable (reported_clauses Q s) := by
  classical
  obtain ⟨α, hα, hu⟩ := h
  let β : Nat → Bool := fun v =>
    decide (∃ l : Int, Q.externalize s l = (v : Int) ∧ lit_true α l = true)
  have key : ∀ l : Int, lit_true α l = true → lit_true β (Q.externalize s l) = true := by
    intro l hl
    have hl0 : l ≠ 0 := fun h0 => by
      rw [h0, lit_true_zero] at hl
      exact Bool.noConfusion hl
    have hx := externalize_ne_zero _ he hi l hl0
    unfold lit_true
    rcases lt_or_gt_of_ne hx with h | h
    · rw [if_neg (by omega), if_pos h]
      have e : ((-Q.externalize s l).toNat : Int) = -Q.externalize s l := by omega
      simp only [β, e, Bool.not_eq_true', decide_eq_false_iff_not]
      rintro ⟨l', h1, h2⟩
      rw [← he] at h1
      have := hi h1
      subst this
      rw [lit_true_neg α l hl0, hl] at h2
      exact Bool.noConfusion h2
    · rw [if_pos h]
      have e : ((Q.externalize s l).toNat : Int) = Q.externalize s l := by omega
      simp only [β, e, decide_eq_true_eq]
      exact ⟨l, rfl, hl⟩
  refine ⟨β, fun c' hc' => ?_⟩
  obtain ⟨c, hc, hg, hr, _, rfl⟩ := (mem_reported Q s c').mp hc'
  have ht := hα c hc hg hr
  unfold clause_true at ht ⊢
  rw [List.any_eq_true] at ht ⊢
  obtain ⟨l, hl, hlt⟩ := ht
  have hl0 : l ≠ 0 := fun h0 => by
    rw [h0, lit_true_zero] at hlt
    exact Bool.noConfusion hlt
  have hnf : ¬ Q.fixed s l < 0 := by
    intro hneg
    have := hu (-l) (by rw [hf]; omega)
    rw [lit_true_neg α l hl0, hlt] at this
    exact Bool.noConfusion this
  exact ⟨Q.externalize s l, List.mem_map.mpr ⟨l, List.mem_filter.mpr ⟨hl, by simpa using hnf⟩,
    rfl⟩, key l hlt⟩

/-- C16: the traversal round trip.  Let the root-level values be consistent
(`fixed (-l) == -fixed (l)`) and `externalize` be an injective renaming that
respects signs (`externalize (-l) == -externalize (l)`).  When `unsat` is
false, the clauses that `traverse_clauses` reports to an iterator that always
answers `true` are satisfiable if and only if the clauses of the database that
are neither garbage nor redundant, together with the literals fixed true at
root as units, are satisfiable; when `unsat` is true, the reported clauses are
the empty clause alone and so are unsatisfiable. -/
theorem traverse_round_trip (Q : Queries T) (s : Internal T)
    (hf : ∀ l, Q.fixed s (-l) = -Q.fixed s l)
    (he : ∀ l, Q.externalize s (-l) = -Q.externalize s l)
    (hi : Function.Injective (Q.externalize s)) :
    (s.unsat = false → (Satisfiable (traversed Q s) ↔ HeldSatisfiable Q s)) ∧
    (s.unsat = true → traversed Q s = [[]] ∧ ¬ Satisfiable (traversed Q s)) := by
  refine ⟨fun h => ?_, fun h => ?_⟩
  · rw [traversed_eq, h]
    exact ⟨held_of_reported Q s hf he hi, reported_of_held Q s hf he hi⟩
  · rw [traversed_eq, h]
    refine ⟨rfl, ?_⟩
    rintro ⟨α, hα⟩
    have := hα [] (by simp)
    exact Bool.noConfusion this

theorem traverse_round_trip_witness :
    (∀ l, Q0.fixed s_clauses (-l) = -Q0.fixed s_clauses l) ∧
    (∀ l, Q0.externalize s_clauses (-l) = -Q0.externalize s_clauses l) ∧
    Function.Injective (Q0.externalize s_clauses) ∧
    s_clauses.unsat = false ∧
    (Satisfiable (traversed Q0 s_clauses) ↔ HeldSatisfiable Q0 s_clauses) ∧
    HeldSatisfiable Q0 s_clauses :=
  have hf : ∀ l, Q0.fixed s_clauses (-l) = -Q0.fixed s_clauses l := fun l => by
    simp only [Q0]
    split_ifs <;> omega
  have he : ∀ l, Q0.externalize s_clauses (-l) = -Q0.externalize s_clauses l := fun l => by
    simp only [Q0]
    split_ifs <;> omega
  have hi : Function.Injective (Q0.externalize s_clauses) := fun a b h => by
    simp only [Q0] at h
    split_ifs at h <;> omega
  have h := (traverse_round_trip Q0 s_clauses hf he hi).1 rfl
  have hs : Satisfiable (traversed Q0 s_clauses) :=
    ⟨fun v => decide (v = 12), by decide⟩
  ⟨hf, he, hi, rfl, h, h.mp hs⟩

/-! ## Preprocessing rounds -/

theorem ite_call_st (c : Prop) [Decidable c] (r : Run T) (f : Internal T → Internal T)
    (ev : Call) : (if c then r.call f ev else r).st = if c then f r.st else r.st := by
  split <;> rfl

theorem preprocess_round_tail (r1 : Run T) (a before old : Int) :
    (if r1.st.unsat = true then (false, r1.log (Call.leave Fn.preprocess_round 0))
      else if a < before then (true, r1.log (Call.leave Fn.preprocess_round 1))
      else if old < r1.st.lim.elimbound then (true, r1.log (Call.leave Fn.preprocess_round 1))
      else (false, r1.log (Call.leave Fn.preprocess_round 0))).2.st = r1.st ∧
    ((if r1.st.unsat = true then (false, r1.log (Call.leave Fn.preprocess_round 0))
      else if a < before then (true, r1.log (Call.leave Fn.preprocess_round 1))
      else if old < r1.st.lim.elimbound then (true, r1.log (Call.leave Fn.preprocess_round 1))
      else (false, r1.log (Call.leave Fn.preprocess_round 0))).1 = true ↔
      r1.st.unsat = false ∧ (a < before ∨ old < r1.st.lim.elimbound)) := by
  split_ifs with h1 h2 h3
  · simp [h1]
  · simp [h1, h2]
  · simp [h1, h3]
  · simp [h1, h2, h3]

theorem preprocess_round_eq (E : Env T) (i : Int) (r : Run T) (hu : r.st.unsat = false)
    (hm : r.st.max_var ≠ 0) :
    (preprocess_round E i r).2.st
      = E.report 'P' { preprocess_round_state E r.st with preprocessing := false } ∧
    ((preprocess_round E i r).1 = true ↔
      (E.report 'P' { preprocess_round_state E r.st with preprocessing := false }).unsat
        = false ∧
      (E.active (preprocess_round_state E r.st) < E.active r.st ∨
        to_int32 r.st.lim.elimbound <
          (E.report 'P' { preprocess_round_state E r.st
            with preprocessing := false }).lim.elimbound)) := by
  unfold preprocess_round
  simp only []
  rw [if_neg (by rw [Run.log_st, hu]; decide), if_neg (by rw [Run.log_st]; exact hm)]
  generalize hR1 : (((r.log (Call.enter Fn.preprocess_round)).upd fun s =>
    { s with stats := { s.stats with preprocessings := s.stats.preprocessings + 1 } }).upd
      fun s => { s with preprocessing := true }) = R1
  have h1 : R1.st = { { r.st with stats := { r.st.stats with
      preprocessings := r.st.stats.preprocessings + 1 } } with preprocessing := true } := by
    rw [← hR1]
    rfl
  have hl : R1.st.lim = r.st.lim := by rw [h1]
  generalize hR2 : (if R1.st.opts.probe = true then
    R1.call (E.probe (some false)) (Call.probe (some false)) else R1) = R2
  generalize hR3 : (if R2.st.opts.elim = true then
    R2.call (E.elim (some false)) (Call.elim (some false)) else R2) = R3
  have hw : R3.st = preprocess_round_state E r.st := by
    rw [← hR3, ← hR2, ite_call_st, ite_call_st, h1]
    rfl
  rw [Run.log_st, hl, ← hw]
  generalize hR4 : ((R3.upd fun s => { s with preprocessing := false }).call (E.report 'P')
    (Call.report 'P')) = R4
  have h4 : E.report 'P' { R3.st with preprocessing := false } = R4.st := by
    rw [← hR4]
    rfl
  rw [h4]
  exact preprocess_round_tail R4 (E.active R3.st) (E.active r.st)
    (to_int32 r.st.lim.elimbound)

theorem to_int32_id (x : Int) (h1 : -2 ^ 31 ≤ x) (h2 : x < 2 ^ 31) : to_int32 x = x := by
  unfold to_int32
  omega

/-- C17, as stated, fails when the round itself derives the empty clause:
probing fixes one of three active variables and sets `unsat`, so the number of
active variables after the round is smaller than before, and `preprocess_round`
returns false. -/
theorem preprocess_round_counterexample :
    run_active.st.unsat = false ∧ 0 < run_active.st.max_var ∧
    E_failed.active (preprocess_round_state E_failed run_active.st)
      < E_failed.active run_active.st ∧
    (preprocess_round E_failed 0 run_active).1 = false ∧
    ¬ ((preprocess_round E_failed 0 run_active).1 = true ↔
      (E_failed.active (preprocess_round_state E_failed run_active.st)
          < E_failed.active run_active.st ∨
        run_active.st.lim.elimbound
          < (preprocess_round_state E_failed run_active.st).lim.elimbound)) := by
  decide

/-- C17, amended: for every state in which `preprocess_round` runs a round
(`unsat` false and `max_var > 0` on entry), with `lim.elimbound` in the range of
the `int` that records it and `report` writing neither `unsat`,
`lim.elimbound` nor `preprocessing`: it returns true if and only if `unsat` is
still false after the round and the number of active variables after the round
is smaller than before the round or `lim.elimbound` after the round is larger
than its value at the start of the round; `preprocessing` is false on return,
and `unsat` on return is `unsat` after the round. -/
theorem preprocess_round_progress (E : Env T) (i : Int) (r : Run T)
    (hu : r.st.unsat = false) (hm : 0 < r.st.max_var)
    (h1 : -2 ^ 31 ≤ r.st.lim.elimbound) (h2 : r.st.lim.elimbound < 2 ^ 31)
    (hrep : ∀ s, (E.report 'P' s).unsat = s.unsat ∧
      (E.report 'P' s).lim.elimbound = s.lim.elimbound ∧
      (E.report 'P' s).preprocessing = s.preprocessing) :
    ((preprocess_round E i r).1 = true ↔
      (preprocess_round_state E r.st).unsat = false ∧
      (E.active (preprocess_round_state E r.st) < E.active r.st ∨
        r.st.lim.elimbound < (preprocess_round_state E r.st).lim.elimbound)) ∧
    (preprocess_round E i r).2.st.preprocessing = false ∧
    (preprocess_round E i r).2.st.unsat = (preprocess_round_state E r.st).unsat := by
  obtain ⟨e1, e2⟩ := preprocess_round_eq E i r hu (by omega)
  rw [e2, e1, (hrep _).1, (hrep _).2.1, (hrep _).2.2, to_int32_id _ h1 h2]
  exact ⟨Iff.rfl, rfl, rfl⟩

theorem preprocess_round_progress_witness :
    run_active.st.unsat = false ∧ 0 < run_active.st.max_var ∧
    E_elim.active (preprocess_round_state E_elim run_active.st) = 2 ∧
    E_elim.active run_active.st = 3 ∧
    (preprocess_round E_elim 0 run_active).1 = true ∧
    (preprocess_round E_elim 0 run_active).2.st.preprocessing = false :=
  have h := preprocess_round_progress E_elim 0 run_active rfl (by decide) (by decide)
    (by decide) (fun _ => ⟨rfl, rfl, rfl⟩)
  ⟨rfl, by decide, by decide, by decide, h.1.mpr ⟨by decide, Or.inl (by decide)⟩, h.2.1⟩

/-! ## The rounds of `preprocess` -/

theorem ite_call_trace (c : Prop) [Decidable c] (r : Run T) (f : Internal T → Internal T)
    (ev : Call) :
    (if c then r.call f ev else r).trace = r.trace ++ (if c then [ev] else []) := by
  split
  · rfl
  · simp

theorem round_results_append (a b : List Call) :
    round_results (a ++ b) = round_results a ++ round_results b := by
  unfold round_results
  rw [List.filterMap_append]

theorem rounds_entered_append (a b : List Call) :
    rounds_entered (a ++ b) = rounds_entered a + rounds_entered b := by
  unfold rounds_entered
  rw [List.countP_append]

theorem preprocess_round_log (E : Env T) (i : Int) (r : Run T) :
    ∃ inner, (preprocess_round E i r).2.trace = r.trace ++
        (Call.enter Fn.preprocess_round :: inner ++
          [Call.leave Fn.preprocess_round (if (preprocess_round E i r).1 then 1 else 0)]) ∧
      rounds_entered inner = 0 ∧ round_results inner = [] := by
  unfold preprocess_round
  simp only []
  by_cases hu : r.st.unsat = true
  · rw [if_pos (by rw [Run.log_st]; exact hu)]
    exact ⟨[], by simp, rfl, rfl⟩
  · rw [if_neg (by rw [Run.log_st]; exact hu)]
    by_cases hm : r.st.max_var = 0
    · rw [if_pos (by rw [Run.log_st]; exact hm)]
      exact ⟨[], by simp, rfl, rfl⟩
    · rw [if_neg (by rw [Run.log_st]; exact hm)]
      generalize hR1 : (((r.log (Call.enter Fn.preprocess_round)).upd fun s =>
        { s with stats := { s.stats with preprocessings := s.stats.preprocessings + 1 } }).upd
          fun s => { s with preprocessing := true }) = R1
      have t1 : R1.trace = r.trace ++ [Call.enter Fn.preprocess_round] := by
        rw [← hR1]
        rfl
      generalize hR2 : (if R1.st.opts.probe = true then
        R1.call (E.probe (some false)) (Call.probe (some false)) else R1) = R2
      have t2 : R2.trace = R1.trace ++
          (if R1.st.opts.probe = true then [Call.probe (some false)] else []) := by
        rw [← hR2, ite_call_trace]
      generalize hR3 : (if R2.st.opts.elim = true then
        R2.call (E.elim (some false)) (Call.elim (some false)) else R2) = R3
      have t3 : R3.trace = R2.trace ++
          (if R2.st.opts.elim = true then [Call.elim (some false)] else []) := by
        rw [← hR3, ite_call_trace]
      generalize hR4 : ((R3.upd fun s => { s with preprocessing := false }).call
        (E.report 'P') (Call.report 'P')) = R4
      have t4 : R4.trace = R3.trace ++ [Call.report 'P'] := by
        rw [← hR4]
        rfl
      refine ⟨(if R1.st.opts.probe = true then [Call.probe (some false)] else []) ++
        (if R2.st.opts.elim = true then [Call.elim (some false)] else []) ++
        [Call.report 'P'], ?_, ?_, ?_⟩
      · generalize (if R1.st.opts.probe = true then [Call.probe (some false)] else [])
          = l1 at t2 ⊢
        generalize (if R2.st.opts.elim = true then [Call.elim (some false)] else [])
          = l2 at t3 ⊢
        generalize E.active R3.st = a
        generalize E.active (r.log (Call.enter Fn.preprocess_round)).st = b
        generalize to_int32 R1.st.lim.elimbound = c
        clear hR1 hR2 hR3 hR4
        by_cases h1 : R4.st.unsat = true
        · simp only [h1, if_true, Run.log_trace]
          rw [t4, t3, t2, t1]
          simp
        · simp only [h1, Bool.false_eq_true, if_false]
          by_cases h2 : a < b
          · simp only [h2, if_true, Run.log_trace]
            rw [t4, t3, t2, t1]
            simp
          · simp only [h2, if_false]
            by_cases h3 : c < R4.st.lim.elimbound
            · simp only [h3, if_true, Run.log_trace]
              rw [t4, t3, t2, t1]
              simp
            · simp only [h3, if_false, Run.log_trace]
              rw [t4, t3, t2, t1]
              simp
      · split_ifs <;> rfl
      · split_ifs <;> rfl

theorem ite_keeps_rounds (c : Prop) [Decidable c] (f : Internal T → Internal T)
    (hf : KeepsRounds f) (s : Internal T) :
    (if c then f s else s).lim.preprocessing = s.lim.preprocessing := by
  split
  · exact hf s
  · rfl

theorem preprocess_round_state_rounds (E : Env T) (s : Internal T)
    (hp : ∀ a, KeepsRounds (E.probe a)) (he : ∀ a, KeepsRounds (E.elim a)) :
    (preprocess_round_state E s).lim.preprocessing = s.lim.preprocessing := by
  unfold preprocess_round_state
  simp only []
  rw [ite_keeps_rounds _ _ (he _), ite_keeps_rounds _ _ (hp _)]

theorem preprocess_round_rounds (E : Env T) (i : Int) (r : Run T)
    (hp : ∀ a, KeepsRounds (E.probe a)) (he : ∀ a, KeepsRounds (E.elim a))
    (hr : ∀ c, KeepsRounds (E.report c)) :
    (preprocess_round E i r).2.st.lim.preprocessing = r.st.lim.preprocessing := by
  by_cases hu : r.st.unsat = true
  · unfold preprocess_round
    simp only []
    rw [if_pos (by rw [Run.log_st]; exact hu)]
    rfl
  · by_cases hm : r.st.max_var = 0
    · unfold preprocess_round
      simp only []
      rw [if_neg (by rw [Run.log_st]; exact hu), if_pos (by rw [Run.log_st]; exact hm)]
      rfl
    · rw [(preprocess_round_eq E i r (by simpa using hu) hm).1, hr]
      exact preprocess_round_state_rounds E r.st hp he

theorem round_shape (inner : List Call) (v : Int) (h1 : rounds_entered inner = 0)
    (h2 : round_results inner = []) :
    rounds_entered (Call.enter Fn.preprocess_round :: inner ++
      [Call.leave Fn.preprocess_round v]) = 1 ∧
    round_results (Call.enter Fn.preprocess_round :: inner ++
      [Call.leave Fn.preprocess_round v]) = [v] := by
  rw [← List.singleton_append, rounds_entered_append, rounds_entered_append,
    round_results_append, round_results_append, h1, h2]
  exact ⟨rfl, rfl⟩

theorem preprocess_rounds_log (E : Env T)
    (hp : ∀ a, KeepsRounds (E.probe a)) (he : ∀ a, KeepsRounds (E.elim a))
    (hr : ∀ c, KeepsRounds (E.report c)) (fuel : Nat) (i : Int) (r : Run T)
    (hfuel : (r.st.lim.preprocessing - i).toNat < fuel) :
    (preprocess_rounds E fuel i r).1 = true ∧
    ∃ (tr : List Call) (k : Nat) (last : List Int),
      (preprocess_rounds E fuel i r).2.trace = r.trace ++ tr ∧
      rounds_entered tr = (round_results tr).length ∧
      round_results tr = List.replicate k 1 ++ last ∧ (last = [] ∨ last = [0]) ∧
      ((round_results tr).length : Int) ≤ max (r.st.lim.preprocessing - i) 0 := by
  induction fuel generalizing i r with
  | zero => omega
  | succ n ih =>
    unfold preprocess_rounds
    by_cases hi : i < r.st.lim.preprocessing
    · rw [if_pos hi]
      obtain ⟨inner, ht, h1, h2⟩ := preprocess_round_log E i r
      have hk := preprocess_round_rounds E i r hp he hr
      cases hb : (preprocess_round E i r).1
      · rw [hb] at ht
        simp only [Bool.false_eq_true, if_false] at ht
        simp only [Bool.not_false, if_true, true_and]
        obtain ⟨s1, s2⟩ := round_shape inner 0 h1 h2
        refine ⟨Call.enter Fn.preprocess_round :: inner ++ [Call.leave Fn.preprocess_round 0],
          0, [0], ht, ?_, ?_, Or.inr rfl, ?_⟩
        · rw [s1, s2]
          rfl
        · rw [s2]
          rfl
        · rw [s2]
          simp only [List.length_singleton, Nat.cast_one]
          omega
      · rw [hb] at ht
        simp only [if_true] at ht
        simp only [Bool.not_true, Bool.false_eq_true, if_false]
        obtain ⟨s1, s2⟩ := round_shape inner 1 h1 h2
        obtain ⟨hres, tr, k, last, e1, e2, e3, e4, e5⟩ :=
          ih (i + 1) (preprocess_round E i r).2 (by rw [hk]; omega)
        refine ⟨hres, (Call.enter Fn.preprocess_round :: inner ++
          [Call.leave Fn.preprocess_round 1]) ++ tr, k + 1, last, ?_, ?_, ?_, e4, ?_⟩
        · rw [e1, ht, List.append_assoc]
        · rw [rounds_entered_append, round_results_append, List.length_append, e2, s1, s2]
          rfl
        · rw [round_results_append, e3, s2]
          rfl
        · rw [round_results_append, List.length_append, s2]
          rw [hk] at e5
          simp only [List.length_singleton, Nat.cast_add, Nat.cast_one]
          omega
    · rw [if_neg hi]
      exact ⟨rfl, [], 0, [], by simp, rfl, rfl, Or.inl rfl, by simp [round_results]⟩

section PreprocessRounds

attribute [local irreducible] Run.call Run.ask Run.log Run.upd

/-- C18: `preprocess ()`, where `probe`, `elim` and `report` do not write
`lim.preprocessing` and the loop is given more steps than `lim.preprocessing`:
it returns, with 20 if `unsat` holds afterwards and 0 otherwise; every call of
`preprocess_round` in its call log has returned; the results of the rounds are
a run of `true` followed by at most one `false`, which is then the last round;
there are at most `lim.preprocessing` rounds, hence none when
`lim.preprocessing <= 0`, and none when `opts.simplify` is off. -/
theorem preprocess_rounds_bounded (E : Env T) (fuel : Nat) (r : Run T)
    (hp : ∀ a, KeepsRounds (E.probe a)) (he : ∀ a, KeepsRounds (E.elim a))
    (hr : ∀ c, KeepsRounds (E.report c))
    (hfuel : r.st.lim.preprocessing.toNat < fuel) :
    (preprocess E fuel r).1 = some (if (preprocess E fuel r).2.st.unsat then 20 else 0) ∧
    ∃ (tr : List Call) (k : Nat) (last : List Int),
      (preprocess E fuel r).2.trace = r.trace ++ tr ∧
      rounds_entered tr = (round_results tr).length ∧
      round_results tr = List.replicate k 1 ++ last ∧ (last = [] ∨ last = [0]) ∧
      ((round_results tr).length : Int) ≤ max r.st.lim.preprocessing 0 ∧
      (r.st.lim.preprocessing ≤ 0 → rounds_entered tr = 0) ∧
      (r.st.opts.simplify = false → rounds_entered tr = 0) := by
  have h : (if (r.log (Call.enter Fn.preprocess)).st.opts.simplify
        then preprocess_rounds E fuel 0 (r.log (Call.enter Fn.preprocess))
        else (true, r.log (Call.enter Fn.preprocess))).1 = true ∧
      ∃ (tr : List Call) (k : Nat) (last : List Int),
        (if (r.log (Call.enter Fn.preprocess)).st.opts.simplify
          then preprocess_rounds E fuel 0 (r.log (Call.enter Fn.preprocess))
          else (true, r.log (Call.enter Fn.preprocess))).2.trace
            = r.trace ++ [Call.enter Fn.preprocess] ++ tr ∧
        rounds_entered tr = (round_results tr).length ∧
        round_results tr = List.replicate k 1 ++ last ∧ (last = [] ∨ last = [0]) ∧
        ((round_results tr).length : Int) ≤ max r.st.lim.preprocessing 0 ∧
        (r.st.opts.simplify = false → rounds_entered tr = 0) := by
    by_cases hs : (r.log (Call.enter Fn.preprocess)).st.opts.simplify = true
    · rw [if_pos hs]
      obtain ⟨hres, tr, k, last, e1, e2, e3, e4, e5⟩ :=
        preprocess_rounds_log E hp he hr fuel 0 (r.log (Call.enter Fn.preprocess))
          (by rw [Run.log_st]; simpa using hfuel)
      rw [Run.log_st, sub_zero] at e5
      rw [Run.log_trace] at e1
      refine ⟨hres, tr, k, last, e1, e2, e3, e4, e5, fun hf => ?_⟩
      rw [Run.log_st, hf] at hs
      exact absurd hs (by decide)
    · rw [if_neg hs]
      exact ⟨rfl, [], 0, [], by rw [Run.log_trace, List.append_nil], rfl, rfl, Or.inl rfl,
        le_max_right _ _, fun _ => rfl⟩
  unfold preprocess
  simp only []
  generalize (if (r.log (Call.enter Fn.preprocess)).st.opts.simplify
    then preprocess_rounds E fuel 0 (r.log (Call.enter Fn.preprocess))
    else (true, r.log (Call.enter Fn.preprocess))) = p at h ⊢
  obtain ⟨hp1, tr, k, last, e1, e2, e3, e4, e5, e6⟩ := h
  obtain ⟨b, x⟩ := p
  simp only at hp1 e1
  subst hp1
  simp only [Bool.not_true, Bool.false_eq_true, if_false, Run.log_st, true_and]
  generalize (if x.st.unsat = true then (20 : Int) else 0) = v
  have a1 : rounds_entered ([Call.enter Fn.preprocess] ++ tr ++ [Call.leave Fn.preprocess v])
      = rounds_entered tr := by
    rw [rounds_entered_append, rounds_entered_append]
    show 0 + rounds_entered tr + 0 = rounds_entered tr
    omega
  have a2 : round_results ([Call.enter Fn.preprocess] ++ tr ++ [Call.leave Fn.preprocess v])
      = round_results tr := by
    rw [round_results_append, round_results_append]
    show [] ++ round_results tr ++ [] = round_results tr
    simp
  refine ⟨[Call.enter Fn.preprocess] ++ tr ++ [Call.leave Fn.preprocess v], k, last,
    ?_, ?_, ?_, e4, ?_, ?_, ?_⟩
  · rw [Run.log_trace, e1, List.append_assoc, List.append_assoc, List.append_assoc]
  · rw [a1, a2, e2]
  · rw [a2, e3]
  · rw [a2]
    exact e5
  · intro h0
    rw [a1, e2]
    have : ((round_results tr).length : Int) ≤ 0 := by
      rw [max_eq_right h0] at e5
      exact e5
    omega
  · intro hf
    rw [a1]
    exact e6 hf

end PreprocessRounds

theorem preprocess_rounds_bounded_witness :
    run_rounds.st.lim.preprocessing.toNat < 3 ∧
    (preprocess E_elim 3 run_rounds).1 = some 0 ∧
    round_results (preprocess E_elim 3 run_rounds).2.trace = [1, 1] ∧
    round_results (preprocess E0 3 run_rounds).2.trace = [0] ∧
    ((preprocess E_elim 3 run_rounds).1
        = some (if (preprocess E_elim 3 run_rounds).2.st.unsat then 20 else 0) ∧
      ∃ (tr : List Call) (k : Nat) (last : List Int),
        (preprocess E_elim 3 run_rounds).2.trace = run_rounds.trace ++ tr ∧
        rounds_entered tr = (round_results tr).length ∧
        round_results tr = List.replicate k 1 ++ last ∧ (last = [] ∨ last = [0]) ∧
        ((round_results tr).length : Int) ≤ max run_rounds.st.lim.preprocessing 0 ∧
        (run_rounds.st.lim.preprocessing ≤ 0 → rounds_entered tr = 0) ∧
        (run_rounds.st.opts.simplify = false → rounds_entered tr = 0)) :=
  ⟨by decide, by decide, by decide, by decide,
    preprocess_rounds_bounded E_elim 3 run_rounds (fun _ _ => rfl) (fun _ _ => rfl)
      (fun _ _ => rfl) (by decide)⟩

/-! ## The budget of a round of local search -/

theorem wrap64_id (x : Int) (h1 : -2 ^ 63 ≤ x) (h2 : x < 2 ^ 63) : wrap64 x = x := by
  unfold wrap64
  omega

theorem walk_limit_eq (w round : Int) (hw0 : 0 ≤ w) (hw : w < 2 ^ 31) (hr1 : 1 ≤ round)
    (hr : round < 2 ^ 31) :
    wrap64 (w * round) = w * round ∧
    walk_limit w round
      = if w * round * round + round ≤ LONG_MAX then w * round * round else LONG_MAX := by
  have hp0 : 0 ≤ w * round := by positivity
  have hp : w * round < 2 ^ 62 := by nlinarith
  have e1 : wrap64 (w * round) = w * round := wrap64_id _ (by omega) (by omega)
  refine ⟨e1, ?_⟩
  unfold walk_limit
  simp only [e1]
  have hq : Int.tdiv LONG_MAX round = LONG_MAX / round :=
    Int.tdiv_eq_ediv (by unfold LONG_MAX; norm_num) (by omega)
  rw [hq]
  have h1 : LONG_MAX / round * round ≤ LONG_MAX := Int.ediv_mul_le _ (by omega)
  have h2 : LONG_MAX < (LONG_MAX / round + 1) * round :=
    Int.lt_ediv_add_one_mul_self _ (by omega)
  have hL : LONG_MAX = 2 ^ 63 - 1 := rfl
  by_cases hc : w * round * round + round ≤ LONG_MAX
  · have hlt : w * round < LONG_MAX / round := by
      by_contra hn
      have : LONG_MAX / round + 1 ≤ w * round + 1 := by omega
      have := mul_le_mul_of_nonneg_right this (by omega : (0 : Int) ≤ round)
      nlinarith
    rw [if_pos hlt, if_pos hc]
    exact wrap64_id _ (by nlinarith) (by nlinarith)
  · have hge : ¬ LONG_MAX / round > w * round := by
      intro hgt
      have : w * round + 1 ≤ LONG_MAX / round := by omega
      have := mul_le_mul_of_nonneg_right this (by omega : (0 : Int) ≤ round)
      nlinarith
    rw [if_neg hge, if_neg hc]

theorem local_search_round_budget (E : Env T) (round : Int) (r : Run T)
    (hu : r.st.unsat = false) (hm : r.st.max_var ≠ 0) :
    ∃ res, (local_search_round E round r).1 = res ∧
      (local_search_round E round r).2.trace = r.trace ++
        [Call.enter Fn.local_search_round,
          Call.walk_round (walk_limit r.st.opts.walkmineff round) true res,
          Call.report 'L', Call.leave Fn.local_search_round res] := by
  unfold local_search_round
  simp only []
  rw [if_neg (by rw [Run.log_st, hu]; decide), if_neg (by rw [Run.log_st]; exact hm)]
  refine ⟨_, rfl, ?_⟩
  simp only [Run.log_trace, Run.call_trace, Run.upd_trace, Run.ask_trace, Run.ask_fst,
    Run.log_st, Run.upd_st, List.append_assoc, List.singleton_append, List.cons_append,
    List.nil_append]
  rfl

/-- C19, as stated, fails at `opts.walkmineff = 83886` and `round = 10485765`:
the product `83886 * 10485765 * 10485765` is `2^63 - 1 - 6291457` and does not
overflow, but `83886 * 10485765` equals `LONG_MAX / 10485765`, the comparison
`LONG_MAX / round > limit` is false, and the budget passed to `walk_round` is
`LONG_MAX`. -/
theorem walk_limit_counterexample :
    (83886 : Int) * 10485765 * 10485765 ≤ 2 ^ 63 - 1 ∧
    walk_limit 83886 10485765 = 2 ^ 63 - 1 ∧
    walk_limit 83886 10485765 ≠ 83886 * 10485765 * 10485765 ∧
    (local_search_round E0 10485765 run_walk).2.trace =
      [Call.enter Fn.local_search_round, Call.walk_round (2 ^ 63 - 1) true 0,
        Call.report 'L', Call.leave Fn.local_search_round 0] := by
  decide

/-- C19, amended: for every `round` from 1 on and every non-negative 32-bit
`opts.walkmineff`, with `LONG_MAX` the maximum of signed 64 bits, the budget
that `local_search_round` passes to `walk_round` equals `opts.walkmineff * round
* round` whenever `opts.walkmineff * round * round + round` does not exceed
`LONG_MAX`, and equals `LONG_MAX` otherwise, so whenever the product overflows;
no intermediate multiplication wraps around; the budget lies in `0 ..
LONG_MAX` and is non-decreasing in `round`. -/
theorem walk_limit_saturating (E : Env T) (r : Run T) (round : Int)
    (hw0 : 0 ≤ r.st.opts.walkmineff) (hw : r.st.opts.walkmineff < 2 ^ 31)
    (hr1 : 1 ≤ round) (hr : round < 2 ^ 31) :
    (r.st.unsat = false → r.st.max_var ≠ 0 →
      ∃ res, (local_search_round E round r).1 = res ∧
        (local_search_round E round r).2.trace = r.trace ++
          [Call.enter Fn.local_search_round,
            Call.walk_round (walk_limit r.st.opts.walkmineff round) true res,
            Call.report 'L', Call.leave Fn.local_search_round res]) ∧
    (r.st.opts.walkmineff * round * round + round ≤ LONG_MAX →
      walk_limit r.st.opts.walkmineff round = r.st.opts.walkmineff * round * round) ∧
    (LONG_MAX < r.st.opts.walkmineff * round * round + round →
      walk_limit r.st.opts.walkmineff round = LONG_MAX) ∧
    (LONG_MAX < r.st.opts.walkmineff * round * round →
      walk_limit r.st.opts.walkmineff round = LONG_MAX) ∧
    wrap64 (r.st.opts.walkmineff * round) = r.st.opts.walkmineff * round ∧
    (r.st.opts.walkmineff * round * round + round ≤ LONG_MAX →
      wrap64 (r.st.opts.walkmineff * round * round)
        = r.st.opts.walkmineff * round * round) ∧
    0 ≤ walk_limit r.st.opts.walkmineff round ∧
    walk_limit r.st.opts.walkmineff round ≤ LONG_MAX ∧
    (∀ round' : Int, round ≤ round' → round' < 2 ^ 31 →
      walk_limit r.st.opts.walkmineff round ≤ walk_limit r.st.opts.walkmineff round') := by
  refine ⟨fun hu hm => local_search_round_budget E round r hu hm, ?_⟩
  generalize r.st.opts.walkmineff = w at hw0 hw ⊢
  obtain ⟨e1, e2⟩ := walk_limit_eq w round hw0 hw hr1 hr
  have hL : LONG_MAX = 2 ^ 63 - 1 := rfl
  have hr0 : 0 ≤ round := by omega
  have hp0 : 0 ≤ w * round * round := mul_nonneg (mul_nonneg hw0 hr0) hr0
  refine ⟨fun h => ?_, fun h => ?_, fun h => ?_, e1, fun h => ?_, ?_, ?_,
    fun round' h1 h2 => ?_⟩
  · rw [e2, if_pos h]
  · rw [e2, if_neg (by omega)]
  · rw [e2, if_neg (by omega)]
  · exact wrap64_id _ (by omega) (by omega)
  · rw [e2]
    split
    · exact hp0
    · rw [hL]
      norm_num
  · rw [e2]
    split
    · omega
    · exact le_refl _
  · obtain ⟨_, e3⟩ := walk_limit_eq w round' hw0 hw (by omega) h2
    rw [e2, e3]
    have hmono : w * round * round ≤ w * round' * round' := by
      have : w * round ≤ w * round' := mul_le_mul_of_nonneg_left h1 hw0
      have h3 : w * round * round ≤ w * round' * round :=
        mul_le_mul_of_nonneg_right this (by omega)
      have h4 : w * round' * round ≤ w * round' * round' :=
        mul_le_mul_of_nonneg_left h1 (mul_nonneg hw0 (by omega))
      omega
    by_cases hc' : w * round' * round' + round' ≤ LONG_MAX
    · rw [if_pos hc', if_pos (by omega)]
      exact hmono
    · rw [if_neg hc']
      split
      · omega
      · exact le_refl _

theorem walk_limit_saturating_witness :
    0 ≤ run_walk.st.opts.walkmineff ∧ run_walk.st.opts.walkmineff < 2 ^ 31 ∧
    (1 : Int) ≤ 3 ∧ (3 : Int) < 2 ^ 31 ∧
    walk_limit run_walk.st.opts.walkmineff 3 = run_walk.st.opts.walkmineff * 3 * 3 ∧
    walk_limit run_walk.st.opts.walkmineff 3
      ≤ walk_limit run_walk.st.opts.walkmineff 10485765 :=
  have h := walk_limit_saturating E0 run_walk 3 (by decide) (by decide) (by decide)
    (by decide)
  ⟨by decide, by decide, by decide, by decide, h.2.1 (by decide),
    h.2.2.2.2.2.2.2.2 10485765 (by decide) (by decide)⟩

/-! ## Satisfying the formula by saved phases -/

section SavedPhases

attribute [local irreducible] Run.call Run.ask Run.log Run.upd

theorem saved_phases_loop_log (E : Env T) (fuel : Nat) (r : Run T) :
    ∃ (k : Nat) (last : List Call),
      (saved_phases_loop E fuel r).2.trace
        = r.trace ++ (List.replicate k saved_phase_step).flatten ++ last ∧
      k ≤ fuel ∧
      SavedPhasesEnd fuel k (saved_phases_loop E fuel r).1 last
        (saved_phases_loop E fuel r).2.st := by
  induction fuel generalizing r with
  | zero =>
    exact ⟨0, [], by simp [saved_phases_loop], le_refl _, Or.inr (Or.inr (Or.inr ⟨rfl, rfl, rfl⟩))⟩
  | succ n ih =>
    unfold saved_phases_loop
    simp only []
    by_cases h1 : (r.ask E.satisfied Call.satisfied).1 = true
    · rw [if_pos h1]
      refine ⟨0, [Call.satisfied true], ?_, Nat.zero_le _, Or.inl ⟨rfl, rfl⟩⟩
      rw [Run.ask_fst] at h1
      rw [Run.ask_trace, h1]
      simp
    · rw [if_neg h1]
      have h1' : (E.satisfied r.st).1 = false := by
        have h := h1
        rw [Run.ask_fst] at h
        exact Bool.eq_false_iff.mpr h
      by_cases h2 : ((r.ask E.satisfied Call.satisfied).2.ask E.decide Call.decide).1 ≠ 0
      · rw [if_pos h2]
        refine ⟨0, _, ?_, Nat.zero_le _, Or.inr (Or.inl ⟨rfl, _, h2, rfl⟩)⟩
        rw [Run.ask_trace, Run.ask_trace, h1', Run.ask_fst]
        simp
      · rw [if_neg h2]
        have h2' : (E.decide (r.ask E.satisfied Call.satisfied).2.st).1 = 0 := by
          have h := h2
          rw [Run.ask_fst] at h
          exact not_not.mp h
        by_cases h3 : (((r.ask E.satisfied Call.satisfied).2.ask E.decide Call.decide).2.ask
            E.propagate Call.propagate).1 = true
        · rw [h3]
          simp only [Bool.not_true, Bool.false_eq_true, if_false]
          obtain ⟨k, last, e1, e2, e3⟩ := ih (((r.ask E.satisfied Call.satisfied).2.ask
            E.decide Call.decide).2.ask E.propagate Call.propagate).2
          refine ⟨k + 1, last, ?_, Nat.succ_le_succ e2, ?_⟩
          · rw [Run.ask_fst] at h3
            rw [e1, Run.ask_trace, Run.ask_trace, Run.ask_trace, h1', h2', h3,
              List.replicate_succ, List.flatten_cons]
            simp [saved_phase_step]
          · rcases e3 with h | h | h | h
            · exact Or.inl h
            · exact Or.inr (Or.inl h)
            · exact Or.inr (Or.inr (Or.inl h))
            · exact Or.inr (Or.inr (Or.inr ⟨h.1, h.2.1, by rw [h.2.2]⟩))
        · have h3' : (((r.ask E.satisfied Call.satisfied).2.ask E.decide Call.decide).2.ask
              E.propagate Call.propagate).1 = false := Bool.eq_false_iff.mpr h3
          rw [h3']
          simp only [Bool.not_false, if_true]
          refine ⟨0, _, ?_, Nat.zero_le _, Or.inr (Or.inr (Or.inl ⟨rfl, ?_, rfl⟩))⟩
          · rw [Run.ask_fst] at h3'
            rw [Run.upd_trace, Run.call_trace, Run.ask_trace, Run.ask_trace, Run.ask_trace,
              h1', h2', h3']
            simp
          · rw [Run.upd_st]

theorem saved_phases_loop_unsat (E : Env T) (fuel : Nat) (r : Run T)
    (h1 : ∀ s, (E.satisfied s).2.unsat = s.unsat) (h2 : ∀ s, (E.decide s).2.unsat = s.unsat)
    (h3 : ∀ s, (E.propagate s).2.unsat = s.unsat) (h4 : KeepsUnsat E.backtrack) :
    (saved_phases_loop E fuel r).2.st.unsat = r.st.unsat := by
  induction fuel generalizing r with
  | zero => rfl
  | succ n ih =>
    unfold saved_phases_loop
    simp only []
    split
    · rw [Run.ask_st, h1]
    · split
      · rw [Run.ask_st, h2, Run.ask_st, h1]
      · split
        · rw [Run.upd_st, Run.call_st, h4, Run.ask_st, h3, Run.ask_st, h2, Run.ask_st, h1]
        · rw [ih, Run.ask_st, h3, Run.ask_st, h2, Run.ask_st, h1]

/-- C20: `try_to_satisfy_formula_by_saved_phases`.  Its call log is its entry,
`k` full iterations of the loop, one last partial iteration and, when it
returns, its return; it returns unless the loop of the model runs out of its
`fuel` iterations, each of which recorded that the formula is not satisfied, a
successful decision and a propagation without conflict.  On return
`force_saved_phase` is false and the result is 10, 20 or 0: 10 with a last call
of `satisfied` that answered true; 20 with a last call of `decide` that
returned non-zero; 0 with a last call of `propagate` that reported a conflict,
followed by exactly one call of `backtrack`, and with `conflict` reset.  The
log holds no call of `analyze` or `learn_empty_clause`, and `unsat` is left as
it was when `satisfied`, `decide`, `propagate` and `backtrack` do not write
it. -/
theorem saved_phases_outcome (E : Env T) (fuel : Nat) (r : Run T) :
    ∃ (k : Nat) (last : List Call),
      k ≤ fuel ∧
      (try_to_satisfy_formula_by_saved_phases E fuel r).2.trace = r.trace ++
        stage_log Fn.try_to_satisfy_formula_by_saved_phases
          ((List.replicate k saved_phase_step).flatten ++ last)
          (try_to_satisfy_formula_by_saved_phases E fuel r).1 ∧
      SavedPhasesEnd fuel k (try_to_satisfy_formula_by_saved_phases E fuel r).1 last
        (try_to_satisfy_formula_by_saved_phases E fuel r).2.st ∧
      ((try_to_satisfy_formula_by_saved_phases E fuel r).1 ≠ none →
        (try_to_satisfy_formula_by_saved_phases E fuel r).2.st.force_saved_phase = false) ∧
      Call.analyze ∉ stage_log Fn.try_to_satisfy_formula_by_saved_phases
        ((List.replicate k saved_phase_step).flatten ++ last)
        (try_to_satisfy_formula_by_saved_phases E fuel r).1 ∧
      Call.learn_empty_clause ∉ stage_log Fn.try_to_satisfy_formula_by_saved_phases
        ((List.replicate k saved_phase_step).flatten ++ last)
        (try_to_satisfy_formula_by_saved_phases E fuel r).1 ∧
      ((∀ s, (E.satisfied s).2.unsat = s.unsat) → (∀ s, (E.decide s).2.unsat = s.unsat) →
        (∀ s, (E.propagate s).2.unsat = s.unsat) → KeepsUnsat E.backtrack →
        (try_to_satisfy_formula_by_saved_phases E fuel r).2.st.unsat = r.st.unsat) := by
  obtain ⟨k, last, e1, e2, e3⟩ := saved_phases_loop_log E fuel
    ((r.log (Call.enter Fn.try_to_satisfy_formula_by_saved_phases)).upd
      fun s => { s with force_saved_phase := true })
  have eu := saved_phases_loop_unsat E fuel
    ((r.log (Call.enter Fn.try_to_satisfy_formula_by_saved_phases)).upd
      fun s => { s with force_saved_phase := true })
  rw [Run.upd_trace, Run.log_trace] at e1
  rw [Run.upd_st, Run.log_st] at eu
  have hstep : ∀ e ∈ (List.replicate k saved_phase_step).flatten,
      e ≠ Call.analyze ∧ e ≠ Call.learn_empty_clause := by
    intro e he
    rw [List.mem_flatten] at he
    obtain ⟨l, hl, hel⟩ := he
    rw [List.eq_of_mem_replicate hl] at hel
    simp only [saved_phase_step, List.mem_cons, List.mem_singleton, List.not_mem_nil,
      or_false] at hel
    rcases hel with h | h | h <;> subst h <;> exact ⟨by decide, by decide⟩
  have hlast : ∀ e ∈ last, e ≠ Call.analyze ∧ e ≠ Call.learn_empty_clause := by
    intro e he
    rcases e3 with h | h | h | h
    · rw [h.2] at he
      simp only [List.mem_singleton] at he
      subst he
      exact ⟨by decide, by decide⟩
    · obtain ⟨_, d, _, hd⟩ := h
      rw [hd] at he
      simp only [List.mem_cons, List.mem_singleton, List.not_mem_nil, or_false] at he
      rcases he with h | h <;> subst h <;> exact ⟨nofun, nofun⟩
    · rw [h.2.2] at he
      simp only [List.mem_cons, List.mem_singleton, List.not_mem_nil, or_false] at he
      rcases he with h | h | h | h <;> subst h <;> exact ⟨by decide, by decide⟩
    · rw [h.2.1] at he
      exact absurd he (List.not_mem_nil _)
  unfold try_to_satisfy_formula_by_saved_phases
  simp only []
  generalize saved_phases_loop E fuel
    ((r.log (Call.enter Fn.try_to_satisfy_formula_by_saved_phases)).upd
      fun s => { s with force_saved_phase := true }) = p at e1 e3 eu
  obtain ⟨res, x⟩ := p
  simp only at e1 e3 eu
  cases res with
  | none =>
    simp only
    refine ⟨k, last, e2, ?_, e3, fun h => absurd rfl h, ?_, ?_, eu⟩
    · rw [e1]
      simp [stage_log, closing]
    · simp only [stage_log, closing, List.mem_cons, List.mem_append, List.not_mem_nil,
        or_false, not_or]
      exact ⟨by decide, fun h => (hstep _ h).1 rfl, fun h => (hlast _ h).1 rfl⟩
    · simp only [stage_log, closing, List.mem_cons, List.mem_append, List.not_mem_nil,
        or_false, not_or]
      exact ⟨by decide, fun h => (hstep _ h).2 rfl, fun h => (hlast _ h).2 rfl⟩
  | some v =>
    simp only
    refine ⟨k, last, e2, ?_, ?_, fun _ => ?_, ?_, ?_, ?_⟩
    · rw [Run.log_trace, Run.upd_trace, e1]
      simp [stage_log, closing]
    · rw [Run.log_st, Run.upd_st]
      exact e3
    · rw [Run.log_st, Run.upd_st]
    · simp only [stage_log, closing, List.mem_cons, List.mem_append, List.mem_singleton,
        List.not_mem_nil, or_false, not_or]
      exact ⟨by decide, ⟨fun h => (hstep _ h).1 rfl, fun h => (hlast _ h).1 rfl⟩, nofun⟩
    · simp only [stage_log, closing, List.mem_cons, List.mem_append, List.mem_singleton,
        List.not_mem_nil, or_false, not_or]
      exact ⟨by decide, ⟨fun h => (hstep _ h).2 rfl, fun h => (hlast _ h).2 rfl⟩, nofun⟩
    · intro a1 a2 a3 a4
      rw [Run.log_st, Run.upd_st]
      exact eu a1 a2 a3 a4

end SavedPhases

theorem saved_phases_outcome_witness :
    (try_to_satisfy_formula_by_saved_phases E_conflict 5 run1).1 = some 0 ∧
    (try_to_satisfy_formula_by_saved_phases E_conflict 5 run1).2.trace =
      [Call.enter Fn.try_to_satisfy_formula_by_saved_phases, Call.satisfied false,
        Call.decide 0, Call.propagate false, Call.backtrack,
        Call.leave Fn.try_to_satisfy_formula_by_saved_phases 0] ∧
    (try_to_satisfy_formula_by_saved_phases E_sat 5 run1).1 = some 10 ∧
    (try_to_satisfy_formula_by_saved_phases E0 5 run1).1 = none ∧
    ((try_to_satisfy_formula_by_saved_phases E_conflict 5 run1).1 ≠ none →
      (try_to_satisfy_formula_by_saved_phases E_conflict 5 run1).2.st.force_saved_phase
        = false) :=
  ⟨by decide, by decide, by decide, by decide,
    (saved_phases_outcome E_conflict 5 run1).elim fun _ h => h.elim fun _ h => h.2.2.2.1⟩

/-! ## Limits: a second call of `init_limits` -/

theorem limit_ext (a b : Limit) (h1 : a.initialized = b.initialized)
    (h2 : a.conflicts = b.conflicts) (h3 : a.decisions = b.decisions)
    (h4 : a.preprocessing = b.preprocessing) (h5 : a.localsearch = b.localsearch)
    (h6 : a.compact = b.compact) (h7 : a.elim = b.elim) (h8 : a.flush = b.flush)
    (h9 : a.probe = b.probe) (h10 : a.reduce = b.reduce) (h11 : a.rephase = b.rephase)
    (h12 : a.report = b.report) (h13 : a.restart = b.restart)
    (h14 : a.stabilize = b.stabilize) (h15 : a.subsume = b.subsume)
    (h16 : a.rephased0 = b.rephased0) (h17 : a.rephased1 = b.rephased1)
    (h18 : a.elimbound = b.elimbound) : a = b := by
  cases a
  cases b
  simp only at h1 h2 h3 h4 h5 h6 h7 h8 h9 h10 h11 h12 h13 h14 h15 h16 h17 h18
  simp only [h1, h2, h3, h4, h5, h6, h7, h8, h9, h10, h11, h12, h13, h14, h15, h16, h17, h18]

theorem inc_ext (a b : Inc) (h1 : a.flush = b.flush) (h2 : a.stabilize = b.stabilize)
    (h3 : a.conflicts = b.conflicts) (h4 : a.decisions = b.decisions)
    (h5 : a.preprocessing = b.preprocessing) (h6 : a.localsearch = b.localsearch) :
    a = b := by
  cases a
  cases b
  simp only at h1 h2 h3 h4 h5 h6
  simp only [h1, h2, h3, h4, h5, h6]

theorem budgets_more (E : Env T) (r : Run T) :
    (init_limits_budgets E r).st.lim.conflicts
      = (if r.st.inc.conflicts < 0 then -1 else r.st.stats.conflicts + r.st.inc.conflicts) ∧
    (init_limits_budgets E r).st.lim.decisions
      = (if r.st.inc.decisions < 0 then -1 else r.st.stats.decisions + r.st.inc.decisions) ∧
    (init_limits_budgets E r).st.lim.preprocessing
      = (if r.st.inc.preprocessing ≤ 0 then 0 else r.st.inc.preprocessing) ∧
    (init_limits_budgets E r).st.lim.localsearch
      = (if r.st.inc.localsearch ≤ 0 then 0 else r.st.inc.localsearch) ∧
    (init_limits_budgets E r).st.inc.conflicts = r.st.inc.conflicts ∧
    (init_limits_budgets E r).st.inc.decisions = r.st.inc.decisions ∧
    (init_limits_budgets E r).st.inc.preprocessing = r.st.inc.preprocessing ∧
    (init_limits_budgets E r).st.inc.localsearch = r.st.inc.localsearch := by
  by_cases h : (r.st.opts.stabilize && decide (r.st.opts.reluctant ≠ 0)) = true
  · simp only [init_limits_budgets, Run.upd_st, Run.log_st, h, if_true, and_self]
  · simp only [init_limits_budgets, Run.upd_st, Run.log_st, h, Bool.false_eq_true, if_false,
      and_self]

theorem passes_inc (E : Env T) (b : Bool) (r : Run T) :
    (init_limits_passes E b r).st.inc.stabilize = r.st.inc.stabilize ∧
    (init_limits_passes E b r).st.inc.conflicts = r.st.inc.conflicts ∧
    (init_limits_passes E b r).st.inc.decisions = r.st.inc.decisions ∧
    (init_limits_passes E b r).st.inc.preprocessing = r.st.inc.preprocessing ∧
    (init_limits_passes E b r).st.inc.localsearch = r.st.inc.localsearch ∧
    (init_limits_passes E b r).st.lim.conflicts = r.st.lim.conflicts ∧
    (init_limits_passes E b r).st.lim.decisions = r.st.lim.decisions ∧
    (init_limits_passes E b r).st.lim.preprocessing = r.st.lim.preprocessing ∧
    (init_limits_passes E b r).st.lim.localsearch = r.st.lim.localsearch ∧
    (init_limits_passes E b r).st.lim.stabilize = r.st.lim.stabilize := by
  cases b <;>
    simp only [init_limits_passes, if_true, Run.upd_st, Bool.not_true, Bool.false_eq_true,
      if_false, Bool.not_false, and_self]

theorem mode_stable (E : Env T) (b : Bool) (r : Run T) (hi : KeepsLimits E.init_averages)
    (hs : KeepsLimits E.swap_averages)
    (h : ¬ (r.st.opts.stabilize && r.st.opts.stabilizeonly) = true) :
    (init_limits_mode E b r).st.stable = false := by
  cases b
  · rw [mode_fresh]
    simp only [keeps_stable hi]
    simpa using h
  · by_cases hst : r.st.stable = true
    · rw [mode_switch E r h hst]
      simp only [keeps_stable hs]
    · rw [mode_unstable E r h hst]
      simpa using hst

theorem init_limits_summary (E : Env T) (r : Run T) (hi : KeepsLimits E.init_averages)
    (hs : KeepsLimits E.swap_averages) :
    (init_limits E r).st.stats = r.st.stats ∧
    (init_limits E r).st.opts = r.st.opts ∧
    (init_limits E r).st.lim.initialized = true ∧
    (init_limits E r).st.lim.rephase = r.st.stats.conflicts + r.st.opts.rephaseint ∧
    (init_limits E r).st.lim.rephased0 = 0 ∧
    (init_limits E r).st.lim.rephased1 = 0 ∧
    (init_limits E r).st.lim.restart = r.st.stats.conflicts + r.st.opts.restartint ∧
    (init_limits E r).st.lim.report = 0 ∧
    (init_limits E r).st.lim.elimbound = r.st.opts.elimboundmin ∧
    (init_limits E r).st.lim.stabilize = r.st.stats.conflicts + r.st.opts.stabilizeint ∧
    (init_limits E r).st.lim.conflicts
      = (if r.st.inc.conflicts < 0 then -1 else r.st.stats.conflicts + r.st.inc.conflicts) ∧
    (init_limits E r).st.lim.decisions
      = (if r.st.inc.decisions < 0 then -1 else r.st.stats.decisions + r.st.inc.decisions) ∧
    (init_limits E r).st.lim.preprocessing
      = (if r.st.inc.preprocessing ≤ 0 then 0 else r.st.inc.preprocessing) ∧
    (init_limits E r).st.lim.localsearch
      = (if r.st.inc.localsearch ≤ 0 then 0 else r.st.inc.localsearch) ∧
    (init_limits E r).st.inc.stabilize = r.st.opts.stabilizeint ∧
    (init_limits E r).st.inc.conflicts = r.st.inc.conflicts ∧
    (init_limits E r).st.inc.decisions = r.st.inc.decisions ∧
    (init_limits E r).st.inc.preprocessing = r.st.inc.preprocessing ∧
    (init_limits E r).st.inc.localsearch = r.st.inc.localsearch ∧
    (init_limits E r).st.reported = false ∧
    (¬ (r.st.opts.stabilize && r.st.opts.stabilizeonly) = true →
      (init_limits E r).st.stable = false) := by
  rw [init_limits_st]
  generalize r.st.lim.initialized = b
  obtain ⟨-, -, -, -, -, -, b7, b8, b9, b10, b11, b12, b13, b14, b15, -, -, b18, b19, b20, b21⟩ :=
    budgets_fields E (init_limits_mode E b
      (init_limits_passes E b (r.log (Call.enter Fn.init_limits))))
  obtain ⟨c1, c2, c3, c4, c5, c6, c7, c8⟩ :=
    budgets_more E (init_limits_mode E b
      (init_limits_passes E b (r.log (Call.enter Fn.init_limits))))
  obtain ⟨m1, m2, -, m4, m5, m6⟩ := mode_frame E b
    (init_limits_passes E b (r.log (Call.enter Fn.init_limits))) hi hs
  obtain ⟨p1, p2, p3, p4, p5, p6, p7⟩ :=
    passes_reset E b (r.log (Call.enter Fn.init_limits))
  obtain ⟨q1, q2, -, -⟩ := passes_frame E b (r.log (Call.enter Fn.init_limits))
  obtain ⟨-, i2, i3, i4, i5, -⟩ := passes_inc E b (r.log (Call.enter Fn.init_limits))
  have hst : ¬ (r.st.opts.stabilize && r.st.opts.stabilizeonly) = true →
      (init_limits_budgets E (init_limits_mode E b
        (init_limits_passes E b (r.log (Call.enter Fn.init_limits))))).st.stable = false := by
    intro h
    rw [b19]
    exact mode_stable E b _ hi hs (by rw [q2]; exact h)
  rw [b7, b8, b9, b10, b11, b12, b13, b14, b15, b18, b20, b21, c1, c2, c3, c4, c5, c6, c7, c8,
    m1, m2, m4, m5, m6, p1, p2, p3, p4, p5, p6, p7, q1, q2, i2, i3, i4, i5]
  simp only [Run.log_st, true_and]
  exact hst

theorem init_limits_kept (E : Env T) (r : Run T) (hinc : r.st.lim.initialized = true)
    (hs : KeepsLimits E.swap_averages) :
    (init_limits E r).st.lim.reduce = r.st.lim.reduce ∧
    (init_limits E r).st.lim.flush = r.st.lim.flush ∧
    (init_limits E r).st.lim.subsume = r.st.lim.subsume ∧
    (init_limits E r).st.lim.elim = r.st.lim.elim ∧
    (init_limits E r).st.lim.probe = r.st.lim.probe ∧
    (init_limits E r).st.lim.compact = r.st.lim.compact ∧
    (init_limits E r).st.inc.flush = r.st.inc.flush ∧
    (init_limits E r).st.last = r.st.last ∧
    ((r.st.opts.stabilize && r.st.opts.stabilizeonly) = true ∨ r.st.stable = false →
      (init_limits E r).st.stable = r.st.stable ∧
      (init_limits E r).trace = r.trace ++ [Call.enter Fn.init_limits,
        reluctant_call r.st.opts, Call.leave Fn.init_limits 0]) := by
  rw [init_limits_st, init_limits_trace, hinc]
  obtain ⟨b1, b2, b3, b4, b5, b6, -, -, -, -, -, -, -, -, -, b16, b17, -, b19, -, -⟩ :=
    budgets_fields E (init_limits_mode E true
      (init_limits_passes E true (r.log (Call.enter Fn.init_limits))))
  obtain ⟨m1, m2, m3, -⟩ := mode_frame_incremental E
    (init_limits_passes E true (r.log (Call.enter Fn.init_limits))) hs
  obtain ⟨p1, p2, p3, p4, p5, p6, p7, p8⟩ :=
    passes_keep E (r.log (Call.enter Fn.init_limits))
  obtain ⟨-, q2, q3, -⟩ := passes_frame E true (r.log (Call.enter Fn.init_limits))
  have qt := passes_trace E true (r.log (Call.enter Fn.init_limits))
  rw [b1, b2, b3, b4, b5, b6, b16, b17, b19, m1, m2, m3, p1, p2, p3, p4, p5, p6, p7, p8,
    budgets_trace_of]
  simp only [Run.log_st, true_and]
  intro h
  have hm : init_limits_mode E true (init_limits_passes E true
      (r.log (Call.enter Fn.init_limits)))
      = init_limits_passes E true (r.log (Call.enter Fn.init_limits)) := by
    by_cases hso : (r.st.opts.stabilize && r.st.opts.stabilizeonly) = true
    · exact mode_stable_only E _ (by rw [q2]; exact hso)
    · rcases h with h | h
      · exact absurd h hso
      · exact mode_unstable E _ (by rw [q2]; exact hso) (by rw [q3, Run.log_st, h]; decide)
  rw [hm, q3, q2, qt]
  simp only [Run.log_st, Run.log_trace, List.append_assoc, List.cons_append, List.nil_append,
    List.singleton_append, and_self]

/-- C22: `init_limits` is idempotent on unchanged inputs.  For every entry
state, fresh or incremental, a second call of `init_limits` right after the
first leaves `lim`, `inc`, `last`, `reported` and `stable` exactly as the first
call left them, and all it adds to the call log is its entry, the call on
`reluctant` and its return: neither `init_averages` nor `swap_averages` is
called.  (`init_averages` and `swap_averages`, which the first call may make,
are taken to satisfy `KeepsLimits`.) -/
theorem init_limits_twice (E : Env T) (r : Run T) (hi : KeepsLimits E.init_averages)
    (hs : KeepsLimits E.swap_averages) :
    (init_limits E (init_limits E r)).st.lim = (init_limits E r).st.lim ∧
    (init_limits E (init_limits E r)).st.inc = (init_limits E r).st.inc ∧
    (init_limits E (init_limits E r)).st.last = (init_limits E r).st.last ∧
    (init_limits E (init_limits E r)).st.reported = (init_limits E r).st.reported ∧
    (init_limits E (init_limits E r)).st.stable = (init_limits E r).st.stable ∧
    (init_limits E (init_limits E r)).st.stats = (init_limits E r).st.stats ∧
    (init_limits E (init_limits E r)).st.opts = (init_limits E r).st.opts ∧
    (init_limits E (init_limits E r)).trace = (init_limits E r).trace ++
      [Call.enter Fn.init_limits, reluctant_call r.st.opts, Call.leave Fn.init_limits 0] ∧
    Call.init_averages ∉ [Call.enter Fn.init_limits, reluctant_call r.st.opts,
      Call.leave Fn.init_limits 0] ∧
    Call.swap_averages ∉ [Call.enter Fn.init_limits, reluctant_call r.st.opts,
      Call.leave Fn.init_limits 0] := by
  obtain ⟨a1, a2, a3, a4, a5, a6, a7, a8, a9, a10, a11, a12, a13, a14, a15, a16, a17, a18,
    a19, a20, a21⟩ := init_limits_summary E r hi hs
  obtain ⟨b1, b2, b3, b4, b5, b6, b7, b8, b9, b10, b11, b12, b13, b14, b15, b16, b17, b18,
    b19, b20, b21⟩ := init_limits_summary E (init_limits E r) hi hs
  obtain ⟨k1, k2, k3, k4, k5, k6, k7, k8, k9⟩ := init_limits_kept E (init_limits E r) a3 hs
  have hcond : ((init_limits E r).st.opts.stabilize && (init_limits E r).st.opts.stabilizeonly)
      = true ∨ (init_limits E r).st.stable = false := by
    by_cases h : (r.st.opts.stabilize && r.st.opts.stabilizeonly) = true
    · exact Or.inl (by rw [a2]; exact h)
    · exact Or.inr (a21 h)
  obtain ⟨k10, k11⟩ := k9 hcond
  have hne : ∀ o : Options, reluctant_call o ≠ Call.init_averages ∧
      reluctant_call o ≠ Call.swap_averages := by
    intro o
    unfold reluctant_call
    split <;> exact ⟨nofun, nofun⟩
  refine ⟨limit_ext _ _ ?_ ?_ ?_ ?_ ?_ k6 k4 k2 k5 k1 ?_ ?_ ?_ ?_ k3 ?_ ?_ ?_,
    inc_ext _ _ k7 ?_ b16 b17 b18 b19, k8, ?_, k10, b1, b2, ?_, ?_, ?_⟩
  · rw [b3, a3]
  · rw [b11, a11, a16, a1]
  · rw [b12, a12, a17, a1]
  · rw [b13, a13, a18]
  · rw [b14, a14, a19]
  · rw [b4, a4, a1, a2]
  · rw [b8, a8]
  · rw [b7, a7, a1, a2]
  · rw [b10, a10, a1, a2]
  · rw [b5, a5]
  · rw [b6, a6]
  · rw [b9, a9, a2]
  · rw [b15, a15, a2]
  · rw [b20, a20]
  · rw [k11, a2]
  · simp only [List.mem_cons, List.mem_singleton, List.not_mem_nil, or_false, not_or]
    exact ⟨nofun, fun h => (hne _).1 h.symm, nofun⟩
  · simp only [List.mem_cons, List.mem_singleton, List.not_mem_nil, or_false, not_or]
    exact ⟨nofun, fun h => (hne _).2 h.symm, nofun⟩

theorem init_limits_twice_witness :
    KeepsLimits E0.init_averages ∧ KeepsLimits E0.swap_averages ∧
    (init_limits E0 run0).st.lim.initialized = true ∧
    (init_limits E0 (init_limits E0 run0)).st.lim = (init_limits E0 run0).st.lim ∧
    (init_limits E0 (init_limits E0 run1)).st.stable = (init_limits E0 run1).st.stable ∧
    (init_limits E0 (init_limits E0 run1)).trace = (init_limits E0 run1).trace ++
      [Call.enter Fn.init_limits, reluctant_call run1.st.opts,
        Call.leave Fn.init_limits 0] :=
  have hi : KeepsLimits E0.init_averages := fun _ => ⟨rfl, rfl, rfl, rfl, rfl, rfl, rfl⟩
  have hs : KeepsLimits E0.swap_averages := fun _ => ⟨rfl, rfl, rfl, rfl, rfl, rfl, rfl⟩
  ⟨hi, hs, by decide, (init_limits_twice E0 run0 hi hs).1,
    (init_limits_twice E0 run1 hi hs).2.2.2.2.1,
    (init_limits_twice E0 run1 hi hs).2.2.2.2.2.2.2.1⟩

end CaDiCaL

namespace MiniSat

/-! ## The MiniSat binding: `val` -/

variable {σ : Type}

theorem val_of_nomodel (B : Solver σ) (fuel : Nat) (lit : Int) (s : IPAsirMiniSAT σ)
    (h : s.nomodel = true) : val B fuel lit s = some (0, s) := by
  simp [val, h]

theorem val_of_model (B : Solver σ) (fuel : Nat) (lit : Int) (s : IPAsirMiniSAT σ)
    (h : s.nomodel = false) (x : Int × IPAsirMiniSAT σ) (hx : val B fuel lit s = some x) :
    x.1 = lit ∨ x.1 = -lit := by
  unfold val at hx
  rw [h] at hx
  simp only [Bool.false_eq_true, if_false] at hx
  cases hi : import_lit B fuel lit s with
  | none =>
    rw [hi] at hx
    exact Option.noConfusion hx
  | some p =>
    rw [hi] at hx
    simp only [Option.some.injEq] at hx
    rw [← hx]
    simp only
    split
    · exact Or.inl rfl
    · exact Or.inr rfl

theorem reset_nomodel (s : IPAsirMiniSAT σ) : (reset s).nomodel = s.nomodel := by
  unfold reset
  split <;> rfl

theorem solve_nomodel (B : Solver σ) (s : IPAsirMiniSAT σ) :
    ((solve B s).2.nomodel = false ↔ (solve B s).1 = 10) ∧
    ((solve B s).1 = 0 ∨ (solve B s).1 = 10 ∨ (solve B s).1 = 20) := by
  unfold solve
  simp only []
  cases (B.solveLimited (reset { s with calls := (s.calls + 1) % 2 ^ 64 }).assumptions
    (reset { s with calls := (s.calls + 1) % 2 ^ 64 }).base).1 <;> simp

theorem import_lit_nomodel (B : Solver σ) (fuel : Nat) (lit : Int) (s : IPAsirMiniSAT σ)
    (p : Lit × IPAsirMiniSAT σ) (h : import_lit B fuel lit s = some p) :
    p.2.nomodel = s.nomodel := by
  unfold import_lit at h
  cases hv : import_vars B fuel lit s.base with
  | none =>
    rw [hv] at h
    exact Option.noConfusion h
  | some b =>
    rw [hv] at h
    simp only [Option.some.injEq] at h
    rw [← h]

theorem add_nomodel (B : Solver σ) (fuel : Nat) (lit : Int) (s s' : IPAsirMiniSAT σ)
    (h : add B fuel lit s = some s') : s'.nomodel = true := by
  unfold add at h
  simp only [] at h
  split at h
  · cases hi : import_lit B fuel lit { reset s with nomodel := true } with
    | none =>
      rw [hi] at h
      exact Option.noConfusion h
    | some p =>
      rw [hi] at h
      simp only [Option.some.injEq] at h
      rw [← h]
      exact import_lit_nomodel B fuel lit _ p hi
  · simp only [Option.some.injEq] at h
    rw [← h]

theorem assume_nomodel (B : Solver σ) (fuel : Nat) (lit : Int) (s s' : IPAsirMiniSAT σ)
    (h : assume B fuel lit s = some s') : s'.nomodel = true := by
  unfold assume at h
  simp only [] at h
  cases hi : import_lit B fuel lit { reset s with nomodel := true } with
  | none =>
    rw [hi] at h
    exact Option.noConfusion h
  | some p =>
    rw [hi] at h
    simp only [Option.some.injEq] at h
    rw [← h]
    exact import_lit_nomodel B fuel lit _ p hi

/-- C21, the input on which `val` does not return 0 although there is no
model: a solver on which neither `add`, `assume` nor `solve` has been called.
The constructor sets `nomodel` to false, so `val (1)` does not return 0: it
makes variable 1 and returns `-1`, the base solver having no model (here
`modelValue` is `l_Undef`).  After one `add` the same call returns 0, and so it does after a
`solve` that did not return 10; after a `solve` that returned 10 it returns the
literal or its negation. -/
theorem val_before_solve :
    (IPAsirMiniSAT.new base0).nomodel = false ∧
    (val B0 1 1 (IPAsirMiniSAT.new base0)).map Prod.fst = some (-1) ∧
    ((add B0 2 2 (IPAsirMiniSAT.new base0)).bind (val B0 2 1)).map Prod.fst = some 0 ∧
    (solve B0 (IPAsirMiniSAT.new base0)).1 = 0 ∧
    (val B0 1 1 (solve B0 (IPAsirMiniSAT.new base0)).2).map Prod.fst = some 0 ∧
    (solve B0 (IPAsirMiniSAT.new { base0 with answer := LBool.l_True, model := [true] })).1
      = 10 ∧
    (val B0 1 1 (solve B0 (IPAsirMiniSAT.new
      { base0 with answer := LBool.l_True, model := [true] })).2).map Prod.fst = some 1 := by
  decide

/-! ## The MiniSat binding: `failed` -/

theorem mark_length (m : List Nat) (l : Lit) : (mark m l).length = m.length := by
  unfold mark
  split
  · rw [List.length_set]
  · rfl

theorem foldl_mark_length (cs : List Lit) (m : List Nat) :
    (cs.foldl mark m).length = m.length := by
  induction cs generalizing m with
  | nil => rfl
  | cons l cs ih => rw [List.foldl_cons, ih, mark_length]

end MiniSat
